import Mathlib

/-! Verification of the Data-Center-Maintenance-Simulator core.

Shallow embedding of the two simulation engines of the repository:

* `simulation.py` — `RailwaySystemSimulator.simulate_policy` /
  `run_simulations` (RAID-policy disk simulation, sorted-list event queue);
* `simulationNorm.py` — `simulate_server_and_disks` (server + disks,
  `heapq` event queue).

Modelling conventions, used throughout:

* Python floats are modelled as rationals `ℚ`; `float('inf')` is modelled
  with the two-constructor type `QInf`.
* Randomness is modelled by oracle streams: `scipy.stats.weibull_min.rvs`
  draws from a stream `w : ℕ → ℚ` of unit-Weibull variates (non-negative
  by hypothesis in the theorems), scaled by the `scale` argument, after
  scipy's documented domain check (`ValueError` when the shape is ≤ 0 or
  the scale is negative); `random.uniform a b` is `a + (b - a) * u` with
  `u : ℕ → ℚ` a unit-uniform stream (in `[0, 1]` by hypothesis).
* Fallible Python code (`ZeroDivisionError`, scipy's `ValueError`, the
  unreachable `None`-arithmetic `TypeError`, `pop` from an empty list)
  returns `Except PyErr`.
* The unbounded `while` loops are run on explicit fuel; a result of
  `none` means the fuel was exhausted, so every statement about a
  completed trial is conditioned on an `.ok (some _)` result.
* `events.sort()` followed by `events.pop(0)` (and likewise
  `heapq.heappop`) extracts an element that is minimal for the full
  lexicographic key the Python tuples are compared by — `(time,
  kind-string, index)`.  `popMin` extracts exactly such a minimal
  element, leftmost first; since the popped element is a minimum of the
  multiset, the sequence of popped events is the same.
* Python lists that are appended at the end and whose *last* element is
  mutated in place (`downtime_intervals`) are stored in reverse order
  (most recent interval first); the finishing step reverses them back.
-/

namespace DCSim



/-- Python exceptions that the modelled code can raise. -/
inductive PyErr where
  | valueError        : PyErr
  | zeroDivisionError : PyErr
  | typeError         : PyErr
  | indexError        : PyErr
deriving DecidableEq, Repr

/-- Model of `scipy.stats.weibull_min.rvs(shape, scale=scale)` with an
oracle draw `u` (one element of the unit-Weibull stream): scipy rejects a
non-positive shape or a negative scale with `ValueError` ("Domain error in
arguments") and otherwise returns `scale * u`, `u ≥ 0` being a unit
Weibull variate. -/
def weibull_rvs (shape scale u : ℚ) : Except PyErr ℚ :=
  if shape ≤ 0 ∨ scale < 0 then .error .valueError else .ok (scale * u)

/-- Model of `random.uniform a b` with an oracle draw `u` from the unit
interval: `a + (b - a) * u`. -/
def uniform (a b u : ℚ) : ℚ := a + (b - a) * u

/-- A Python float that is either finite or `float('inf')` (the only
non-finite value the code produces). -/
inductive QInf where
  | fin : ℚ → QInf
  | inf : QInf
deriving DecidableEq, Repr

namespace QInf

/-- IEEE-style addition with a single infinity. -/
def add : QInf → QInf → QInf
  | fin a, fin b => fin (a + b)
  | _,     _     => inf

instance : Add QInf := ⟨QInf.add⟩

instance : Zero QInf := ⟨QInf.fin 0⟩

/-- Division of a possibly-infinite float by a (list-length) natural
number; infinity propagates, as in `np.mean` over a list containing
`float('inf')`. -/
def divNat : QInf → ℕ → QInf
  | fin a, n => fin (a / n)
  | inf,   _ => inf

instance : AddCommMonoid QInf where
  add_assoc a b c := by
    have hdef : ∀ x y : QInf, x + y = x.add y := fun _ _ => rfl
    cases a <;> cases b <;> cases c <;> simp [hdef, add, add_assoc]
  zero_add a := by
    have hdef : ∀ x y : QInf, x + y = x.add y := fun _ _ => rfl
    cases a <;> simp [hdef, add, Zero.toOfNat0]
  add_zero a := by
    have hdef : ∀ x y : QInf, x + y = x.add y := fun _ _ => rfl
    cases a <;> simp [hdef, add, Zero.toOfNat0]
  add_comm a b := by
    have hdef : ∀ x y : QInf, x + y = x.add y := fun _ _ => rfl
    cases a <;> cases b <;> simp [hdef, add, add_comm]
  nsmul := nsmulRec

end QInf

/-- The mean `np.mean` over a possibly-infinite-valued list: the sum divided by
the length. -/
def npMeanInf (xs : List QInf) : QInf := QInf.divNat xs.sum xs.length

/-- The mean `np.mean` over a finite-valued list: the sum divided by the length. -/
def npMean (xs : List ℚ) : ℚ := xs.sum / xs.length

/-- The square of `np.std` (population standard deviation, `ddof = 0`):
the mean of the squared deviations from the mean.  `np.std` itself is the
non-negative square root of this rational, which is not in general a
rational; all statements about `np.std` are made through its square. -/
def npStdSq (xs : List ℚ) : ℚ := npMean (xs.map (fun x => (x - npMean xs) ^ 2))

/-- Extract a minimal element (leftmost among minimal ones) together with
the remaining list.  `le` is the boolean comparison the Python tuples are
ordered by.  This models `list.sort()` + `list.pop(0)` as well as
`heapq.heappop`: both return an element that is minimal for the full
lexicographic tuple order. -/
def popMin (le : α → α → Bool) : List α → Option (α × List α)
  | [] => none
  | a :: l =>
    match popMin le l with
    | none => some (a, [])
    | some (m, r) => if le a m then some (a, l) else some (m, a :: r)

/-! ## Model of `simulation.py` — `RailwaySystemSimulator.simulate_policy`

The `components` list of the `DataCenterPolicy` dataclass is never read by
`simulate_policy` or `run_simulations`, so it is omitted from the record. -/

structure DataCenterPolicy where
  name : String
  avg_maintenance_cost : ℚ
  avg_replacement_cost : ℚ
  avg_service_cost : ℚ
  repair_time : ℚ
  raid_level : ℤ
  number_of_disks : ℕ
  disk_mttf : ℚ
deriving DecidableEq, Repr

/-- The two event-type strings of `simulate_policy`, with
`'failure' < 'repair'` in Python string order. -/
inductive PyKind where
  | failure : PyKind
  | repair  : PyKind
deriving DecidableEq, Repr

/-- Rank of the kind string in Python's lexicographic string order. -/
def PyKind.rank : PyKind → ℕ
  | .failure => 0
  | .repair  => 1

/-- One entry of the `events` list: the tuple `(time, kind, disk_index)`. -/
structure PyEvent where
  time : ℚ
  kind : PyKind
  idx  : ℕ
deriving DecidableEq, Repr

/-- The full lexicographic key Python compares the event tuples by:
time first, then the kind string, then the disk index. -/
def pyKey (e : PyEvent) : ℚ ×ₗ (ℕ ×ₗ ℕ) := toLex (e.time, toLex (e.kind.rank, e.idx))

/-- Boolean tuple comparison used by `events.sort()`. -/
def pyLe (a b : PyEvent) : Bool := decide (pyKey a ≤ pyKey b)

/-- The failure-branch redundancy decision of `simulate_policy`
(the `if/elif` chain on `policy.raid_level`, lines 120–137): the value of
`system_failed` as a function of the level, the total disk count and the
failed count *after* the increment. -/
def system_failed_check (level : ℤ) (total : ℕ) (failed : ℤ) : Bool :=
  if level = 0 then true
  else if level = 1 then failed = total
  else if level = 5 then 1 < failed
  else if level = 6 then 2 < failed
  else true

/-- The repair-branch redundancy decision of `simulate_policy`
(lines 160–177): the value of `system_recovered` as a function of the
level, the total disk count and the failed count *after* the decrement. -/
def system_recovered_check (level : ℤ) (total : ℕ) (failed : ℤ) : Bool :=
  if level = 0 then true
  else if level = 1 then failed < total
  else if level = 5 then failed ≤ 1
  else if level = 6 then failed ≤ 2
  else false

/-- The mutable state of one `simulate_policy` trial.  `disksFailed`
models the `disk['failed']` flags (the `failure_time` dict entry is only
ever read through the event tuples, so it is not duplicated here);
`rng` is the index of the next unit-Weibull draw. -/
structure PyState where
  currentTime : ℚ
  disksFailed : List Bool
  failedDisks : ℤ
  systemDown : Bool
  downtimeStart : Option ℚ
  totalDowntime : ℚ
  totalMaintenanceCost : ℚ
  totalReplacements : ℕ
  events : List PyEvent
  rng : ℕ
deriving DecidableEq, Repr

/-- Initial failure times: for each disk `i`,
`current_time + weibull_failure_time(1.5, policy.disk_mttf)` with
`current_time = 0` (lines 86–101). -/
def pyInitEvents (p : DataCenterPolicy) (w : ℕ → ℚ) : Except PyErr (List PyEvent) :=
  (List.range p.number_of_disks).mapM fun i => do
    let t ← weibull_rvs (3/2) p.disk_mttf (w i)
    pure ⟨0 + t, PyKind.failure, i⟩

/-- The state at the top of the `while` loop of `simulate_policy`. -/
def pyInit (p : DataCenterPolicy) (w : ℕ → ℚ) : Except PyErr PyState := do
  let evs ← pyInitEvents p w
  pure { currentTime := 0
         disksFailed := List.replicate p.number_of_disks false
         failedDisks := 0
         systemDown := false
         downtimeStart := none
         totalDowntime := 0
         totalMaintenanceCost := 0
         totalReplacements := 0
         events := evs
         rng := p.number_of_disks }

/-- Outcome of one iteration of the `while` loop: `brk` models the
`break` on an event past the horizon, `cont` continues the loop. -/
inductive PyLoopRes where
  | brk  : PyState → PyLoopRes
  | cont : PyState → PyLoopRes
deriving DecidableEq, Repr

/-- The state carried by either loop outcome. -/
def PyLoopRes.state : PyLoopRes → PyState
  | .brk s => s
  | .cont s => s

/-- One iteration of the `while` loop of `simulate_policy` (lines
106–190): pop the earliest event, break if it lies past the horizon,
otherwise advance the clock and run the failure or repair branch. -/
def pyStep (p : DataCenterPolicy) (dur : ℚ) (w : ℕ → ℚ) (s : PyState) :
    Except PyErr PyLoopRes :=
  match popMin pyLe s.events with
  | none => .error .indexError
  | some (e, rest) =>
    if dur < e.time then .ok (.brk { s with events := rest })
    else
      if e.kind = PyKind.failure then
        let failed' := s.failedDisks + 1
        let sysFailed := system_failed_check p.raid_level p.number_of_disks failed'
        let base : PyState :=
          { s with currentTime := e.time
                   disksFailed := s.disksFailed.set e.idx true
                   failedDisks := failed'
                   events := rest ++ [⟨e.time + p.repair_time, PyKind.repair, e.idx⟩]
                   totalMaintenanceCost :=
                     s.totalMaintenanceCost + (p.avg_service_cost + p.avg_maintenance_cost)
                   totalReplacements := s.totalReplacements + 1 }
        if sysFailed && !s.systemDown then
          .ok (.cont { base with systemDown := true, downtimeStart := some e.time })
        else
          .ok (.cont base)
      else do
        -- `elif event_type == 'repair'`: the kind type has exactly the two
        -- event strings the code ever inserts, so the `elif` guard holds here
        let failed' := s.failedDisks - 1
        let base : PyState :=
          { s with currentTime := e.time
                   disksFailed := s.disksFailed.set e.idx false
                   failedDisks := failed'
                   events := rest }
        let s1 ←
          if s.systemDown then
            if system_recovered_check p.raid_level p.number_of_disks failed' then
              match s.downtimeStart with
              | some st =>
                  Except.ok { base with systemDown := false
                                        downtimeStart := none
                                        totalDowntime := s.totalDowntime + (e.time - st) }
              | none => Except.error PyErr.typeError
            else Except.ok base
          else Except.ok base
        let sample ← weibull_rvs (3/2) p.disk_mttf (w s1.rng)
        .ok (.cont { s1 with events := s1.events ++ [⟨e.time + sample, PyKind.failure, e.idx⟩]
                             rng := s1.rng + 1 })

/-- The loop guard `current_time < self.simulation_duration and events`. -/
def pyLoopCond (dur : ℚ) (s : PyState) : Bool :=
  s.currentTime < dur && !s.events.isEmpty

/-- A trial that is still inside the loop (`running`) or has left it
(`done`). -/
inductive PyIterSt where
  | running : PyState → PyIterSt
  | done    : PyState → PyIterSt
deriving DecidableEq, Repr

/-- The underlying state of either loop phase. -/
def PyIterSt.state : PyIterSt → PyState
  | .running s => s
  | .done s => s

/-- Run up to `fuel` iterations of the `while` loop; the loop exits on
its own (to `done`) when the guard fails or an event past the horizon is
popped, and stays `running` if the fuel runs out first. -/
def pyIter (p : DataCenterPolicy) (dur : ℚ) (w : ℕ → ℚ) :
    ℕ → PyIterSt → Except PyErr PyIterSt
  | _, .done s => .ok (.done s)
  | 0, .running s =>
    if pyLoopCond dur s then .ok (.running s) else .ok (.done s)
  | fuel + 1, .running s =>
    if pyLoopCond dur s then do
      match ← pyStep p dur w s with
      | .brk s' => .ok (.done s')
      | .cont s' => pyIter p dur w fuel (.running s')
    else .ok (.done s)

/-- The per-trial result dict of `simulate_policy` (lines 204–212). -/
structure RunResult where
  policy_name : String
  total_downtime : ℚ
  total_maintenance_cost : ℚ
  total_replacements : ℕ
  availability : ℚ
  MTBF : QInf
  MTTR : ℚ
deriving DecidableEq, Repr

/-- The epilogue of `simulate_policy` (lines 192–212): close a still-open
outage at the horizon, then compute the metrics.  The division
`uptime / total_time` raises `ZeroDivisionError` when the horizon is 0;
the MTBF/MTTR divisions are guarded by `total_replacements > 0` in the
source. -/
def pyFinish (p : DataCenterPolicy) (dur : ℚ) (s : PyState) : Except PyErr RunResult := do
  let total ←
    if s.systemDown then
      match s.downtimeStart with
      | some st => Except.ok (s.totalDowntime + (dur - st))
      | none => Except.error PyErr.typeError
    else Except.ok s.totalDowntime
  let uptime := dur - total
  if dur = 0 then .error .zeroDivisionError
  else
    .ok { policy_name := p.name
          total_downtime := total
          total_maintenance_cost := s.totalMaintenanceCost
          total_replacements := s.totalReplacements
          availability := uptime / dur * 100
          MTBF := if 0 < s.totalReplacements then .fin (uptime / (s.totalReplacements : ℚ)) else .inf
          MTTR := if 0 < s.totalReplacements then total / (s.totalReplacements : ℚ) else 0 }

/-- One full trial: build the initial state, run the loop on the given
fuel, compute the metrics.  `none` means the fuel was exhausted before
the loop exited. -/
def simulate_policy (p : DataCenterPolicy) (dur : ℚ) (w : ℕ → ℚ) (fuel : ℕ) :
    Except PyErr (Option RunResult) := do
  let s0 ← pyInit p w
  match ← pyIter p dur w fuel (.running s0) with
  | .done s => do
    let r ← pyFinish p dur s
    pure (some r)
  | .running _ => pure none

/-- The `sla_targets` configuration entry. -/
structure SlaTargets where
  availability : ℚ
  max_downtime : ℚ
deriving DecidableEq, Repr

/-- The aggregation dict built by `run_simulations` (lines 229–243).
The source computes `np.std` only for `total_downtime` and
`total_maintenance_cost`; those two fields are stored here through their
squares (see `npStdSq`). -/
structure AggregatedResult where
  policy_name : String
  avg_downtime : ℚ
  avg_maintenance_cost : ℚ
  avg_replacements : ℚ
  avg_availability : ℚ
  avg_MTBF : QInf
  avg_MTTR : ℚ
  meets_sla : Bool
  std_downtime_sq : ℚ
  std_maintenance_cost_sq : ℚ
deriving DecidableEq, Repr

/-- The reduction of the per-trial results of one policy (lines 229–243). -/
def aggregate_results (name : String) (sla : SlaTargets) (rs : List RunResult) :
    AggregatedResult :=
  { policy_name := name
    avg_downtime := npMean (rs.map (·.total_downtime))
    avg_maintenance_cost := npMean (rs.map (·.total_maintenance_cost))
    avg_replacements := npMean (rs.map (fun r => (r.total_replacements : ℚ)))
    avg_availability := npMean (rs.map (·.availability))
    avg_MTBF := npMeanInf (rs.map (·.MTBF))
    avg_MTTR := npMean (rs.map (·.MTTR))
    meets_sla := decide (sla.availability ≤ npMean (rs.map (·.availability)) ∧
                         npMean (rs.map (·.total_downtime)) ≤ sla.max_downtime)
    std_downtime_sq := npStdSq (rs.map (·.total_downtime))
    std_maintenance_cost_sq := npStdSq (rs.map (·.total_maintenance_cost)) }

/-- The `sequence` over `Option`: `some` of the list of values when every
entry is `some`, otherwise `none` (fuel exhaustion propagates). -/
def collectSome : List (Option α) → Option (List α)
  | [] => some []
  | none :: _ => none
  | some a :: l => (collectSome l).map (a :: ·)

/-- Model of `run_simulations` (lines 214–248): `num_simulations` trials per
policy, then the aggregation.  The source draws every trial from the one
global scipy generator; the draws of trial `t` form a fresh segment of
that global stream, modelled as the per-trial stream `w t`. -/
def run_simulations (policies : List DataCenterPolicy) (dur : ℚ) (numSims : ℕ)
    (sla : SlaTargets) (w : ℕ → ℕ → ℚ) (fuel : ℕ) :
    Except PyErr (Option (List AggregatedResult)) := do
  let all ← policies.mapM fun p => do
    let rs ← (List.range numSims).mapM fun t => simulate_policy p dur (w t) fuel
    match collectSome rs with
    | some rs' => pure (some (aggregate_results p.name sla rs'))
    | none => pure (none : Option AggregatedResult)
  pure (collectSome all)

/-! ### Structural invariant of a `simulate_policy` state -/

/-- The pending event `e` is the next failure of disk `i`. -/
def isFailFor (i : ℕ) (e : PyEvent) : Bool := e.idx == i && e.kind == PyKind.failure

/-- The pending event `e` is the scheduled repair of disk `i`. -/
def isRepFor (i : ℕ) (e : PyEvent) : Bool := e.idx == i && e.kind == PyKind.repair

/-- Structural invariant of a `simulate_policy` state: the disk-flag list
has one entry per disk, every pending event addresses a real disk, each
disk has exactly one pending event and its kind mirrors the disk status
(a failure when the disk is up, a repair when it is down), `failed_disks`
counts the down flags, and `downtime_start` is set exactly while
`system_down` holds. -/
structure PyCount (p : DataCenterPolicy) (s : PyState) : Prop where
  disks_len : s.disksFailed.length = p.number_of_disks
  idx_lt : ∀ e ∈ s.events, e.idx < p.number_of_disks
  uniq_fail : ∀ i, i < p.number_of_disks →
    s.events.countP (isFailFor i) = (if s.disksFailed.getD i false then 0 else 1)
  uniq_rep : ∀ i, i < p.number_of_disks →
    s.events.countP (isRepFor i) = (if s.disksFailed.getD i false then 1 else 0)
  failed_count : s.failedDisks = (s.disksFailed.count true : ℤ)
  down_start : s.systemDown = true ↔ s.downtimeStart.isSome = true

/-! ### Time-bound invariant of a `simulate_policy` state -/

/-- Time bookkeeping invariant: the clock is within `[0, dur]`, no
pending event lies in the past, accumulated downtime is non-negative and
closes off correctly against the open outage (if any): at most
`downtime_start` worth of downtime has accrued while an outage is open,
at most `current_time` worth when none is. -/
structure PyTime (dur : ℚ) (s : PyState) : Prop where
  time_nonneg : 0 ≤ s.currentTime
  time_le : s.currentTime ≤ dur
  events_ge : ∀ e ∈ s.events, s.currentTime ≤ e.time
  dt_nonneg : 0 ≤ s.totalDowntime
  dt_bound : s.totalDowntime ≤ s.downtimeStart.getD s.currentTime
  start_bounds : ∀ st, s.downtimeStart = some st → 0 ≤ st ∧ st ≤ s.currentTime

/-! ### The RAID-1, two-disk redundancy invariant -/

/-- Level-1/two-disk state property: the system is down exactly while
both disks are simultaneously down (so with exactly one disk down it is
up). -/
def Inv6 (s : PyState) : Prop := s.systemDown = true ↔ s.failedDisks = 2

/-! ## Model of `simulationNorm.py` — `simulate_server_and_disks` -/

/-- One disk entry of a server's `disks` config list. -/
structure NDisk where
  repair_cost_PLN : ℚ
  lost_revenue_per_hour_PLN : ℚ
deriving DecidableEq, Repr

/-- One server entry of `config.json`. -/
structure NServer where
  id : ℕ
  server_repair_cost_PLN : ℚ
  disks : List NDisk
deriving DecidableEq, Repr

/-- The four event-type strings, ranked in Python string order:
`'disk_fail' < 'disk_repair' < 'server_fail' < 'server_repair'`. -/
inductive NKind where
  | disk_fail     : NKind
  | disk_repair   : NKind
  | server_fail   : NKind
  | server_repair : NKind
deriving DecidableEq, Repr

def NKind.rank : NKind → ℕ
  | .disk_fail     => 0
  | .disk_repair   => 1
  | .server_fail   => 2
  | .server_repair => 3

/-- A `heapq` entry `(timestamp, event_type, component_index)`; the index
is `None` for server events. -/
structure NEvent where
  time : ℚ
  kind : NKind
  idx  : Option ℕ
deriving DecidableEq, Repr

/-- The lexicographic key `heapq` orders the tuples by.  A `None` index is
ranked as `0`: Python would raise comparing `None` with an `int`, but the
index is only reached on a kind tie, and events of one kind all carry the
same index shape (server kinds always `None`, disk kinds always an
`int`), so the encoding never orders a pair the source would not. -/
def nKey (e : NEvent) : ℚ ×ₗ (ℕ ×ₗ ℕ) := toLex (e.time, toLex (e.kind.rank, e.idx.getD 0))

def nLe (a b : NEvent) : Bool := decide (nKey a ≤ nKey b)

/-- The per-disk metrics dict of `disks_results`, intervals stored most
recent first (see the file header). -/
structure DiskRes where
  downtime : ℚ
  failures : ℕ
  repair_cost_total : ℚ
  lost_revenue_total : ℚ
  mttr : ℚ
  mttf : ℚ
  availability_percent : ℚ
  downtime_intervalsRev : List (ℚ × Option ℚ)
deriving DecidableEq, Repr

/-- The initial per-disk metrics record (lines 40–50). -/
def DiskRes.init : DiskRes :=
  { downtime := 0, failures := 0, repair_cost_total := 0, lost_revenue_total := 0,
    mttr := 0, mttf := 0, availability_percent := 100, downtime_intervalsRev := [] }

/-- The `server_result` dict (lines 225–233), plus the local
`server_downtime_intervals` list so recorded outage intervals can be
inspected. -/
structure ServerRes where
  downtime : ℚ
  failures : ℕ
  repair_cost_total : ℚ
  lost_revenue : ℚ
  mttr : ℚ
  mttf : ℚ
  availability_percent : ℚ
  downtime_intervalsRev : List (ℚ × ℚ)
deriving DecidableEq, Repr

/-- Inputs of one `simulate_server_and_disks` call: the horizon, the
Weibull shape, the server config, and the two oracle streams (`w` for
`weibull_min.rvs` on numpy's generator, `u` for `random.uniform` on
Python's `random` module — two independent generators in the source). -/
structure NCtx where
  sim_duration : ℚ
  shape : ℚ
  server : NServer
  w : ℕ → ℚ
  u : ℕ → ℚ

/-- The sum `sum(float(disk['lost_revenue_per_hour_PLN']) for disk in disks)`. -/
def NCtx.totalLostPerHour (c : NCtx) : ℚ :=
  (c.server.disks.map (·.lost_revenue_per_hour_PLN)).sum

/-- The mutable state of one trial of `simulate_server_and_disks`,
including the processed-event log (`trace`, an observer recording each
popped event and whether its branch guard passed). -/
structure NState where
  currentTime : ℚ
  serverUp : Bool
  diskUp : List Bool
  server_total_downtime : ℚ
  server_failures : ℕ
  server_total_repair_cost : ℚ
  server_total_lost_revenue : ℚ
  server_downtime_intervalsRev : List (ℚ × ℚ)
  server_downtime_start : Option ℚ
  disks_results : List DiskRes
  events : List NEvent
  wIdx : ℕ
  uIdx : ℕ
  trace : List (NEvent × Bool)
deriving DecidableEq, Repr

/-- The `server_fail` marking loop (lines 91–95): every currently-up disk is
marked down with a new open downtime interval. -/
def markDisksDown (t : ℚ) (status : List Bool) (res : List DiskRes) : List DiskRes :=
  List.zipWith (fun up d =>
    if up then { d with downtime_intervalsRev := (t, none) :: d.downtime_intervalsRev }
    else d) status res

/-- The `server_repair` closing loop (lines 112–121): every currently-down
disk is marked up; a server-caused open interval is closed at the repair
time, accruing downtime but (deliberately, line 120) no lost revenue. -/
def closeDisksServerRepair (t : ℚ) (status : List Bool) (res : List DiskRes) : List DiskRes :=
  List.zipWith (fun up d =>
    if up then d
    else
      match d.downtime_intervalsRev with
      | (start, none) :: tail =>
          { d with downtime := d.downtime + (t - start)
                   downtime_intervalsRev := (start, some t) :: tail }
      | _ => d) status res

/-- End-of-simulation closing of open disk intervals at the horizon,
with lost revenue (lines 180–189 and, identically, 192–201). -/
def closeOpenDiskIntervals (c : NCtx) (status : List Bool) (res : List DiskRes) :
    List DiskRes :=
  (List.range res.length).map fun i =>
    let d := res.getD i DiskRes.init
    if status.getD i true = false then
      match d.downtime_intervalsRev with
      | (start, none) :: tail =>
          { d with downtime := d.downtime + (c.sim_duration - start)
                   lost_revenue_total := d.lost_revenue_total +
                     (c.sim_duration - start) *
                       (c.server.disks.getD i ⟨0, 0⟩).lost_revenue_per_hour_PLN
                   downtime_intervalsRev := (start, some c.sim_duration) :: tail }
      | _ => d
    else d

/-- The initial state (lines 26–71): everything up, one pending
`server_fail` drawn at scale `sim_duration / 1.0` and one pending
`disk_fail` per disk at scale `sim_duration / 2.0`. -/
def nInit (c : NCtx) : Except PyErr NState := do
  let sf ← weibull_rvs c.shape (c.sim_duration / 1) (c.w 0)
  let dts ← (List.range c.server.disks.length).mapM fun i => do
    let t ← weibull_rvs c.shape (c.sim_duration / 2) (c.w (i + 1))
    pure (⟨t, NKind.disk_fail, some i⟩ : NEvent)
  pure { currentTime := 0
         serverUp := true
         diskUp := List.replicate c.server.disks.length true
         server_total_downtime := 0
         server_failures := 0
         server_total_repair_cost := 0
         server_total_lost_revenue := 0
         server_downtime_intervalsRev := []
         server_downtime_start := none
         disks_results := List.replicate c.server.disks.length DiskRes.init
         events := ⟨sf, NKind.server_fail, none⟩ :: dts
         wIdx := c.server.disks.length + 1
         uIdx := 0
         trace := [] }

/-- Outcome of one iteration of the `while events:` loop. -/
inductive NLoopRes where
  | brk  : NState → NLoopRes
  | cont : NState → NLoopRes
deriving DecidableEq, Repr

def NLoopRes.state : NLoopRes → NState
  | .brk s => s
  | .cont s => s

/-- One iteration of the `while events:` loop (lines 73–168): pop the
earliest event, break past the horizon, advance the clock, and run the
`if/elif` chain on the event-type string. -/
def nStep (c : NCtx) (s : NState) : Except PyErr NLoopRes :=
  match popMin nLe s.events with
  | none => .error .indexError
  | some (e, rest) =>
    if c.sim_duration < e.time then .ok (.brk { s with events := rest })
    else
      let s := { s with currentTime := e.time, events := rest }
      if e.kind = NKind.server_fail then
        if s.serverUp then
          let r := uniform (3/2) (5/2) (c.u s.uIdx)
          let rf := if c.sim_duration < e.time + r then c.sim_duration else e.time + r
          .ok (.cont { s with
            serverUp := false
            server_failures := s.server_failures + 1
            server_total_repair_cost :=
              s.server_total_repair_cost + c.server.server_repair_cost_PLN
            server_downtime_start := some e.time
            disks_results := markDisksDown e.time s.diskUp s.disks_results
            diskUp := s.diskUp.map (fun _ => false)
            events := s.events ++ [⟨rf, NKind.server_repair, none⟩]
            server_downtime_intervalsRev := (e.time, rf) :: s.server_downtime_intervalsRev
            server_total_downtime := s.server_total_downtime + (rf - e.time)
            uIdx := s.uIdx + 1
            trace := s.trace ++ [(e, true)] })
        else .ok (.cont { s with trace := s.trace ++ [(e, false)] })
      else if e.kind = NKind.server_repair then
        if s.serverUp = false then do
          let lost := match s.server_downtime_start with
            | some st => (e.time - st) * c.totalLostPerHour
            | none => 0
          let next ← weibull_rvs c.shape (c.sim_duration / 1) (c.w s.wIdx)
          .ok (.cont { s with
            serverUp := true
            diskUp := s.diskUp.map (fun _ => true)
            disks_results := closeDisksServerRepair e.time s.diskUp s.disks_results
            server_total_lost_revenue := s.server_total_lost_revenue + lost
            events := if e.time + next ≤ c.sim_duration
              then s.events ++ [⟨e.time + next, NKind.server_fail, none⟩]
              else s.events
            wIdx := s.wIdx + 1
            trace := s.trace ++ [(e, true)] })
        else .ok (.cont { s with trace := s.trace ++ [(e, false)] })
      else if e.kind = NKind.disk_fail then
        let i := e.idx.getD 0
        if s.serverUp && s.diskUp.getD i false then
          let d := s.disks_results.getD i DiskRes.init
          let r := uniform (3/2) (5/2) (c.u s.uIdx)
          let rf := if c.sim_duration < e.time + r then c.sim_duration else e.time + r
          .ok (.cont { s with
            diskUp := s.diskUp.set i false
            disks_results := s.disks_results.set i
              { d with failures := d.failures + 1
                       repair_cost_total := d.repair_cost_total +
                         (c.server.disks.getD i ⟨0, 0⟩).repair_cost_PLN
                       downtime_intervalsRev := (e.time, none) :: d.downtime_intervalsRev }
            events := s.events ++ [⟨rf, NKind.disk_repair, some i⟩]
            uIdx := s.uIdx + 1
            trace := s.trace ++ [(e, true)] })
        else .ok (.cont { s with trace := s.trace ++ [(e, false)] })
      else
        -- `elif event_type == 'disk_repair'`: the remaining kind
        let i := e.idx.getD 0
        if s.serverUp && (s.diskUp.getD i true == false) then do
          let d := s.disks_results.getD i DiskRes.init
          let d' := match d.downtime_intervalsRev with
            | (start, none) :: tail =>
                { d with downtime := d.downtime + (e.time - start)
                         lost_revenue_total := d.lost_revenue_total +
                           (e.time - start) *
                             (c.server.disks.getD i ⟨0, 0⟩).lost_revenue_per_hour_PLN
                         downtime_intervalsRev := (start, some e.time) :: tail }
            | _ => d
          let next ← weibull_rvs c.shape (c.sim_duration / 2) (c.w s.wIdx)
          .ok (.cont { s with
            diskUp := s.diskUp.set i true
            disks_results := s.disks_results.set i d'
            events := if e.time + next ≤ c.sim_duration
              then s.events ++ [⟨e.time + next, NKind.disk_fail, some i⟩]
              else s.events
            wIdx := s.wIdx + 1
            trace := s.trace ++ [(e, true)] })
        else .ok (.cont { s with trace := s.trace ++ [(e, false)] })

/-- A trial of the `simulationNorm` engine that is still looping or has
left the loop. -/
inductive NIterSt where
  | running : NState → NIterSt
  | done    : NState → NIterSt
deriving DecidableEq, Repr

def NIterSt.state : NIterSt → NState
  | .running s => s
  | .done s => s

/-- Run up to `fuel` iterations of the `while events:` loop. -/
def nIter (c : NCtx) : ℕ → NIterSt → Except PyErr NIterSt
  | _, .done s => .ok (.done s)
  | 0, .running s =>
    if s.events.isEmpty = false then .ok (.running s) else .ok (.done s)
  | fuel + 1, .running s =>
    if s.events.isEmpty = false then do
      match ← nStep c s with
      | .brk s' => .ok (.done s')
      | .cont s' => nIter c fuel (.running s')
    else .ok (.done s)

/-- The epilogue (lines 170–233): close open intervals, then compute the
metrics.  The availability divisions raise `ZeroDivisionError` on a zero
horizon. -/
def nFinish (c : NCtx) (s : NState) : Except PyErr (ServerRes × List DiskRes) :=
  let s1 :=
    if s.serverUp = false ∧ s.server_downtime_start.isSome = true then
      let st := s.server_downtime_start.getD 0
      { s with
        server_total_downtime := s.server_total_downtime + (c.sim_duration - st)
        server_total_lost_revenue := s.server_total_lost_revenue +
          (c.sim_duration - st) * c.totalLostPerHour
        server_downtime_intervalsRev := (st, c.sim_duration) ::
          s.server_downtime_intervalsRev
        disks_results := closeOpenDiskIntervals c s.diskUp s.disks_results }
    else s
  let s2 := { s1 with disks_results := closeOpenDiskIntervals c s1.diskUp s1.disks_results }
  if c.sim_duration = 0 then .error .zeroDivisionError
  else
    .ok ({ downtime := s2.server_total_downtime
           failures := s2.server_failures
           repair_cost_total := s2.server_total_repair_cost
           lost_revenue := s2.server_total_lost_revenue
           mttr := if 0 < s2.server_failures then
             s2.server_total_downtime / (s2.server_failures : ℚ) else 0
           mttf := if 0 < s2.server_failures then
             c.sim_duration / (s2.server_failures : ℚ) else c.sim_duration
           availability_percent := (1 - s2.server_total_downtime / c.sim_duration) * 100
           downtime_intervalsRev := s2.server_downtime_intervalsRev },
         s2.disks_results.map fun d =>
           { d with
             mttr := if 0 < d.failures then d.downtime / (d.failures : ℚ) else 0
             mttf := if 0 < d.failures then c.sim_duration / (d.failures : ℚ)
               else c.sim_duration
             availability_percent := (1 - d.downtime / c.sim_duration) * 100 })

/-- One full trial of `simulate_server_and_disks`; `none` means the fuel
ran out before the queue drained. -/
def simulate_server_and_disks (c : NCtx) (fuel : ℕ) :
    Except PyErr (Option (ServerRes × List DiskRes)) := do
  let s0 ← nInit c
  match ← nIter c fuel (.running s0) with
  | .done s => do
    let r ← nFinish c s
    pure (some r)
  | .running _ => pure none

/-! ### Invariants of a `simulate_server_and_disks` state -/

/-- Every recorded interval in the (reversed) list is closed, ordered,
and lies within `[0, dur]`. -/
def allClosed (dur : ℚ) (l : List (ℚ × Option ℚ)) : Prop :=
  ∀ pr ∈ l, ∃ en, pr.2 = some en ∧ 0 ≤ pr.1 ∧ pr.1 ≤ en ∧ en ≤ dur

/-- Downtime bookkeeping of one disk: non-negative accrued downtime; an
up disk has only closed recorded intervals and downtime bounded by the
clock; a down disk has exactly one open interval at the head, opened in
the past, with the accrued downtime not exceeding its start. -/
def IntervalsOk (dur cur : ℚ) (up : Bool) (d : DiskRes) : Prop :=
  0 ≤ d.downtime ∧
  (up = true → allClosed dur d.downtime_intervalsRev ∧ d.downtime ≤ cur) ∧
  (up = false → ∃ st tail, d.downtime_intervalsRev = (st, none) :: tail ∧
    0 ≤ st ∧ st ≤ cur ∧ allClosed dur tail ∧ d.downtime ≤ st)

/-- The pending event is a server event (`server_fail` or `server_repair`). -/
def isServerEvent (e : NEvent) : Bool :=
  e.kind == NKind.server_fail || e.kind == NKind.server_repair

/-- The pending event is the next failure of disk `i`. -/
def isDiskFailFor (i : ℕ) (e : NEvent) : Bool :=
  e.kind == NKind.disk_fail && e.idx == some i

/-- The pending event addresses disk `i` (failure or repair). -/
def isForDisk (i : ℕ) (e : NEvent) : Bool := e.idx == some i

/-- The full invariant of a reachable `simulate_server_and_disks` state. -/
structure NGood (c : NCtx) (s : NState) : Prop where
  diskUp_len : s.diskUp.length = c.server.disks.length
  disks_len : s.disks_results.length = c.server.disks.length
  disk_idx : ∀ e ∈ s.events,
    (e.kind = NKind.disk_fail ∨ e.kind = NKind.disk_repair) →
    ∃ i, e.idx = some i ∧ i < c.server.disks.length
  time_nonneg : 0 ≤ s.currentTime
  time_le : s.currentTime ≤ c.sim_duration
  events_ge : ∀ e ∈ s.events, s.currentTime ≤ e.time
  repairs_le : ∀ e ∈ s.events,
    (e.kind = NKind.disk_repair ∨ e.kind = NKind.server_repair) →
    e.time ≤ c.sim_duration
  sdt_nonneg : 0 ≤ s.server_total_downtime
  up_state : s.serverUp = true →
    (∀ e ∈ s.events, e.kind ≠ NKind.server_repair) ∧
    s.server_total_downtime ≤ s.currentTime
  down_state : s.serverUp = false →
    ∃ e ∈ s.events, e.kind = NKind.server_repair ∧ s.server_total_downtime ≤ e.time
  srv_iv : ∀ iv ∈ s.server_downtime_intervalsRev,
    0 ≤ iv.1 ∧ iv.1 ≤ iv.2 ∧ iv.2 ≤ c.sim_duration
  srv_events_le1 : s.events.countP isServerEvent ≤ 1
  disks_ok : ∀ i, i < c.server.disks.length →
    IntervalsOk c.sim_duration s.currentTime (s.diskUp.getD i true)
      (s.disks_results.getD i DiskRes.init)
  per_disk_le1 : ∀ i, s.events.countP (isForDisk i) ≤ 1
  no_fail_when_down : s.serverUp = true → ∀ i, i < c.server.disks.length →
    s.diskUp.getD i true = false → s.events.countP (isDiskFailFor i) = 0

/-- No-more-failures invariant for disk `i`: no pending `disk_fail` event for disk
`i`, the disk tracks the server state exactly, and since the watched
moment (trace prefix `t0`) no `disk_fail` event for `i` was processed. -/
def NMF (i : ℕ) (t0 : List (NEvent × Bool)) (s : NState) : Prop :=
  s.events.countP (isDiskFailFor i) = 0 ∧
  s.diskUp.getD i true = s.serverUp ∧
  ∃ t1, s.trace = t0 ++ t1 ∧ ∀ pr ∈ t1, isDiskFailFor i pr.1 = false ∧
    (isForDisk i pr.1 = true → pr.1.kind = NKind.disk_repair → pr.2 = false)

/-- The spec's arithmetic mean, written as the spec states it (sum of the
values over their number); compared against the code's `npMean`. -/
def meanSpec (xs : List ℚ) : ℚ := xs.sum / xs.length

/-- The spec's population variance (square of the population standard
deviation): mean of the squared deviations from the mean, denominator
`N` (ddof 0); compared against the code's `npStdSq`. -/
def varSpec (xs : List ℚ) : ℚ :=
  (xs.map (fun x => (x - meanSpec xs) ^ 2)).sum / xs.length

def p0 : DataCenterPolicy := ⟨"p0", 1, 0, 2, 10, 0, 2, 10⟩

def w0 : ℕ → ℚ := fun n => if n = 0 then 1/10 else if n = 1 then 1/5 else 100

def p1 : DataCenterPolicy := ⟨"p1", 1, 0, 2, 10, 1, 2, 10⟩

def pBad : DataCenterPolicy := ⟨"bad", 1, 0, 2, 10, 0, 1, -1⟩

def cC5 : NCtx :=
  { sim_duration := 10, shape := 3/2, server := ⟨1, 5, []⟩,
    w := fun n => if n = 0 then 1/2 else 1, u := fun _ => 1/2 }

def cC5b : NCtx :=
  { sim_duration := 10, shape := 3/2, server := ⟨1, 5, []⟩,
    w := fun _ => 2, u := fun _ => 1/2 }

def cN : NCtx :=
  { sim_duration := 100, shape := 3/2, server := ⟨1, 5, [⟨3, 7⟩]⟩,
    w := fun n => if n = 0 then 11/100 else if n = 1 then 1/5 else 1,
    u := fun _ => 1/2 }

/-! ## Theorems -/

theorem popMin_nil (le : α → α → Bool) : popMin le ([] : List α) = none := rfl

theorem popMin_eq_none_iff (le : α → α → Bool) (l : List α) :
    popMin le l = none ↔ l = [] := by
  cases l with
  | nil => simp [popMin]
  | cons a l =>
    simp only [popMin]
    cases h : popMin le l with
    | none => simp
    | some p => cases p with
      | mk m r => by_cases hle : le a m <;> simp [hle]

theorem popMin_perm (le : α → α → Bool) (l : List α) (m : α) (r : List α)
    (h : popMin le l = some (m, r)) : l.Perm (m :: r) := by
  induction l generalizing m r with
  | nil => simp [popMin] at h
  | cons a l ih =>
    simp only [popMin] at h
    cases hl : popMin le l with
    | none =>
      rw [hl] at h
      have hnil := (popMin_eq_none_iff le l).mp hl
      subst hnil
      simp only [Option.some.injEq, Prod.mk.injEq] at h
      rw [← h.1, ← h.2]
    | some p =>
      cases p with
      | mk m' r' =>
        rw [hl] at h
        by_cases hle : le a m' <;> simp only [hle, if_true, if_false,
          Option.some.injEq, Prod.mk.injEq, Bool.false_eq_true] at h
        · rw [← h.1, ← h.2]
        · have hperm := ih m' r' hl
          rw [← h.1, ← h.2]
          exact (hperm.cons a).trans (List.Perm.swap m' a r')

theorem popMin_mem (le : α → α → Bool) (l : List α) (m : α) (r : List α)
    (h : popMin le l = some (m, r)) : m ∈ l :=
  (popMin_perm le l m r h).symm.mem_iff.mp (List.mem_cons_self m r)

theorem popMin_rest_subset (le : α → α → Bool) (l : List α) (m : α) (r : List α)
    (h : popMin le l = some (m, r)) : ∀ x ∈ r, x ∈ l := by
  intro x hx
  exact (popMin_perm le l m r h).symm.mem_iff.mp (List.mem_cons_of_mem m hx)

/-- The extracted element is minimal, provided `le` is total and
transitive (true of the lexicographic tuple order used by the code). -/
theorem popMin_min (le : α → α → Bool)
    (htot : ∀ a b, le a b ∨ le b a)
    (htrans : ∀ a b c, le a b → le b c → le a c)
    (l : List α) (m : α) (r : List α)
    (h : popMin le l = some (m, r)) : ∀ x ∈ r, le m x := by
  induction l generalizing m r with
  | nil => simp [popMin] at h
  | cons a l ih =>
    simp only [popMin] at h
    cases hl : popMin le l with
    | none =>
      rw [hl] at h
      have hnil := (popMin_eq_none_iff le l).mp hl
      subst hnil
      simp only [Option.some.injEq, Prod.mk.injEq] at h
      rw [← h.2]
      intro x hx
      simp at hx
    | some p =>
      cases p with
      | mk m' r' =>
        rw [hl] at h
        by_cases hle : le a m' <;> simp only [hle, if_true, if_false,
          Option.some.injEq, Prod.mk.injEq, Bool.false_eq_true] at h
        · -- a is the minimum; the rest is l
          intro x hx
          rw [← h.2] at hx
          rw [← h.1]
          -- x ∈ l: either x is reachable through m'
          have hperm := popMin_perm le l m' r' hl
          have hx' : x ∈ m' :: r' := hperm.mem_iff.mp hx
          rcases List.mem_cons.mp hx' with hxm | hxr
          · rw [hxm]; exact hle
          · exact htrans a m' x hle (ih m' r' hl x hxr)
        · -- m' is the minimum; the rest is a :: r'
          intro x hx
          rw [← h.2] at hx
          rw [← h.1]
          rcases List.mem_cons.mp hx with hxa | hxr
          · rw [hxa]
            rcases htot a m' with hcase | hcase
            · exact absurd hcase hle
            · exact hcase
          · exact ih m' r' hl x hxr

theorem pyLe_total : ∀ a b, pyLe a b ∨ pyLe b a := by
  intro a b
  simp only [pyLe, decide_eq_true_eq]
  exact le_total (pyKey a) (pyKey b)

theorem pyLe_trans : ∀ a b c, pyLe a b → pyLe b c → pyLe a c := by
  intro a b c
  simp only [pyLe, decide_eq_true_eq]
  exact le_trans

/-! ### List bookkeeping helpers -/

theorem getD_set_self {α : Type _} {l : List α} {i : ℕ} (d a : α) (hi : i < l.length) :
    (l.set i a).getD i d = a := by
  rw [List.getD_eq_getElem?_getD, List.getElem?_set_self hi]
  rfl

theorem getD_set_ne {α : Type _} {l : List α} {i j : ℕ} (d a : α) (hij : i ≠ j) :
    (l.set i a).getD j d = l.getD j d := by
  rw [List.getD_eq_getElem?_getD, List.getElem?_set_ne hij, ← List.getD_eq_getElem?_getD]

theorem getElem_of_getD {α : Type _} {l : List α} {i : ℕ} {d b : α} (hi : i < l.length)
    (h : l.getD i d = b) : l[i] = b := by
  rw [List.getD_eq_getElem?_getD, List.getElem?_eq_getElem hi] at h
  simpa using h

theorem count_true_set_true {l : List Bool} {i : ℕ} (hi : i < l.length)
    (h : l.getD i false = false) : (l.set i true).count true = l.count true + 1 := by
  have hget : l[i] = false := getElem_of_getD hi h
  rw [List.count_set _ _ _ _ hi, hget]
  simp

theorem count_true_set_false {l : List Bool} {i : ℕ} (hi : i < l.length)
    (h : l.getD i false = true) : (l.set i false).count true + 1 = l.count true := by
  have hget : l[i] = true := getElem_of_getD hi h
  have hpos : 0 < l.count true := by
    rw [List.count_pos_iff]
    rw [← hget]
    exact List.getElem_mem hi
  rw [List.count_set _ _ _ _ hi, hget]
  simp only [show ((false : Bool) == true) = false from rfl,
             show ((true : Bool) == true) = true from rfl]
  simp only [Bool.false_eq_true, if_false, if_true]
  omega

theorem countP_range_beq (n i : ℕ) :
    (List.range n).countP (fun j => j == i) = if i < n then 1 else 0 := by
  induction n with
  | zero => simp
  | succ n ih =>
    rw [List.range_succ, List.countP_append, ih, List.countP_cons]
    simp only [List.countP_nil, beq_iff_eq]
    by_cases h2 : n = i
    · subst h2
      rw [if_neg (Nat.lt_irrefl n), if_pos (Nat.lt_succ_self n)]
      simp
    · rw [if_neg h2]
      by_cases h1 : i < n
      · rw [if_pos h1, if_pos (Nat.lt_succ_of_lt h1)]
      · rw [if_neg h1, if_neg (by omega)]

theorem except_bind_ok {ε α β : Type _} (a : α) (k : α → Except ε β) :
    (Except.ok a : Except ε α) >>= k = k a := rfl

theorem except_bind_err {ε α β : Type _} (e : ε) (k : α → Except ε β) :
    (Except.error e : Except ε α) >>= k = .error e := rfl

theorem pyStep_count {p : DataCenterPolicy} {dur : ℚ} {w : ℕ → ℚ} {s s' : PyState}
    (hC : PyCount p s) (h : pyStep p dur w s = .ok (.cont s')) : PyCount p s' := by
  cases hpop : popMin pyLe s.events with
  | none => simp [pyStep, hpop] at h
  | some pr =>
    obtain ⟨e, rest⟩ := pr
    simp only [pyStep, hpop] at h
    have hperm := popMin_perm pyLe s.events e rest hpop
    have hrest_sub := popMin_rest_subset pyLe s.events e rest hpop
    have hek : e.idx < p.number_of_disks :=
      hC.idx_lt e (popMin_mem pyLe s.events e rest hpop)
    have hilen : e.idx < s.disksFailed.length := hC.disks_len ▸ hek
    have hrest_other : ∀ j, j ≠ e.idx →
        rest.countP (isFailFor j) = s.events.countP (isFailFor j) ∧
        rest.countP (isRepFor j) = s.events.countP (isRepFor j) := by
      intro j hj
      rw [hperm.countP_eq (isFailFor j), List.countP_cons,
          hperm.countP_eq (isRepFor j), List.countP_cons]
      have hne : (e.idx == j) = false := by
        simp only [beq_eq_false_iff_ne, ne_eq]
        exact fun hc => hj hc.symm
      constructor <;> simp [isFailFor, isRepFor, hne]
    by_cases hbrk : dur < e.time
    · rw [if_pos hbrk] at h
      exact absurd h (by simp)
    · rw [if_neg hbrk] at h
      by_cases hkind : e.kind = PyKind.failure
      · -- failure branch
        rw [if_pos hkind] at h
        have hcnt_fail : s.events.countP (isFailFor e.idx) =
            rest.countP (isFailFor e.idx) + 1 := by
          rw [hperm.countP_eq, List.countP_cons]
          simp [isFailFor, hkind]
        have hup : s.disksFailed.getD e.idx false = false := by
          by_contra hcon
          have hu := hC.uniq_fail e.idx hek
          rw [hcnt_fail, eq_true_of_ne_false hcon, if_pos rfl] at hu
          omega
        have hrest_fail : rest.countP (isFailFor e.idx) = 0 := by
          have hu := hC.uniq_fail e.idx hek
          rw [hcnt_fail, hup] at hu
          simpa using hu
        have hrest_rep : rest.countP (isRepFor e.idx) = 0 := by
          have h0 := hC.uniq_rep e.idx hek
          rw [hup] at h0
          rw [hperm.countP_eq, List.countP_cons] at h0
          have hmm : isRepFor e.idx e = false := by
            simp [isRepFor, hkind]
          rw [hmm] at h0
          simp only [Bool.false_eq_true, eq_self_iff_true, if_false, if_true] at h0
          omega
        -- facts about the updated disk flags and event list
        have hlen' : (s.disksFailed.set e.idx true).length = p.number_of_disks := by
          rw [List.length_set]; exact hC.disks_len
        have hidx' : ∀ ev ∈ rest ++ [⟨e.time + p.repair_time, PyKind.repair, e.idx⟩],
            ev.idx < p.number_of_disks := by
          intro ev hev
          rcases List.mem_append.mp hev with hin | hin
          · exact hC.idx_lt ev (hrest_sub ev hin)
          · simp only [List.mem_singleton] at hin
            rw [hin]
            exact hek
        have hufail' : ∀ i, i < p.number_of_disks →
            (rest ++ [⟨e.time + p.repair_time, PyKind.repair, e.idx⟩] :
              List PyEvent).countP (isFailFor i) =
            (if (s.disksFailed.set e.idx true).getD i false then 0 else 1) := by
          intro i hi
          rw [List.countP_append]
          by_cases hij : i = e.idx
          · subst hij
            rw [hrest_fail, getD_set_self _ _ hilen, if_pos rfl]
            simp [isFailFor]
          · rw [getD_set_ne _ _ (fun hc => hij hc.symm),
                (hrest_other i (fun hc => hij hc)).1, hC.uniq_fail i hi]
            have : isFailFor i (⟨e.time + p.repair_time, PyKind.repair, e.idx⟩ : PyEvent)
                = false := by simp [isFailFor]
            simp [this]
        have hurep' : ∀ i, i < p.number_of_disks →
            (rest ++ [⟨e.time + p.repair_time, PyKind.repair, e.idx⟩] :
              List PyEvent).countP (isRepFor i) =
            (if (s.disksFailed.set e.idx true).getD i false then 1 else 0) := by
          intro i hi
          rw [List.countP_append]
          by_cases hij : i = e.idx
          · subst hij
            rw [hrest_rep, getD_set_self _ _ hilen, if_pos rfl]
            simp [isRepFor]
          · rw [getD_set_ne _ _ (fun hc => hij hc.symm),
                (hrest_other i (fun hc => hij hc)).2, hC.uniq_rep i hi]
            have : isRepFor i (⟨e.time + p.repair_time, PyKind.repair, e.idx⟩ : PyEvent)
                = false := by
              simp only [isRepFor, Bool.and_eq_false_iff]
              left
              simp only [beq_eq_false_iff_ne, ne_eq]
              exact fun hc => hij hc.symm
            simp [this]
        have hfc' : s.failedDisks + 1 = ((s.disksFailed.set e.idx true).count true : ℤ) := by
          rw [count_true_set_true hilen hup, hC.failed_count]
          push_cast
          ring
        by_cases hcond : (system_failed_check p.raid_level p.number_of_disks
            (s.failedDisks + 1) && !s.systemDown) = true
        · rw [if_pos hcond] at h
          simp only [Except.ok.injEq, PyLoopRes.cont.injEq] at h
          subst h
          exact ⟨hlen', hidx', hufail', hurep', hfc', by simp⟩
        · rw [if_neg hcond] at h
          simp only [Except.ok.injEq, PyLoopRes.cont.injEq] at h
          subst h
          exact ⟨hlen', hidx', hufail', hurep', hfc', hC.down_start⟩
      · -- repair branch (`elif event_type == 'repair'`)
        rw [if_neg hkind] at h
        have hkrep : e.kind = PyKind.repair := by
          cases hk : e.kind
          · exact absurd hk hkind
          · rfl
        have hcnt_rep : s.events.countP (isRepFor e.idx) =
            rest.countP (isRepFor e.idx) + 1 := by
          rw [hperm.countP_eq, List.countP_cons]
          simp [isRepFor, hkrep]
        have hdw : s.disksFailed.getD e.idx false = true := by
          by_contra hcon
          have hu := hC.uniq_rep e.idx hek
          rw [hcnt_rep, eq_false_of_ne_true hcon, if_neg (by simp)] at hu
          omega
        have hrest_rep : rest.countP (isRepFor e.idx) = 0 := by
          have hu := hC.uniq_rep e.idx hek
          rw [hcnt_rep, hdw] at hu
          simpa using hu
        have hrest_fail : rest.countP (isFailFor e.idx) = 0 := by
          have h0 := hC.uniq_fail e.idx hek
          rw [hdw] at h0
          rw [hperm.countP_eq, List.countP_cons] at h0
          have hmm : isFailFor e.idx e = false := by
            simp [isFailFor, hkrep]
          rw [hmm] at h0
          simp only [Bool.false_eq_true, eq_self_iff_true, if_false, if_true] at h0
          omega
        have hlen'' : (s.disksFailed.set e.idx false).length = p.number_of_disks := by
          rw [List.length_set]; exact hC.disks_len
        have hfc'' : s.failedDisks - 1 = ((s.disksFailed.set e.idx false).count true : ℤ) := by
          have hcc := count_true_set_false hilen hdw
          rw [hC.failed_count]
          omega
        -- the common count facts, parametric in the appended failure time
        have hidx'' : ∀ (t : ℚ), ∀ ev ∈ rest ++ [(⟨t, PyKind.failure, e.idx⟩ : PyEvent)],
            ev.idx < p.number_of_disks := by
          intro t ev hev
          rcases List.mem_append.mp hev with hin | hin
          · exact hC.idx_lt ev (hrest_sub ev hin)
          · simp only [List.mem_singleton] at hin
            rw [hin]
            exact hek
        have hufail'' : ∀ (t : ℚ), ∀ i, i < p.number_of_disks →
            (rest ++ [(⟨t, PyKind.failure, e.idx⟩ : PyEvent)]).countP (isFailFor i) =
            (if (s.disksFailed.set e.idx false).getD i false then 0 else 1) := by
          intro t i hi
          rw [List.countP_append]
          by_cases hij : i = e.idx
          · subst hij
            rw [hrest_fail, getD_set_self _ _ hilen, if_neg (by simp)]
            simp [isFailFor]
          · rw [getD_set_ne _ _ (fun hc => hij hc.symm),
                (hrest_other i (fun hc => hij hc)).1, hC.uniq_fail i hi]
            have : isFailFor i (⟨t, PyKind.failure, e.idx⟩ : PyEvent) = false := by
              simp only [isFailFor, Bool.and_eq_false_iff]
              left
              simp only [beq_eq_false_iff_ne, ne_eq]
              exact fun hc => hij hc.symm
            simp [this]
        have hurep'' : ∀ (t : ℚ), ∀ i, i < p.number_of_disks →
            (rest ++ [(⟨t, PyKind.failure, e.idx⟩ : PyEvent)]).countP (isRepFor i) =
            (if (s.disksFailed.set e.idx false).getD i false then 1 else 0) := by
          intro t i hi
          rw [List.countP_append]
          by_cases hij : i = e.idx
          · subst hij
            rw [hrest_rep, getD_set_self _ _ hilen, if_neg (by simp)]
            simp [isRepFor]
          · rw [getD_set_ne _ _ (fun hc => hij hc.symm),
                (hrest_other i (fun hc => hij hc)).2, hC.uniq_rep i hi]
            have : isRepFor i (⟨t, PyKind.failure, e.idx⟩ : PyEvent) = false := by
              simp [isRepFor]
            simp [this]
        -- now resolve the recovery sub-step
        by_cases hdown : s.systemDown = true
        · by_cases hrec : system_recovered_check p.raid_level p.number_of_disks
              (s.failedDisks - 1) = true
          · obtain ⟨st, hst⟩ := Option.isSome_iff_exists.mp (hC.down_start.mp hdown)
            rw [if_pos hdown, if_pos hrec, hst] at h
            simp only [except_bind_ok] at h
            cases hdraw : weibull_rvs (3/2) p.disk_mttf (w s.rng) with
            | error er => rw [hdraw] at h; exact absurd h (by simp [except_bind_err])
            | ok sample =>
              rw [hdraw] at h
              simp only [except_bind_ok, Except.ok.injEq, PyLoopRes.cont.injEq] at h
              subst h
              exact ⟨hlen'', hidx'' _, hufail'' _, hurep'' _, hfc'', by simp⟩
          · rw [if_pos hdown, if_neg hrec] at h
            simp only [except_bind_ok] at h
            cases hdraw : weibull_rvs (3/2) p.disk_mttf (w s.rng) with
            | error er => rw [hdraw] at h; exact absurd h (by simp [except_bind_err])
            | ok sample =>
              rw [hdraw] at h
              simp only [except_bind_ok, Except.ok.injEq, PyLoopRes.cont.injEq] at h
              subst h
              exact ⟨hlen'', hidx'' _, hufail'' _, hurep'' _, hfc'', hC.down_start⟩
        · rw [if_neg hdown] at h
          simp only [except_bind_ok] at h
          cases hdraw : weibull_rvs (3/2) p.disk_mttf (w s.rng) with
          | error er => rw [hdraw] at h; exact absurd h (by simp [except_bind_err])
          | ok sample =>
            rw [hdraw] at h
            simp only [except_bind_ok, Except.ok.injEq, PyLoopRes.cont.injEq] at h
            subst h
            exact ⟨hlen'', hidx'' _, hufail'' _, hurep'' _, hfc'', hC.down_start⟩

theorem weibull_rvs_ok {sh sc u v : ℚ} (h : weibull_rvs sh sc u = .ok v) :
    v = sc * u ∧ 0 < sh ∧ 0 ≤ sc := by
  unfold weibull_rvs at h
  by_cases hc : sh ≤ 0 ∨ sc < 0
  · rw [if_pos hc] at h
    exact absurd h (by simp)
  · rw [if_neg hc] at h
    push_neg at hc
    simp only [Except.ok.injEq] at h
    exact ⟨h.symm, hc.1, hc.2⟩

theorem weibull_rvs_err {sh sc u : ℚ} (h : sh ≤ 0 ∨ sc < 0) :
    weibull_rvs sh sc u = .error .valueError := by
  unfold weibull_rvs
  rw [if_pos h]

theorem pyLe_time_le {a b : PyEvent} (h : pyLe a b = true) : a.time ≤ b.time := by
  simp only [pyLe, decide_eq_true_eq, pyKey] at h
  rcases (Prod.Lex.le_iff _ _).mp h with hlt | ⟨heq, _⟩
  · exact le_of_lt hlt
  · exact le_of_eq heq

theorem pyStep_time {p : DataCenterPolicy} {dur : ℚ} {w : ℕ → ℚ} {s : PyState}
    {out : PyLoopRes}
    (hrt : 0 ≤ p.repair_time) (hw : ∀ n, 0 ≤ w n)
    (hC : PyCount p s) (hT : PyTime dur s)
    (h : pyStep p dur w s = .ok out) : PyTime dur out.state := by
  cases hpop : popMin pyLe s.events with
  | none => simp [pyStep, hpop] at h
  | some pr =>
    obtain ⟨e, rest⟩ := pr
    simp only [pyStep, hpop] at h
    have hrest_sub := popMin_rest_subset pyLe s.events e rest hpop
    have hmem := popMin_mem pyLe s.events e rest hpop
    have hmin := popMin_min pyLe pyLe_total pyLe_trans s.events e rest hpop
    have hcur_e : s.currentTime ≤ e.time := hT.events_ge e hmem
    have hrest_ge : ∀ x ∈ rest, e.time ≤ x.time := fun x hx => pyLe_time_le (hmin x hx)
    by_cases hbrk : dur < e.time
    · rw [if_pos hbrk] at h
      simp only [Except.ok.injEq] at h
      rw [← h]
      exact ⟨hT.time_nonneg, hT.time_le,
             fun x hx => hT.events_ge x (hrest_sub x hx),
             hT.dt_nonneg, hT.dt_bound, hT.start_bounds⟩
    · rw [if_neg hbrk] at h
      have hetime_le : e.time ≤ dur := le_of_not_lt hbrk
      have hetime_nonneg : 0 ≤ e.time := le_trans hT.time_nonneg hcur_e
      -- bound facts reused in the unchanged-outage cases
      have hdt_keep : s.totalDowntime ≤ s.downtimeStart.getD e.time := by
        cases hds : s.downtimeStart with
        | none =>
          have hb := hT.dt_bound
          rw [hds] at hb
          simp only [Option.getD_none] at hb ⊢
          exact le_trans hb hcur_e
        | some st =>
          have hb := hT.dt_bound
          rw [hds] at hb
          simpa using hb
      have hsb_keep : ∀ st, s.downtimeStart = some st → 0 ≤ st ∧ st ≤ e.time := by
        intro st hst
        obtain ⟨h1, h2⟩ := hT.start_bounds st hst
        exact ⟨h1, le_trans h2 hcur_e⟩
      by_cases hkind : e.kind = PyKind.failure
      · -- failure branch
        rw [if_pos hkind] at h
        have hev' : ∀ x ∈ rest ++ [(⟨e.time + p.repair_time, PyKind.repair, e.idx⟩ :
            PyEvent)], e.time ≤ x.time := by
          intro x hx
          rcases List.mem_append.mp hx with hin | hin
          · exact hrest_ge x hin
          · simp only [List.mem_singleton] at hin
            rw [hin]
            simpa using hrt
        by_cases hcond : (system_failed_check p.raid_level p.number_of_disks
            (s.failedDisks + 1) && !s.systemDown) = true
        · rw [if_pos hcond] at h
          simp only [Except.ok.injEq] at h
          rw [← h]
          have hnd : s.systemDown = false := by
            rcases Bool.and_eq_true_iff.mp hcond with ⟨_, hnd⟩
            simpa using hnd
          have hstart_none : s.downtimeStart = none := by
            cases hds : s.downtimeStart with
            | none => rfl
            | some st =>
              have hcon := hC.down_start.mpr (by rw [hds]; rfl)
              rw [hnd] at hcon
              exact absurd hcon (by simp)
          refine ⟨hetime_nonneg, hetime_le, hev', hT.dt_nonneg, ?_, ?_⟩
          · have hb := hT.dt_bound
            rw [hstart_none] at hb
            simp only [Option.getD_none] at hb
            simpa using le_trans hb hcur_e
          · intro st hst
            have hst2 : some e.time = some st := hst
            injection hst2 with hh
            rw [← hh]
            exact ⟨hetime_nonneg, le_refl _⟩
        · rw [if_neg hcond] at h
          simp only [Except.ok.injEq] at h
          rw [← h]
          exact ⟨hetime_nonneg, hetime_le, hev', hT.dt_nonneg, hdt_keep, hsb_keep⟩
      · -- repair branch
        rw [if_neg hkind] at h
        have hsample_facts : ∀ {sample : ℚ},
            weibull_rvs (3/2) p.disk_mttf (w s.rng) = .ok sample → 0 ≤ sample := by
          intro sample hs
          obtain ⟨hv, _, hsc⟩ := weibull_rvs_ok hs
          rw [hv]
          exact mul_nonneg hsc (hw s.rng)
        have hev'' : ∀ (sample : ℚ), 0 ≤ sample →
            ∀ x ∈ rest ++ [(⟨e.time + sample, PyKind.failure, e.idx⟩ : PyEvent)],
            e.time ≤ x.time := by
          intro sample hsamp x hx
          rcases List.mem_append.mp hx with hin | hin
          · exact hrest_ge x hin
          · simp only [List.mem_singleton] at hin
            rw [hin]
            simpa using hsamp
        by_cases hdown : s.systemDown = true
        · by_cases hrec : system_recovered_check p.raid_level p.number_of_disks
              (s.failedDisks - 1) = true
          · obtain ⟨st, hst⟩ := Option.isSome_iff_exists.mp (hC.down_start.mp hdown)
            obtain ⟨hst0, hstcur⟩ := hT.start_bounds st hst
            have hst_e : st ≤ e.time := le_trans hstcur hcur_e
            rw [if_pos hdown, if_pos hrec, hst] at h
            simp only [except_bind_ok] at h
            cases hdraw : weibull_rvs (3/2) p.disk_mttf (w s.rng) with
            | error er => rw [hdraw] at h; exact absurd h (by simp [except_bind_err])
            | ok sample =>
              rw [hdraw] at h
              simp only [except_bind_ok, Except.ok.injEq] at h
              rw [← h]
              have hsamp := hsample_facts hdraw
              have hdtb : s.totalDowntime ≤ st := by
                have hb := hT.dt_bound
                rw [hst] at hb
                simpa using hb
              refine ⟨hetime_nonneg, hetime_le, hev'' sample hsamp, ?_, ?_, ?_⟩
              · have := hT.dt_nonneg
                simp only [PyLoopRes.state]
                linarith
              · simp only [PyLoopRes.state, Option.getD_none]
                linarith
              · intro st' hst'
                exact Option.noConfusion hst'
          · rw [if_pos hdown, if_neg hrec] at h
            simp only [except_bind_ok] at h
            cases hdraw : weibull_rvs (3/2) p.disk_mttf (w s.rng) with
            | error er => rw [hdraw] at h; exact absurd h (by simp [except_bind_err])
            | ok sample =>
              rw [hdraw] at h
              simp only [except_bind_ok, Except.ok.injEq] at h
              rw [← h]
              have hsamp := hsample_facts hdraw
              exact ⟨hetime_nonneg, hetime_le, hev'' sample hsamp,
                     hT.dt_nonneg, hdt_keep, hsb_keep⟩
        · rw [if_neg hdown] at h
          simp only [except_bind_ok] at h
          cases hdraw : weibull_rvs (3/2) p.disk_mttf (w s.rng) with
          | error er => rw [hdraw] at h; exact absurd h (by simp [except_bind_err])
          | ok sample =>
            rw [hdraw] at h
            simp only [except_bind_ok, Except.ok.injEq] at h
            rw [← h]
            have hsamp := hsample_facts hdraw
            exact ⟨hetime_nonneg, hetime_le, hev'' sample hsamp,
                   hT.dt_nonneg, hdt_keep, hsb_keep⟩

/-! ### Transport of invariants along the event loop -/

/-- Generic invariant transport: a property `P` preserved by `cont`
steps, weakening to `Q` on loop exit (both on a guard failure and on the
`break`), holds at the state of every `pyIter` outcome. -/
theorem pyIter_inv {p : DataCenterPolicy} {dur : ℚ} {w : ℕ → ℚ}
    (P Q : PyState → Prop)
    (hPQ : ∀ s, P s → Q s)
    (hcont : ∀ s s', P s → pyStep p dur w s = .ok (.cont s') → P s')
    (hbrk : ∀ s s', P s → pyStep p dur w s = .ok (.brk s') → Q s') :
    ∀ (fuel : ℕ) (s : PyState) (st' : PyIterSt), P s →
      pyIter p dur w fuel (.running s) = .ok st' → Q st'.state := by
  intro fuel
  induction fuel with
  | zero =>
    intro s st' hP hiter
    simp only [pyIter] at hiter
    by_cases hcond : pyLoopCond dur s = true
    · rw [if_pos hcond] at hiter
      simp only [Except.ok.injEq] at hiter
      rw [← hiter]
      exact hPQ s hP
    · rw [if_neg hcond] at hiter
      simp only [Except.ok.injEq] at hiter
      rw [← hiter]
      exact hPQ s hP
  | succ fuel ih =>
    intro s st' hP hiter
    simp only [pyIter] at hiter
    by_cases hcond : pyLoopCond dur s = true
    · rw [if_pos hcond] at hiter
      cases hstep : pyStep p dur w s with
      | error er =>
        rw [hstep] at hiter
        exact absurd hiter (by simp [except_bind_err])
      | ok out =>
        rw [hstep] at hiter
        simp only [except_bind_ok] at hiter
        cases out with
        | brk s' =>
          simp only [Except.ok.injEq] at hiter
          rw [← hiter]
          exact hbrk s s' hP hstep
        | cont s' =>
          exact ih s' st' (hcont s s' hP hstep) hiter
    · rw [if_neg hcond] at hiter
      simp only [Except.ok.injEq] at hiter
      rw [← hiter]
      exact hPQ s hP

/-! ### The initial state -/

theorem mapM_weibull_ok {sc : ℚ} (hsc : ¬sc < 0) (w : ℕ → ℚ) (l : List ℕ) :
    (l.mapM fun i => do
      let t ← weibull_rvs (3/2) sc (w i)
      pure (⟨0 + t, PyKind.failure, i⟩ : PyEvent)) =
    .ok (l.map fun i => ⟨0 + sc * w i, PyKind.failure, i⟩) := by
  induction l with
  | nil => rfl
  | cons a l ih =>
    rw [List.mapM_cons, ih]
    have hw : weibull_rvs (3/2) sc (w a) = .ok (sc * w a) := by
      unfold weibull_rvs
      rw [if_neg]
      push_neg
      exact ⟨by norm_num, le_of_not_lt hsc⟩
    simp only [hw, bind, Except.bind, pure, Except.pure, List.map_cons]

theorem mapM_weibull_err {sc : ℚ} (hsc : sc < 0) (w : ℕ → ℚ) (a : ℕ) (l : List ℕ) :
    ((a :: l).mapM fun i => do
      let t ← weibull_rvs (3/2) sc (w i)
      pure (⟨0 + t, PyKind.failure, i⟩ : PyEvent)) = .error .valueError := by
  rw [List.mapM_cons]
  have hw : weibull_rvs (3/2) sc (w a) = .error .valueError :=
    weibull_rvs_err (Or.inr hsc)
  simp only [hw, bind, Except.bind]

/-- A successful `pyInit` yields exactly the state the source builds, and
witnesses scipy's scale check when at least one draw happened. -/
theorem pyInit_ok_elim {p : DataCenterPolicy} {w : ℕ → ℚ} {s0 : PyState}
    (h : pyInit p w = .ok s0) :
    s0 = { currentTime := 0
           disksFailed := List.replicate p.number_of_disks false
           failedDisks := 0
           systemDown := false
           downtimeStart := none
           totalDowntime := 0
           totalMaintenanceCost := 0
           totalReplacements := 0
           events := (List.range p.number_of_disks).map
             (fun i => ⟨0 + p.disk_mttf * w i, PyKind.failure, i⟩)
           rng := p.number_of_disks } ∧
    (p.number_of_disks ≠ 0 → 0 ≤ p.disk_mttf) := by
  unfold pyInit pyInitEvents at h
  by_cases hsc : p.disk_mttf < 0
  · cases hn : p.number_of_disks with
    | zero =>
      rw [hn] at h
      simp only [List.range_zero, List.mapM_nil, pure, Except.pure,
        except_bind_ok] at h
      simp only [Except.ok.injEq] at h
      constructor
      · rw [← h]
        simp
      · intro hne
        exact absurd rfl hne
    | succ m =>
      rw [hn] at h
      have hr : List.range (m + 1) = 0 :: (List.range m).map (· + 1) := by
        rw [List.range_succ_eq_map]
      rw [hr, mapM_weibull_err hsc] at h
      exact absurd h (by simp [bind, Except.bind])
  · rw [mapM_weibull_ok hsc] at h
    simp only [except_bind_ok, pure, Except.pure, Except.ok.injEq] at h
    exact ⟨h.symm, fun _ => le_of_not_lt hsc⟩

theorem pyInit_count {p : DataCenterPolicy} {w : ℕ → ℚ} {s0 : PyState}
    (h : pyInit p w = .ok s0) : PyCount p s0 := by
  obtain ⟨hs0, hsc⟩ := pyInit_ok_elim h
  subst hs0
  have hgetD : ∀ i, i < p.number_of_disks →
      (List.replicate p.number_of_disks false).getD i false = false := by
    intro i hi
    rw [List.getD_eq_getElem?_getD, List.getElem?_replicate]
    simp [hi]
  refine ⟨by simp, ?_, ?_, ?_, ?_, ?_⟩
  · intro e he
    simp only [List.mem_map, List.mem_range] at he
    obtain ⟨i, hi, hei⟩ := he
    rw [← hei]
    exact hi
  · intro i hi
    rw [List.countP_map, hgetD i hi]
    have hfun : ((fun e => isFailFor i e) ∘ fun j =>
        (⟨0 + p.disk_mttf * w j, PyKind.failure, j⟩ : PyEvent)) =
        fun j => j == i := by
      funext j
      simp [isFailFor]
    rw [hfun, countP_range_beq, if_pos hi]
    simp
  · intro i hi
    rw [List.countP_map, hgetD i hi]
    have : ((fun e => isRepFor i e) ∘ fun j =>
        (⟨0 + p.disk_mttf * w j, PyKind.failure, j⟩ : PyEvent)) =
        fun _ => false := by
      funext j
      simp [isRepFor]
    rw [this]
    simp
  · simp [List.count_replicate]
  · simp

theorem pyInit_good {p : DataCenterPolicy} {dur : ℚ} {w : ℕ → ℚ} {s0 : PyState}
    (hdur : 0 ≤ dur) (hw : ∀ n, 0 ≤ w n)
    (h : pyInit p w = .ok s0) : PyCount p s0 ∧ PyTime dur s0 := by
  obtain ⟨hs0, hsc⟩ := pyInit_ok_elim h
  refine ⟨pyInit_count h, ?_⟩
  subst hs0
  refine ⟨le_refl 0, hdur, ?_, le_refl 0, by simp, by simp⟩
  intro e he
  simp only [List.mem_map, List.mem_range] at he
  obtain ⟨i, hi, hei⟩ := he
  rw [← hei]
  have h0 : 0 ≤ p.disk_mttf := hsc (by omega)
  simpa using mul_nonneg h0 (hw i)

/-! ### Unfolding a completed trial -/

theorem simulate_policy_ok_elim {p : DataCenterPolicy} {dur : ℚ} {w : ℕ → ℚ}
    {fuel : ℕ} {r : RunResult}
    (h : simulate_policy p dur w fuel = .ok (some r)) :
    ∃ s0 sf, pyInit p w = .ok s0 ∧
      pyIter p dur w fuel (.running s0) = .ok (.done sf) ∧
      pyFinish p dur sf = .ok r := by
  unfold simulate_policy at h
  cases hinit : pyInit p w with
  | error er => rw [hinit] at h; exact absurd h (by simp [bind, Except.bind])
  | ok s0 =>
    rw [hinit] at h
    simp only [except_bind_ok] at h
    cases hiter : pyIter p dur w fuel (.running s0) with
    | error er => rw [hiter] at h; exact absurd h (by simp [bind, Except.bind])
    | ok st =>
      rw [hiter] at h
      simp only [except_bind_ok] at h
      split at h
      · rename_i stold sfst
        cases hfin : pyFinish p dur sfst with
        | error er =>
          rw [hfin] at h
          exact absurd h (by simp [bind, Except.bind])
        | ok r' =>
          rw [hfin] at h
          simp only [except_bind_ok, pure, Except.pure, Except.ok.injEq] at h
          refine ⟨s0, sfst, rfl, hiter, ?_⟩
          simp only [Option.some.injEq] at h
          rw [hfin, h]
      · simp [pure, Except.pure] at h

/-- Bounds delivered by the closing step: a state satisfying the time
invariant yields a result whose downtime lies in `[0, horizon]` and whose
availability lies in `[0, 100]` (the horizon is nonzero whenever
`pyFinish` succeeds). -/
theorem pyFinish_bounds {p : DataCenterPolicy} {dur : ℚ} {sf : PyState} {r : RunResult}
    (hdur : 0 ≤ dur) (hT : PyTime dur sf)
    (h : pyFinish p dur sf = .ok r) :
    0 ≤ r.total_downtime ∧ r.total_downtime ≤ dur ∧ 0 < dur ∧
    r.availability = (dur - r.total_downtime) / dur * 100 ∧
    0 ≤ r.availability ∧ r.availability ≤ 100 := by
  unfold pyFinish at h
  have hdt : ∀ total : ℚ, 0 ≤ total → total ≤ dur →
      (if dur = 0 then (.error .zeroDivisionError : Except PyErr RunResult)
        else .ok { policy_name := p.name
                   total_downtime := total
                   total_maintenance_cost := sf.totalMaintenanceCost
                   total_replacements := sf.totalReplacements
                   availability := (dur - total) / dur * 100
                   MTBF := if 0 < sf.totalReplacements then
                     .fin ((dur - total) / (sf.totalReplacements : ℚ)) else .inf
                   MTTR := if 0 < sf.totalReplacements then
                     total / (sf.totalReplacements : ℚ) else 0 }) = .ok r →
      0 ≤ r.total_downtime ∧ r.total_downtime ≤ dur ∧ 0 < dur ∧
      r.availability = (dur - r.total_downtime) / dur * 100 ∧
      0 ≤ r.availability ∧ r.availability ≤ 100 := by
    intro total h0 h1 heq
    by_cases hz : dur = 0
    · rw [if_pos hz] at heq
      exact absurd heq (by simp)
    · rw [if_neg hz] at heq
      simp only [Except.ok.injEq] at heq
      have hpos : 0 < dur := lt_of_le_of_ne hdur (fun hc => hz hc.symm)
      rw [← heq]
      refine ⟨h0, h1, hpos, rfl, ?_, ?_⟩
      · exact mul_nonneg (div_nonneg (by linarith) hdur) (by norm_num)
      · have hle1 : (dur - total) / dur ≤ 1 := by
          rw [div_le_one hpos]
          linarith
        nlinarith
  by_cases hdown : sf.systemDown = true
  · rw [if_pos hdown] at h
    cases hds : sf.downtimeStart with
    | none =>
      rw [hds] at h
      exact absurd h (by simp [bind, Except.bind])
    | some st =>
      rw [hds] at h
      simp only [except_bind_ok] at h
      obtain ⟨hst0, hstc⟩ := hT.start_bounds st hds
      have hb := hT.dt_bound
      rw [hds] at hb
      simp only [Option.getD_some] at hb
      exact hdt _ (by linarith [hT.dt_nonneg, hT.time_le]) (by linarith [hT.time_le]) h
  · rw [if_neg hdown] at h
    simp only [except_bind_ok] at h
    have hb := hT.dt_bound
    have hcur := hT.time_le
    cases hds : sf.downtimeStart with
    | none =>
      rw [hds] at hb
      simp only [Option.getD_none] at hb
      exact hdt _ hT.dt_nonneg (le_trans hb hcur) h
    | some st =>
      rw [hds] at hb
      simp only [Option.getD_some] at hb
      obtain ⟨hst0, hstc⟩ := hT.start_bounds st hds
      exact hdt _ hT.dt_nonneg (by linarith) h

/-- A successful `pyFinish` is the metrics record of the source, for the
closed-off total downtime, and witnesses the nonzero horizon. -/
theorem pyFinish_ok_elim {p : DataCenterPolicy} {dur : ℚ} {sf : PyState} {r : RunResult}
    (h : pyFinish p dur sf = .ok r) :
    ∃ total : ℚ, dur ≠ 0 ∧
      r = { policy_name := p.name
            total_downtime := total
            total_maintenance_cost := sf.totalMaintenanceCost
            total_replacements := sf.totalReplacements
            availability := (dur - total) / dur * 100
            MTBF := if 0 < sf.totalReplacements then
              .fin ((dur - total) / (sf.totalReplacements : ℚ)) else .inf
            MTTR := if 0 < sf.totalReplacements then
              total / (sf.totalReplacements : ℚ) else 0 } := by
  unfold pyFinish at h
  have hgen : ∀ total : ℚ,
      (if dur = 0 then (.error .zeroDivisionError : Except PyErr RunResult)
        else .ok { policy_name := p.name
                   total_downtime := total
                   total_maintenance_cost := sf.totalMaintenanceCost
                   total_replacements := sf.totalReplacements
                   availability := (dur - total) / dur * 100
                   MTBF := if 0 < sf.totalReplacements then
                     .fin ((dur - total) / (sf.totalReplacements : ℚ)) else .inf
                   MTTR := if 0 < sf.totalReplacements then
                     total / (sf.totalReplacements : ℚ) else 0 }) = .ok r →
      ∃ t : ℚ, dur ≠ 0 ∧
        r = { policy_name := p.name
              total_downtime := t
              total_maintenance_cost := sf.totalMaintenanceCost
              total_replacements := sf.totalReplacements
              availability := (dur - t) / dur * 100
              MTBF := if 0 < sf.totalReplacements then
                .fin ((dur - t) / (sf.totalReplacements : ℚ)) else .inf
              MTTR := if 0 < sf.totalReplacements then
                t / (sf.totalReplacements : ℚ) else 0 } := fun total heq => by
    by_cases hz : dur = 0
    · rw [if_pos hz] at heq
      exact absurd heq (by simp)
    · rw [if_neg hz] at heq
      simp only [Except.ok.injEq] at heq
      exact ⟨total, hz, heq.symm⟩
  by_cases hdown : sf.systemDown = true
  · rw [if_pos hdown] at h
    cases hds : sf.downtimeStart with
    | none =>
      rw [hds] at h
      exact absurd h (by simp [bind, Except.bind])
    | some st =>
      rw [hds] at h
      simp only [except_bind_ok] at h
      exact hgen _ h
  · rw [if_neg hdown] at h
    simp only [except_bind_ok] at h
    exact hgen _ h

/-- A `break` iteration only removes the popped event: the popped event
lies strictly past the horizon and everything else is unchanged. -/
theorem pyStep_brk_elim {p : DataCenterPolicy} {dur : ℚ} {w : ℕ → ℚ} {s s' : PyState}
    (h : pyStep p dur w s = .ok (.brk s')) :
    ∃ e rest, popMin pyLe s.events = some (e, rest) ∧ dur < e.time ∧
      s' = { s with events := rest } := by
  cases hpop : popMin pyLe s.events with
  | none => simp [pyStep, hpop] at h
  | some pr =>
    obtain ⟨e, rest⟩ := pr
    simp only [pyStep, hpop] at h
    by_cases hbrk : dur < e.time
    · rw [if_pos hbrk] at h
      simp only [Except.ok.injEq, PyLoopRes.brk.injEq] at h
      exact ⟨e, rest, rfl, hbrk, h.symm⟩
    · rw [if_neg hbrk] at h
      by_cases hkind : e.kind = PyKind.failure
      · rw [if_pos hkind] at h
        by_cases hcond : (system_failed_check p.raid_level p.number_of_disks
            (s.failedDisks + 1) && !s.systemDown) = true
        · rw [if_pos hcond] at h
          exact absurd h (by simp)
        · rw [if_neg hcond] at h
          exact absurd h (by simp)
      · rw [if_neg hkind] at h
        by_cases hdown : s.systemDown = true
        · by_cases hrec : system_recovered_check p.raid_level p.number_of_disks
              (s.failedDisks - 1) = true
          · rw [if_pos hdown, if_pos hrec] at h
            cases hds : s.downtimeStart with
            | none =>
              rw [hds] at h
              exact absurd h (by simp [bind, Except.bind])
            | some st =>
              rw [hds] at h
              simp only [except_bind_ok] at h
              cases hdraw : weibull_rvs (3/2) p.disk_mttf (w s.rng) with
              | error er => rw [hdraw] at h; exact absurd h (by simp [except_bind_err])
              | ok sample =>
                rw [hdraw] at h
                exact absurd h (by simp [except_bind_ok])
          · rw [if_pos hdown, if_neg hrec] at h
            simp only [except_bind_ok] at h
            cases hdraw : weibull_rvs (3/2) p.disk_mttf (w s.rng) with
            | error er => rw [hdraw] at h; exact absurd h (by simp [except_bind_err])
            | ok sample =>
              rw [hdraw] at h
              exact absurd h (by simp [except_bind_ok])
        · rw [if_neg hdown] at h
          simp only [except_bind_ok] at h
          cases hdraw : weibull_rvs (3/2) p.disk_mttf (w s.rng) with
          | error er => rw [hdraw] at h; exact absurd h (by simp [except_bind_err])
          | ok sample =>
            rw [hdraw] at h
            exact absurd h (by simp [except_bind_ok])

/-- Every completed `simulate_policy` trial reports a downtime within
`[0, horizon]` and an availability within `[0, 100]` (shared workhorse of
the interval/availability claims). -/
theorem simulate_policy_bounds {p : DataCenterPolicy} {dur : ℚ} {w : ℕ → ℚ} {fuel : ℕ}
    {r : RunResult}
    (hdur : 0 ≤ dur) (hrt : 0 ≤ p.repair_time) (hw : ∀ n, 0 ≤ w n)
    (h : simulate_policy p dur w fuel = .ok (some r)) :
    0 ≤ r.total_downtime ∧ r.total_downtime ≤ dur ∧ 0 < dur ∧
    r.availability = (dur - r.total_downtime) / dur * 100 ∧
    0 ≤ r.availability ∧ r.availability ≤ 100 := by
  obtain ⟨s0, sf, hinit, hiter, hfin⟩ := simulate_policy_ok_elim h
  obtain ⟨hc0, ht0⟩ := pyInit_good hdur hw hinit
  have hT : PyTime dur sf := by
    have htr := @pyIter_inv p dur w
      (fun s => PyCount p s ∧ PyTime dur s) (PyTime dur)
      (fun s hs => hs.2)
      (fun s s' hs hstep => ⟨pyStep_count hs.1 hstep,
        pyStep_time hrt hw hs.1 hs.2 hstep⟩)
      (fun s s' hs hstep => pyStep_time hrt hw hs.1 hs.2 hstep)
      fuel s0 (.done sf) ⟨hc0, ht0⟩ hiter
    exact htr
  exact pyFinish_bounds hdur hT hfin

/-- MTBF/MTTR of a completed `simulate_policy` trial: the source's
guarded formulas, with `float('inf')` and `0` at zero replacements. -/
theorem simulate_policy_metrics {p : DataCenterPolicy} {dur : ℚ} {w : ℕ → ℚ}
    {fuel : ℕ} {r : RunResult}
    (h : simulate_policy p dur w fuel = .ok (some r)) :
    (r.total_replacements = 0 → r.MTBF = .inf ∧ r.MTTR = 0) ∧
    (0 < r.total_replacements →
      r.MTBF = .fin ((dur - r.total_downtime) / (r.total_replacements : ℚ)) ∧
      r.MTTR = r.total_downtime / (r.total_replacements : ℚ)) := by
  obtain ⟨s0, sf, hinit, hiter, hfin⟩ := simulate_policy_ok_elim h
  obtain ⟨total, hz, hr⟩ := pyFinish_ok_elim hfin
  subst hr
  constructor
  · intro h0
    have h0' : sf.totalReplacements = 0 := h0
    refine ⟨?_, ?_⟩ <;> simp [h0']
  · intro h0
    have h0' : 0 < sf.totalReplacements := h0
    refine ⟨?_, ?_⟩ <;> simp [if_pos h0']

theorem pyStep_inv6 {p : DataCenterPolicy} {dur : ℚ} {w : ℕ → ℚ} {s s' : PyState}
    (h1 : p.raid_level = 1) (h2 : p.number_of_disks = 2)
    (hC : PyCount p s) (hI : Inv6 s)
    (h : pyStep p dur w s = .ok (.cont s')) : Inv6 s' := by
  have hlen2 : s.disksFailed.length = 2 := by rw [hC.disks_len, h2]
  have hcount_le : s.disksFailed.count true ≤ 2 := by
    calc s.disksFailed.count true ≤ s.disksFailed.length := List.count_le_length _ _
    _ = 2 := hlen2
  cases hpop : popMin pyLe s.events with
  | none => simp [pyStep, hpop] at h
  | some pr =>
    obtain ⟨e, rest⟩ := pr
    simp only [pyStep, hpop] at h
    have hperm := popMin_perm pyLe s.events e rest hpop
    have hek : e.idx < p.number_of_disks :=
      hC.idx_lt e (popMin_mem pyLe s.events e rest hpop)
    have hilen : e.idx < s.disksFailed.length := hC.disks_len ▸ hek
    by_cases hbrk : dur < e.time
    · rw [if_pos hbrk] at h
      exact absurd h (by simp)
    · rw [if_neg hbrk] at h
      by_cases hkind : e.kind = PyKind.failure
      · -- failure of a currently-up disk
        rw [if_pos hkind] at h
        have hcnt_fail : s.events.countP (isFailFor e.idx) =
            rest.countP (isFailFor e.idx) + 1 := by
          rw [hperm.countP_eq, List.countP_cons]
          simp [isFailFor, hkind]
        have hup : s.disksFailed.getD e.idx false = false := by
          by_contra hcon
          have hu := hC.uniq_fail e.idx hek
          rw [hcnt_fail, eq_true_of_ne_false hcon, if_pos rfl] at hu
          omega
        -- one flag is false, so at most one is true
        have hcount_le1 : s.disksFailed.count true ≤ 1 := by
          have hset := count_true_set_true hilen hup
          have : (s.disksFailed.set e.idx true).count true ≤ 2 := by

            calc (s.disksFailed.set e.idx true).count true
                ≤ (s.disksFailed.set e.idx true).length := List.count_le_length _ _
            _ = 2 := by rw [List.length_set, hlen2]
          omega
        have hfail_le1 : s.failedDisks ≤ 1 := by
          rw [hC.failed_count]
          exact_mod_cast hcount_le1
        have hnotdown : s.systemDown = false := by
          by_contra hcon
          have hdn := hI.mp (eq_true_of_ne_false hcon)
          omega
        have hcheck : system_failed_check p.raid_level p.number_of_disks
            (s.failedDisks + 1) = decide (s.failedDisks + 1 = 2) := by
          rw [h1, h2]
          unfold system_failed_check
          norm_num
        by_cases hcond : (system_failed_check p.raid_level p.number_of_disks
            (s.failedDisks + 1) && !s.systemDown) = true
        · rw [if_pos hcond] at h
          simp only [Except.ok.injEq, PyLoopRes.cont.injEq] at h
          subst h
          rcases Bool.and_eq_true_iff.mp hcond with ⟨hsf, _⟩
          rw [hcheck] at hsf
          simp only [decide_eq_true_eq] at hsf
          exact ⟨fun _ => hsf, fun _ => rfl⟩
        · rw [if_neg hcond] at h
          simp only [Except.ok.injEq, PyLoopRes.cont.injEq] at h
          subst h
          have hsf_false : system_failed_check p.raid_level p.number_of_disks
              (s.failedDisks + 1) = false := by
            by_contra hcon
            exact hcond (by
              rw [eq_true_of_ne_false hcon, hnotdown]
              rfl)
          rw [hcheck] at hsf_false
          simp only [decide_eq_false_iff_not] at hsf_false
          constructor
          · intro hdn
            rw [hnotdown] at hdn
            exact absurd hdn (by simp)
          · intro hfd
            exact absurd hfd hsf_false
      · -- repair of a currently-down disk
        rw [if_neg hkind] at h
        have hkrep : e.kind = PyKind.repair := by
          cases hk : e.kind
          · exact absurd hk hkind
          · rfl
        have hcnt_rep : s.events.countP (isRepFor e.idx) =
            rest.countP (isRepFor e.idx) + 1 := by
          rw [hperm.countP_eq, List.countP_cons]
          simp [isRepFor, hkrep]
        have hdw : s.disksFailed.getD e.idx false = true := by
          by_contra hcon
          have hu := hC.uniq_rep e.idx hek
          rw [hcnt_rep, eq_false_of_ne_true hcon, if_neg (by simp)] at hu
          omega
        have hcount_ge1 : 1 ≤ s.disksFailed.count true := by
          have := count_true_set_false hilen hdw
          omega
        have hfd_bounds : 1 ≤ s.failedDisks ∧ s.failedDisks ≤ 2 := by
          rw [hC.failed_count]
          constructor <;> exact_mod_cast (by omega : _)
        have hcheck : system_recovered_check p.raid_level p.number_of_disks
            (s.failedDisks - 1) = decide (s.failedDisks - 1 < 2) := by
          rw [h1, h2]
          unfold system_recovered_check
          norm_num
        by_cases hdown : s.systemDown = true
        · have hfd2 : s.failedDisks = 2 := hI.mp hdown
          have hrec_true : system_recovered_check p.raid_level p.number_of_disks
              (s.failedDisks - 1) = true := by
            rw [hcheck]
            simp only [decide_eq_true_eq]
            omega
          obtain ⟨st, hst⟩ := Option.isSome_iff_exists.mp (hC.down_start.mp hdown)
          rw [if_pos hdown, if_pos hrec_true, hst] at h
          simp only [except_bind_ok] at h
          cases hdraw : weibull_rvs (3/2) p.disk_mttf (w s.rng) with
          | error er => rw [hdraw] at h; exact absurd h (by simp [except_bind_err])
          | ok sample =>
            rw [hdraw] at h
            simp only [except_bind_ok, Except.ok.injEq, PyLoopRes.cont.injEq] at h
            subst h
            constructor
            · intro hcon
              exact absurd hcon (by simp)
            · intro hfd
              simp only at hfd
              omega
        · rw [if_neg hdown] at h
          simp only [except_bind_ok] at h
          cases hdraw : weibull_rvs (3/2) p.disk_mttf (w s.rng) with
          | error er => rw [hdraw] at h; exact absurd h (by simp [except_bind_err])
          | ok sample =>
            rw [hdraw] at h
            simp only [except_bind_ok, Except.ok.injEq, PyLoopRes.cont.injEq] at h
            subst h
            have hnd : s.systemDown = false := eq_false_of_ne_true hdown
            have hne2 : s.failedDisks ≠ 2 := fun hc => by
              have := hI.mpr hc
              rw [hnd] at this
              exact absurd this (by simp)
            constructor
            · intro hcon
              rw [hnd] at hcon
              exact absurd hcon (by simp)
            · intro hfd
              simp only at hfd
              omega

/-- Inv6 holds at the state of every loop outcome under RAID 1 with two
disks: transported along the run, surviving the `break` (which leaves
both fields untouched). -/
theorem pyIter_inv6 {p : DataCenterPolicy} {dur : ℚ} {w : ℕ → ℚ} {fuel : ℕ}
    {s0 : PyState} {st' : PyIterSt}
    (h1 : p.raid_level = 1) (h2 : p.number_of_disks = 2)
    (hinit : pyInit p w = .ok s0)
    (hiter : pyIter p dur w fuel (.running s0) = .ok st') : Inv6 st'.state := by
  obtain ⟨hs0, _⟩ := pyInit_ok_elim hinit
  have hc0 : PyCount p s0 := pyInit_count hinit
  exact pyIter_inv (fun s => PyCount p s ∧ Inv6 s) Inv6
    (fun s hs => hs.2)
    (fun s s' hs hstep => ⟨pyStep_count hs.1 hstep, pyStep_inv6 h1 h2 hs.1 hs.2 hstep⟩)
    (fun s s' hs hstep => by
      obtain ⟨e, rest, hpop, hlt, hs'⟩ := pyStep_brk_elim hstep
      rw [hs']
      exact hs.2)
    fuel s0 st' ⟨hc0, by rw [hs0]; exact ⟨by simp, by simp⟩⟩ hiter

theorem nLe_total : ∀ a b, nLe a b ∨ nLe b a := by
  intro a b
  simp only [nLe, decide_eq_true_eq]
  exact le_total (nKey a) (nKey b)

theorem nLe_trans : ∀ a b c, nLe a b → nLe b c → nLe a c := by
  intro a b c
  simp only [nLe, decide_eq_true_eq]
  exact le_trans

theorem nLe_time_le {a b : NEvent} (h : nLe a b = true) : a.time ≤ b.time := by
  simp only [nLe, decide_eq_true_eq, nKey] at h
  rcases (Prod.Lex.le_iff _ _).mp h with hlt | ⟨heq, _⟩
  · exact le_of_lt hlt
  · exact le_of_eq heq

theorem IntervalsOk.mono {dur cur cur' : ℚ} {up : Bool} {d : DiskRes}
    (h : IntervalsOk dur cur up d) (hle : cur ≤ cur') : IntervalsOk dur cur' up d := by
  obtain ⟨h0, hup, hdn⟩ := h
  refine ⟨h0, ?_, ?_⟩
  · intro hu
    obtain ⟨hc, hb⟩ := hup hu
    exact ⟨hc, le_trans hb hle⟩
  · intro hd
    obtain ⟨st, tail, heq, h1, h2, h3, h4⟩ := hdn hd
    exact ⟨st, tail, heq, h1, le_trans h2 hle, h3, h4⟩

theorem getD_map_const {α β : Type _} {l : List α} {b d : β} {i : ℕ} (hi : i < l.length) :
    ((l.map (fun _ => b)).getD i d) = b := by
  rw [List.getD_eq_getElem?_getD, List.getElem?_map]
  have : l[i]? = some l[i] := List.getElem?_eq_getElem hi
  rw [this]
  rfl

theorem getD_zipWith {α β γ : Type _} {f : α → β → γ} {l1 : List α} {l2 : List β}
    {i : ℕ} (h1 : i < l1.length) (h2 : i < l2.length) (da : α) (db : β) (dc : γ) :
    (List.zipWith f l1 l2).getD i dc = f (l1.getD i da) (l2.getD i db) := by
  rw [List.getD_eq_getElem?_getD, List.getElem?_zipWith,
      List.getElem?_eq_getElem h1, List.getElem?_eq_getElem h2,
      List.getD_eq_getElem?_getD, List.getElem?_eq_getElem h1,
      List.getD_eq_getElem?_getD, List.getElem?_eq_getElem h2]
  rfl

theorem popMin_countP (le : α → α → Bool) {l : List α} {m : α} {r : List α}
    (h : popMin le l = some (m, r)) (p : α → Bool) :
    l.countP p = r.countP p + (if p m then 1 else 0) := by
  rw [(popMin_perm le l m r h).countP_eq, List.countP_cons]

/-- The `break` of the `while events:` loop only pops the one
past-the-horizon event, preserves the invariant — and can only happen
with the server up (a pending `server_repair` is clipped to the horizon,
so it would have been popped first). -/
theorem nStep_brk_good {c : NCtx} {s s' : NState}
    (hG : NGood c s) (h : nStep c s = .ok (.brk s')) :
    NGood c s' ∧ s'.serverUp = true := by
  cases hpop : popMin nLe s.events with
  | none => simp [nStep, hpop] at h
  | some pr =>
    obtain ⟨e, rest⟩ := pr
    simp only [nStep, hpop] at h
    have hperm := popMin_perm nLe s.events e rest hpop
    have hrest_sub := popMin_rest_subset nLe s.events e rest hpop
    have hmin := popMin_min nLe nLe_total nLe_trans s.events e rest hpop
    have hcount := fun p => popMin_countP nLe hpop p
    have hrest_le : ∀ p, rest.countP p ≤ s.events.countP p := by
      intro p
      rw [hcount p]
      omega
    by_cases hbrk : c.sim_duration < e.time
    · rw [if_pos hbrk] at h
      simp only [Except.ok.injEq, NLoopRes.brk.injEq] at h
      -- the server must be up: a pending repair would bound the minimum
      have hupT : s.serverUp = true := by
        by_contra hcon
        obtain ⟨ev, hev, hk, _⟩ := hG.down_state (eq_false_of_ne_true hcon)
        have hev_le : ev.time ≤ c.sim_duration := hG.repairs_le ev hev (Or.inr hk)
        rcases List.mem_cons.mp (hperm.mem_iff.mp hev) with hcase | hcase
        · rw [hcase] at hev_le
          exact absurd hev_le (not_le.mpr hbrk)
        · have := nLe_time_le (hmin ev hcase)
          exact absurd (le_trans this hev_le) (not_le.mpr hbrk)
      subst h
      refine ⟨?_, hupT⟩
      refine ⟨hG.diskUp_len, hG.disks_len, ?_, hG.time_nonneg, hG.time_le, ?_, ?_,
             hG.sdt_nonneg, ?_, ?_, hG.srv_iv, ?_, hG.disks_ok, ?_, ?_⟩
      · exact fun ev hev hk => hG.disk_idx ev (hrest_sub ev hev) hk
      · exact fun ev hev => hG.events_ge ev (hrest_sub ev hev)
      · exact fun ev hev hk => hG.repairs_le ev (hrest_sub ev hev) hk
      · intro hup
        obtain ⟨h1, h2⟩ := hG.up_state hup
        exact ⟨fun ev hev => h1 ev (hrest_sub ev hev), h2⟩
      · intro hdn
        rw [hupT] at hdn
        exact absurd hdn (by simp)
      · exact le_trans (hrest_le _) hG.srv_events_le1
      · exact fun i => le_trans (hrest_le _) (hG.per_disk_le1 i)
      · intro hup i hi hdn
        have h0 : List.countP (isDiskFailFor i) s.events = 0 :=
          hG.no_fail_when_down hup i hi hdn
        have hle := hrest_le (isDiskFailFor i)
        show List.countP (isDiskFailFor i) rest = 0
        omega
    · rw [if_neg hbrk] at h
      -- every remaining branch yields `cont` or an error, never `brk`
      by_cases hk1 : e.kind = NKind.server_fail
      · rw [if_pos hk1] at h
        by_cases hg : s.serverUp = true
        · rw [if_pos hg] at h
          exact absurd h (by simp)
        · rw [if_neg hg] at h
          exact absurd h (by simp)
      · rw [if_neg hk1] at h
        by_cases hk2 : e.kind = NKind.server_repair
        · rw [if_pos hk2] at h
          by_cases hg : s.serverUp = false
          · rw [if_pos hg] at h
            cases hdraw : weibull_rvs c.shape (c.sim_duration / 1) (c.w s.wIdx) with
            | error er => rw [hdraw] at h; exact absurd h (by simp [except_bind_err])
            | ok next =>
              rw [hdraw] at h
              exact absurd h (by simp [except_bind_ok])
          · rw [if_neg hg] at h
            exact absurd h (by simp)
        · rw [if_neg hk2] at h
          by_cases hk3 : e.kind = NKind.disk_fail
          · rw [if_pos hk3] at h
            by_cases hg : (s.serverUp && s.diskUp.getD (e.idx.getD 0) false) = true
            · rw [if_pos hg] at h
              exact absurd h (by simp)
            · rw [if_neg hg] at h
              exact absurd h (by simp)
          · rw [if_neg hk3] at h
            by_cases hg : (s.serverUp && (s.diskUp.getD (e.idx.getD 0) true == false)) = true
            · rw [if_pos hg] at h
              cases hdraw : weibull_rvs c.shape (c.sim_duration / 2) (c.w s.wIdx) with
              | error er => rw [hdraw] at h; exact absurd h (by simp [except_bind_err])
              | ok next =>
                rw [hdraw] at h
                exact absurd h (by simp [except_bind_ok])
            · rw [if_neg hg] at h
              exact absurd h (by simp)

theorem getD_in_range {α : Type _} {l : List α} {i : ℕ} (h : i < l.length) (d1 d2 : α) :
    l.getD i d1 = l.getD i d2 := by
  rw [List.getD_eq_getElem?_getD, List.getElem?_eq_getElem h,
      List.getD_eq_getElem?_getD, List.getElem?_eq_getElem h]
  rfl

theorem nStep_cont_good {c : NCtx} {s s' : NState}
    (hu : ∀ n, 0 ≤ c.u n) (hw : ∀ n, 0 ≤ c.w n)
    (hG : NGood c s) (h : nStep c s = .ok (.cont s')) : NGood c s' := by
  cases hpop : popMin nLe s.events with
  | none => simp [nStep, hpop] at h
  | some pr =>
    obtain ⟨e, rest⟩ := pr
    simp only [nStep, hpop] at h
    have hperm := popMin_perm nLe s.events e rest hpop
    have hrest_sub := popMin_rest_subset nLe s.events e rest hpop
    have hmem := popMin_mem nLe s.events e rest hpop
    have hmin := popMin_min nLe nLe_total nLe_trans s.events e rest hpop
    have hcur_e : s.currentTime ≤ e.time := hG.events_ge e hmem
    have hrest_ge : ∀ x ∈ rest, e.time ≤ x.time := fun x hx => nLe_time_le (hmin x hx)
    have hcount := fun p => popMin_countP nLe hpop p
    have hrest_le : ∀ p, rest.countP p ≤ s.events.countP p := by
      intro p
      rw [hcount p]
      omega
    by_cases hbrk : c.sim_duration < e.time
    · rw [if_pos hbrk] at h
      exact absurd h (by simp)
    · rw [if_neg hbrk] at h
      have he_le : e.time ≤ c.sim_duration := le_of_not_lt hbrk
      have he_nn : 0 ≤ e.time := le_trans hG.time_nonneg hcur_e
      -- invariant after the pop-and-advance shared by the guarded-out branches
      have hGadv : e.kind ≠ NKind.server_repair → ∀ tr : List (NEvent × Bool),
          NGood c { s with currentTime := e.time, events := rest, trace := tr } := by
        intro hne tr
        refine ⟨hG.diskUp_len, hG.disks_len, ?_, he_nn, he_le, hrest_ge, ?_,
               hG.sdt_nonneg, ?_, ?_, hG.srv_iv, ?_, ?_, ?_, ?_⟩
        · exact fun ev hev hk => hG.disk_idx ev (hrest_sub ev hev) hk
        · exact fun ev hev hk => hG.repairs_le ev (hrest_sub ev hev) hk
        · intro hup
          obtain ⟨h1, h2⟩ := hG.up_state hup
          exact ⟨fun ev hev => h1 ev (hrest_sub ev hev), le_trans h2 hcur_e⟩
        · intro hdn
          obtain ⟨ev, hev, hk, hb⟩ := hG.down_state hdn
          rcases List.mem_cons.mp (hperm.mem_iff.mp hev) with hcase | hcase
          · rw [hcase] at hk
            exact absurd hk hne
          · exact ⟨ev, hcase, hk, hb⟩
        · exact le_trans (hrest_le _) hG.srv_events_le1
        · intro i hi
          exact (hG.disks_ok i hi).mono hcur_e
        · exact fun i => le_trans (hrest_le _) (hG.per_disk_le1 i)
        · intro hup i hi hdn
          have h0 : List.countP (isDiskFailFor i) s.events = 0 :=
            hG.no_fail_when_down hup i hi hdn
          have hle := hrest_le (isDiskFailFor i)
          show List.countP (isDiskFailFor i) rest = 0
          omega
      by_cases hk1 : e.kind = NKind.server_fail
      · rw [if_pos hk1] at h
        by_cases hg : s.serverUp = true
        · -- SERVER FAILURE, acted
          rw [if_pos hg] at h
          simp only [Except.ok.injEq, NLoopRes.cont.injEq] at h
          subst h
          have hr_nn : 0 ≤ uniform (3/2) (5/2) (c.u s.uIdx) := by
            unfold uniform
            have := hu s.uIdx
            nlinarith
          set r := uniform (3/2) (5/2) (c.u s.uIdx) with hr
          set rf := if c.sim_duration < e.time + r then c.sim_duration else e.time + r with hrf
          have hrf_ge : e.time ≤ rf := by
            rw [hrf]
            by_cases hc : c.sim_duration < e.time + r
            · rw [if_pos hc]
              exact he_le
            · rw [if_neg hc]
              linarith
          have hrf_le : rf ≤ c.sim_duration := by
            rw [hrf]
            by_cases hc : c.sim_duration < e.time + r
            · rw [if_pos hc]
            · rw [if_neg hc]
              exact le_of_not_lt hc
          have hsrv_rest : rest.countP isServerEvent = 0 := by
            have hc := hcount isServerEvent
            have hse : isServerEvent e = true := by simp [isServerEvent, hk1]
            rw [hse, if_pos rfl] at hc
            have := hG.srv_events_le1
            omega
          have hupS := hG.up_state hg
          refine ⟨?_, ?_, ?_, he_nn, he_le, ?_, ?_, ?_, ?_, ?_, ?_, ?_, ?_, ?_, ?_⟩
          · simp [hG.diskUp_len]
          · show (markDisksDown e.time s.diskUp s.disks_results).length = _
            rw [markDisksDown, List.length_zipWith, hG.diskUp_len, hG.disks_len]
            simp
          · intro ev hev hk
            rcases List.mem_append.mp hev with hin | hin
            · exact hG.disk_idx ev (hrest_sub ev hin) hk
            · simp only [List.mem_singleton] at hin
              rw [hin] at hk
              rcases hk with hk | hk <;> exact absurd hk (by simp)
          · intro ev hev
            rcases List.mem_append.mp hev with hin | hin
            · exact hrest_ge ev hin
            · simp only [List.mem_singleton] at hin
              rw [hin]
              exact hrf_ge
          · intro ev hev hk
            rcases List.mem_append.mp hev with hin | hin
            · exact hG.repairs_le ev (hrest_sub ev hin) hk
            · simp only [List.mem_singleton] at hin
              rw [hin]
              exact hrf_le
          · have := hG.sdt_nonneg
            show (0:ℚ) ≤ s.server_total_downtime + (rf - e.time)
            linarith
          · intro hup
            exact absurd hup (by simp)
          · intro hdn2
            refine ⟨(⟨rf, NKind.server_repair, none⟩ : NEvent), ?_, rfl, ?_⟩
            · exact List.mem_append.mpr (Or.inr (List.mem_singleton.mpr rfl))
            · show s.server_total_downtime + (rf - e.time) ≤ rf
              have := hupS.2
              linarith
          · intro iv hiv
            rcases List.mem_cons.mp hiv with hin | hin
            · rw [hin]
              exact ⟨he_nn, hrf_ge, hrf_le⟩
            · exact hG.srv_iv iv hin
          · show (rest ++ [(⟨rf, NKind.server_repair, none⟩ : NEvent)]).countP isServerEvent ≤ 1
            rw [List.countP_append, hsrv_rest]
            simp [isServerEvent]
          · intro i hi
            have hiU : i < s.diskUp.length := by rw [hG.diskUp_len]; exact hi
            have hiR : i < s.disks_results.length := by rw [hG.disks_len]; exact hi
            have hzip : (markDisksDown e.time s.diskUp s.disks_results).getD i DiskRes.init =
                (if s.diskUp.getD i true then
                  { (s.disks_results.getD i DiskRes.init) with
                      downtime_intervalsRev := (e.time, none) ::
                        (s.disks_results.getD i DiskRes.init).downtime_intervalsRev }
                 else s.disks_results.getD i DiskRes.init) := by
              rw [markDisksDown, getD_zipWith hiU hiR true DiskRes.init DiskRes.init]
            have hmap : ((s.diskUp.map (fun _ => false)).getD i true) = false :=
              getD_map_const hiU
            rw [hmap, hzip]
            obtain ⟨hd0, hdup, hddn⟩ := hG.disks_ok i hi
            by_cases hst : s.diskUp.getD i true = true
            · rw [if_pos hst]
              obtain ⟨hc, hb⟩ := hdup hst
              exact ⟨hd0, fun hcon => absurd hcon (by simp), fun _ =>
                ⟨e.time, (s.disks_results.getD i DiskRes.init).downtime_intervalsRev,
                 rfl, he_nn, le_refl _, hc, le_trans hb hcur_e⟩⟩
            · rw [if_neg hst]
              obtain ⟨st, tail, heq, h1, h2, h3, h4⟩ := hddn (eq_false_of_ne_true hst)
              exact ⟨hd0, fun hcon => absurd hcon (by simp), fun _ =>
                ⟨st, tail, heq, h1, le_trans h2 hcur_e, h3, h4⟩⟩
          · intro i
            show (rest ++ [(⟨rf, NKind.server_repair, none⟩ : NEvent)]).countP (isForDisk i) ≤ 1
            rw [List.countP_append]
            have hrw : List.countP (isForDisk i)
                [(⟨rf, NKind.server_repair, none⟩ : NEvent)] = 0 := by
              simp [isForDisk]
            rw [hrw]
            have h1 := hrest_le (isForDisk i)
            have h2 := hG.per_disk_le1 i
            omega
          · intro hup
            exact absurd hup (by simp)
        · -- SERVER FAILURE, ignored (server already down)
          rw [if_neg hg] at h
          simp only [Except.ok.injEq, NLoopRes.cont.injEq] at h
          subst h
          exact hGadv (by rw [hk1]; intro hc; exact absurd hc (by simp)) _
      · rw [if_neg hk1] at h
        by_cases hk2 : e.kind = NKind.server_repair
        · rw [if_pos hk2] at h
          by_cases hg : s.serverUp = false
          · -- SERVER REPAIR, acted
            rw [if_pos hg] at h
            cases hdraw : weibull_rvs c.shape (c.sim_duration / 1) (c.w s.wIdx) with
            | error er => rw [hdraw] at h; exact absurd h (by simp [except_bind_err])
            | ok next =>
              rw [hdraw] at h
              simp only [except_bind_ok, Except.ok.injEq, NLoopRes.cont.injEq] at h
              subst h
              obtain ⟨hnext_eq, _, hsc⟩ := weibull_rvs_ok hdraw
              have hnext_nn : 0 ≤ next := by
                rw [hnext_eq]
                exact mul_nonneg hsc (hw s.wIdx)
              have hsrv_rest : rest.countP isServerEvent = 0 := by
                have hc := hcount isServerEvent
                have hse : isServerEvent e = true := by simp [isServerEvent, hk2]
                rw [hse, if_pos rfl] at hc
                have := hG.srv_events_le1
                omega
              have hno_srv_rest : ∀ ev ∈ rest, isServerEvent ev = false := by
                intro ev hev
                by_contra hcon
                have : 0 < rest.countP isServerEvent :=
                  List.countP_pos_iff.mpr ⟨ev, hev, eq_true_of_ne_false hcon⟩
                omega
              have hsdt_le : s.server_total_downtime ≤ e.time := by
                obtain ⟨ev, hev, hk, hb⟩ := hG.down_state hg
                rcases List.mem_cons.mp (hperm.mem_iff.mp hev) with hcase | hcase
                · rw [hcase] at hb
                  exact hb
                · exfalso
                  have hse : isServerEvent ev = true := by simp [isServerEvent, hk]
                  have : 0 < rest.countP isServerEvent :=
                    List.countP_pos_iff.mpr ⟨ev, hcase, hse⟩
                  omega
              have hmem' : ∀ ev ∈ (if e.time + next ≤ c.sim_duration then
                  rest ++ [(⟨e.time + next, NKind.server_fail, none⟩ : NEvent)] else rest),
                  ev ∈ rest ∨ ev = ⟨e.time + next, NKind.server_fail, none⟩ := by
                intro ev hev
                by_cases hp : e.time + next ≤ c.sim_duration
                · rw [if_pos hp] at hev
                  rcases List.mem_append.mp hev with hin | hin
                  · exact Or.inl hin
                  · exact Or.inr (List.mem_singleton.mp hin)
                · rw [if_neg hp] at hev
                  exact Or.inl hev
              have hcnt' : ∀ p : NEvent → Bool,
                  (if e.time + next ≤ c.sim_duration then
                    rest ++ [(⟨e.time + next, NKind.server_fail, none⟩ : NEvent)]
                   else rest).countP p ≤ rest.countP p +
                    (if p ⟨e.time + next, NKind.server_fail, none⟩ then 1 else 0) := by
                intro p
                by_cases hp : e.time + next ≤ c.sim_duration
                · rw [if_pos hp, List.countP_append]
                  have hone : List.countP p
                      [(⟨e.time + next, NKind.server_fail, none⟩ : NEvent)] =
                      if p ⟨e.time + next, NKind.server_fail, none⟩ then 1 else 0 := by
                    rw [List.countP_cons]
                    simp
                  omega
                · rw [if_neg hp]
                  omega
              refine ⟨?_, ?_, ?_, he_nn, he_le, ?_, ?_, hG.sdt_nonneg, ?_, ?_,
                     hG.srv_iv, ?_, ?_, ?_, ?_⟩
              · simp [hG.diskUp_len]
              · show (closeDisksServerRepair e.time s.diskUp s.disks_results).length = _
                rw [closeDisksServerRepair, List.length_zipWith, hG.diskUp_len, hG.disks_len]
                simp
              · intro ev hev hk
                rcases hmem' ev hev with hin | hin
                · exact hG.disk_idx ev (hrest_sub ev hin) hk
                · rw [hin] at hk
                  rcases hk with hk | hk <;> exact absurd hk (by simp)
              · intro ev hev
                rcases hmem' ev hev with hin | hin
                · exact hrest_ge ev hin
                · rw [hin]
                  show e.time ≤ e.time + next
                  linarith
              · intro ev hev hk
                rcases hmem' ev hev with hin | hin
                · exact hG.repairs_le ev (hrest_sub ev hin) hk
                · rw [hin] at hk
                  rcases hk with hk | hk <;> exact absurd hk (by simp)
              · intro _
                constructor
                · intro ev hev
                  rcases hmem' ev hev with hin | hin
                  · have hfalse := hno_srv_rest ev hin
                    simp only [isServerEvent, Bool.or_eq_false_iff, beq_eq_false_iff_ne,
                      ne_eq] at hfalse
                    exact hfalse.2
                  · rw [hin]
                    simp
                · exact hsdt_le
              · intro hdn
                exact absurd hdn (by simp)
              · show List.countP isServerEvent (if e.time + next ≤ c.sim_duration then
                    rest ++ [(⟨e.time + next, NKind.server_fail, none⟩ : NEvent)]
                  else rest) ≤ 1
                have := hcnt' isServerEvent
                have hnew : isServerEvent ⟨e.time + next, NKind.server_fail, none⟩ = true := by
                  simp [isServerEvent]
                rw [hnew, if_pos rfl] at this
                omega
              · intro i hi
                have hiU : i < s.diskUp.length := by rw [hG.diskUp_len]; exact hi
                have hiR : i < s.disks_results.length := by rw [hG.disks_len]; exact hi
                have hmap : ((s.diskUp.map (fun _ => true)).getD i true) = true :=
                  getD_map_const hiU
                obtain ⟨hd0, hdup, hddn⟩ := hG.disks_ok i hi
                by_cases hst : s.diskUp.getD i true = true
                · have hzip : (closeDisksServerRepair e.time s.diskUp s.disks_results).getD i
                      DiskRes.init = s.disks_results.getD i DiskRes.init := by
                    rw [closeDisksServerRepair,
                        getD_zipWith hiU hiR true DiskRes.init DiskRes.init, hst]
                    simp
                  rw [hmap, hzip]
                  obtain ⟨hc, hb⟩ := hdup hst
                  exact ⟨hd0, fun _ => ⟨hc, le_trans hb hcur_e⟩,
                         fun hcon => absurd hcon (by simp)⟩
                · have hst' : s.diskUp.getD i true = false := eq_false_of_ne_true hst
                  obtain ⟨st, tail, heq, h1, h2, h3, h4⟩ := hddn hst'
                  have hzip : (closeDisksServerRepair e.time s.diskUp s.disks_results).getD i
                      DiskRes.init =
                      { (s.disks_results.getD i DiskRes.init) with
                          downtime := (s.disks_results.getD i DiskRes.init).downtime +
                            (e.time - st)
                          downtime_intervalsRev := (st, some e.time) :: tail } := by
                    rw [closeDisksServerRepair,
                        getD_zipWith hiU hiR true DiskRes.init DiskRes.init, hst', heq]
                    simp
                  rw [hmap, hzip]
                  refine ⟨?_, fun _ => ⟨?_, ?_⟩, fun hcon => absurd hcon (by simp)⟩
                  · show 0 ≤ (s.disks_results.getD i DiskRes.init).downtime + (e.time - st)
                    linarith
                  · show allClosed c.sim_duration ((st, some e.time) :: tail)
                    intro pr hpr
                    rcases List.mem_cons.mp hpr with hin | hin
                    · rw [hin]
                      exact ⟨e.time, rfl, h1, by linarith, he_le⟩
                    · exact h3 pr hin
                  · show (s.disks_results.getD i DiskRes.init).downtime + (e.time - st) ≤ e.time
                    linarith
              · intro i
                show List.countP (isForDisk i) (if e.time + next ≤ c.sim_duration then
                    rest ++ [(⟨e.time + next, NKind.server_fail, none⟩ : NEvent)]
                  else rest) ≤ 1
                have := hcnt' (isForDisk i)
                have hnew : isForDisk i ⟨e.time + next, NKind.server_fail, none⟩ = false := by
                  simp [isForDisk]
                rw [hnew] at this
                simp only [Bool.false_eq_true, if_false] at this
                have h1 := hrest_le (isForDisk i)
                have h2 := hG.per_disk_le1 i
                omega
              · intro _ i hi hdn
                exfalso
                have hiU : i < s.diskUp.length := by rw [hG.diskUp_len]; exact hi
                have : ((s.diskUp.map (fun _ => true)).getD i true) = true :=
                  getD_map_const hiU
                rw [this] at hdn
                exact absurd hdn (by simp)
          · -- SERVER REPAIR with the server up: impossible, there is no
            -- pending repair while the server is up
            exfalso
            have hup : s.serverUp = true := by
              by_contra hcon
              exact hg (eq_false_of_ne_true hcon)
            exact (hG.up_state hup).1 e hmem hk2
        · rw [if_neg hk2] at h
          by_cases hk3 : e.kind = NKind.disk_fail
          · rw [if_pos hk3] at h
            obtain ⟨i0, hidx, hi0⟩ := hG.disk_idx e hmem (Or.inl hk3)
            have hgd0 : e.idx.getD 0 = i0 := by rw [hidx]; rfl
            rw [hgd0] at h
            have hiU : i0 < s.diskUp.length := by rw [hG.diskUp_len]; exact hi0
            have hiR : i0 < s.disks_results.length := by rw [hG.disks_len]; exact hi0
            by_cases hg : (s.serverUp && s.diskUp.getD i0 false) = true
            · -- DISK FAILURE, acted
              rw [if_pos hg] at h
              simp only [Except.ok.injEq, NLoopRes.cont.injEq] at h
              subst h
              obtain ⟨hsv, hdg⟩ := Bool.and_eq_true_iff.mp hg
              have hdgt : s.diskUp.getD i0 true = true := by
                rw [getD_in_range hiU true false]
                exact hdg
              have hr_nn : 0 ≤ uniform (3/2) (5/2) (c.u s.uIdx) := by
                unfold uniform
                have := hu s.uIdx
                nlinarith
              set r := uniform (3/2) (5/2) (c.u s.uIdx) with hr
              set rf := if c.sim_duration < e.time + r then c.sim_duration else e.time + r
                with hrf
              have hrf_ge : e.time ≤ rf := by
                rw [hrf]
                by_cases hc : c.sim_duration < e.time + r
                · rw [if_pos hc]
                  exact he_le
                · rw [if_neg hc]
                  linarith
              have hrf_le : rf ≤ c.sim_duration := by
                rw [hrf]
                by_cases hc : c.sim_duration < e.time + r
                · rw [if_pos hc]
                · rw [if_neg hc]
                  exact le_of_not_lt hc
              have hfd : isForDisk i0 e = true := by
                simp [isForDisk, hidx]
              have hrest_i : rest.countP (isForDisk i0) = 0 := by
                have hc := hcount (isForDisk i0)
                rw [hfd, if_pos rfl] at hc
                have := hG.per_disk_le1 i0
                omega
              have hupS := hG.up_state hsv
              obtain ⟨hd0, hdup, _⟩ := hG.disks_ok i0 hi0
              obtain ⟨hcl, hb⟩ := hdup hdgt
              refine ⟨?_, ?_, ?_, he_nn, he_le, ?_, ?_, hG.sdt_nonneg, ?_, ?_,
                     hG.srv_iv, ?_, ?_, ?_, ?_⟩
              · simp [hG.diskUp_len]
              · simp [hG.disks_len]
              · intro ev hev hk
                rcases List.mem_append.mp hev with hin | hin
                · exact hG.disk_idx ev (hrest_sub ev hin) hk
                · simp only [List.mem_singleton] at hin
                  rw [hin]
                  exact ⟨i0, rfl, hi0⟩
              · intro ev hev
                rcases List.mem_append.mp hev with hin | hin
                · exact hrest_ge ev hin
                · simp only [List.mem_singleton] at hin
                  rw [hin]
                  exact hrf_ge
              · intro ev hev hk
                rcases List.mem_append.mp hev with hin | hin
                · exact hG.repairs_le ev (hrest_sub ev hin) hk
                · simp only [List.mem_singleton] at hin
                  rw [hin]
                  exact hrf_le
              · intro _
                refine ⟨?_, le_trans hupS.2 hcur_e⟩
                intro ev hev
                rcases List.mem_append.mp hev with hin | hin
                · exact hupS.1 ev (hrest_sub ev hin)
                · simp only [List.mem_singleton] at hin
                  rw [hin]
                  simp
              · intro hdn
                rw [hsv] at hdn
                exact absurd hdn (by simp)
              · show (rest ++ [(⟨rf, NKind.disk_repair, some i0⟩ : NEvent)]).countP
                    isServerEvent ≤ 1
                rw [List.countP_append]
                have hone : List.countP isServerEvent
                    [(⟨rf, NKind.disk_repair, some i0⟩ : NEvent)] = 0 := by
                  simp [isServerEvent]
                rw [hone]
                have hc := hcount isServerEvent
                have hse : isServerEvent e = false := by simp [isServerEvent, hk3]
                rw [hse] at hc
                simp only [Bool.false_eq_true, if_false] at hc
                have := hG.srv_events_le1
                omega
              · intro j hj
                have hjU : j < s.diskUp.length := by rw [hG.diskUp_len]; exact hj
                have hjR : j < s.disks_results.length := by rw [hG.disks_len]; exact hj
                by_cases hij : j = i0
                · subst hij
                  have hsets : ((s.diskUp.set j false).getD j true) = false :=
                    getD_set_self true false hjU
                  have hsetr := getD_set_self DiskRes.init
                    ({ (s.disks_results.getD j DiskRes.init) with
                        failures := (s.disks_results.getD j DiskRes.init).failures + 1
                        repair_cost_total :=
                          (s.disks_results.getD j DiskRes.init).repair_cost_total +
                            (c.server.disks.getD j ⟨0, 0⟩).repair_cost_PLN
                        downtime_intervalsRev := (e.time, none) ::
                          (s.disks_results.getD j DiskRes.init).downtime_intervalsRev }) hjR
                  rw [hsets, hsetr]
                  exact ⟨hd0, fun hcon => absurd hcon (by simp), fun _ =>
                    ⟨e.time, (s.disks_results.getD j DiskRes.init).downtime_intervalsRev,
                     rfl, he_nn, le_refl _, hcl, le_trans hb hcur_e⟩⟩
                · rw [getD_set_ne true false (fun hc => hij hc.symm),
                      getD_set_ne DiskRes.init _ (fun hc => hij hc.symm)]
                  exact (hG.disks_ok j hj).mono hcur_e
              · intro j
                show (rest ++ [(⟨rf, NKind.disk_repair, some i0⟩ : NEvent)]).countP
                    (isForDisk j) ≤ 1
                rw [List.countP_append]
                by_cases hij : j = i0
                · subst hij
                  rw [hrest_i]
                  have hone : List.countP (isForDisk j)
                      [(⟨rf, NKind.disk_repair, some j⟩ : NEvent)] = 1 := by
                    simp [isForDisk]
                  rw [hone]
                · have hone : List.countP (isForDisk j)
                      [(⟨rf, NKind.disk_repair, some i0⟩ : NEvent)] = 0 := by
                    simp only [List.countP_cons, List.countP_nil]
                    have : isForDisk j ⟨rf, NKind.disk_repair, some i0⟩ = false := by
                      simp only [isForDisk, beq_eq_false_iff_ne, ne_eq,
                        Option.some.injEq]
                      exact fun hc => hij hc.symm
                    rw [this]
                    simp
                  rw [hone]
                  have h1 := hrest_le (isForDisk j)
                  have h2 := hG.per_disk_le1 j
                  omega
              · intro _ j hj hdn
                show (rest ++ [(⟨rf, NKind.disk_repair, some i0⟩ : NEvent)]).countP
                    (isDiskFailFor j) = 0
                rw [List.countP_append]
                have hone : List.countP (isDiskFailFor j)
                    [(⟨rf, NKind.disk_repair, some i0⟩ : NEvent)] = 0 := by
                  simp [isDiskFailFor]
                rw [hone]
                by_cases hij : j = i0
                · subst hij
                  have hmono : rest.countP (isDiskFailFor j) ≤ rest.countP (isForDisk j) :=
                    List.countP_mono_left (fun x _ hx => by
                      simp only [isDiskFailFor, Bool.and_eq_true_iff] at hx
                      simp [isForDisk, hx.2])
                  omega
                · have hjU : j < s.diskUp.length := by rw [hG.diskUp_len]; exact hj
                  have hdnj : s.diskUp.getD j true = false := by
                    have : ((s.diskUp.set i0 false).getD j true) = s.diskUp.getD j true :=
                      getD_set_ne true false (fun hc => hij hc.symm)
                    rw [← this]
                    exact hdn
                  have h0 : List.countP (isDiskFailFor j) s.events = 0 :=
                    hG.no_fail_when_down hsv j hj hdnj
                  have hle := hrest_le (isDiskFailFor j)
                  omega
            · -- DISK FAILURE, ignored
              rw [if_neg hg] at h
              simp only [Except.ok.injEq, NLoopRes.cont.injEq] at h
              subst h
              exact hGadv (by rw [hk3]; intro hc; exact absurd hc (by simp)) _
          · rw [if_neg hk3] at h
            have hk4 : e.kind = NKind.disk_repair := by
              cases hke : e.kind
              · exact absurd hke hk3
              · rfl
              · exact absurd hke hk1
              · exact absurd hke hk2
            obtain ⟨i0, hidx, hi0⟩ := hG.disk_idx e hmem (Or.inr hk4)
            have hgd0 : e.idx.getD 0 = i0 := by rw [hidx]; rfl
            rw [hgd0] at h
            have hiU : i0 < s.diskUp.length := by rw [hG.diskUp_len]; exact hi0
            have hiR : i0 < s.disks_results.length := by rw [hG.disks_len]; exact hi0
            by_cases hg : (s.serverUp && (s.diskUp.getD i0 true == false)) = true
            · -- DISK REPAIR, acted
              rw [if_pos hg] at h
              obtain ⟨hsv, hdnb⟩ := Bool.and_eq_true_iff.mp hg
              have hdn : s.diskUp.getD i0 true = false := by
                simpa using hdnb
              obtain ⟨hd0, _, hddn⟩ := hG.disks_ok i0 hi0
              obtain ⟨st, tail, heq, h1, h2, h3, h4⟩ := hddn hdn
              cases hdraw : weibull_rvs c.shape (c.sim_duration / 2) (c.w s.wIdx) with
              | error er => rw [hdraw] at h; exact absurd h (by simp [except_bind_err])
              | ok next =>
                rw [hdraw, heq] at h
                simp only [except_bind_ok, Except.ok.injEq, NLoopRes.cont.injEq] at h
                subst h
                obtain ⟨hnext_eq, _, hsc⟩ := weibull_rvs_ok hdraw
                have hnext_nn : 0 ≤ next := by
                  rw [hnext_eq]
                  exact mul_nonneg hsc (hw s.wIdx)
                have hfd : isForDisk i0 e = true := by
                  simp [isForDisk, hidx]
                have hrest_i : rest.countP (isForDisk i0) = 0 := by
                  have hc := hcount (isForDisk i0)
                  rw [hfd, if_pos rfl] at hc
                  have := hG.per_disk_le1 i0
                  omega
                have hupS := hG.up_state hsv
                have hmem' : ∀ ev ∈ (if e.time + next ≤ c.sim_duration then
                    rest ++ [(⟨e.time + next, NKind.disk_fail, some i0⟩ : NEvent)] else rest),
                    ev ∈ rest ∨ ev = ⟨e.time + next, NKind.disk_fail, some i0⟩ := by
                  intro ev hev
                  by_cases hp : e.time + next ≤ c.sim_duration
                  · rw [if_pos hp] at hev
                    rcases List.mem_append.mp hev with hin | hin
                    · exact Or.inl hin
                    · exact Or.inr (List.mem_singleton.mp hin)
                  · rw [if_neg hp] at hev
                    exact Or.inl hev
                have hcnt' : ∀ p : NEvent → Bool,
                    (if e.time + next ≤ c.sim_duration then
                      rest ++ [(⟨e.time + next, NKind.disk_fail, some i0⟩ : NEvent)]
                     else rest).countP p ≤ rest.countP p +
                      (if p ⟨e.time + next, NKind.disk_fail, some i0⟩ then 1 else 0) := by
                  intro p
                  by_cases hp : e.time + next ≤ c.sim_duration
                  · rw [if_pos hp, List.countP_append]
                    have hone : List.countP p
                        [(⟨e.time + next, NKind.disk_fail, some i0⟩ : NEvent)] =
                        if p ⟨e.time + next, NKind.disk_fail, some i0⟩ then 1 else 0 := by
                      rw [List.countP_cons]
                      simp
                    omega
                  · rw [if_neg hp]
                    omega
                refine ⟨?_, ?_, ?_, he_nn, he_le, ?_, ?_, hG.sdt_nonneg, ?_, ?_,
                       hG.srv_iv, ?_, ?_, ?_, ?_⟩
                · simp [hG.diskUp_len]
                · simp [hG.disks_len]
                · intro ev hev hk
                  rcases hmem' ev hev with hin | hin
                  · exact hG.disk_idx ev (hrest_sub ev hin) hk
                  · rw [hin]
                    exact ⟨i0, rfl, hi0⟩
                · intro ev hev
                  rcases hmem' ev hev with hin | hin
                  · exact hrest_ge ev hin
                  · rw [hin]
                    show e.time ≤ e.time + next
                    linarith
                · intro ev hev hk
                  rcases hmem' ev hev with hin | hin
                  · exact hG.repairs_le ev (hrest_sub ev hin) hk
                  · rw [hin] at hk
                    rcases hk with hk | hk <;> exact absurd hk (by simp)
                · intro _
                  refine ⟨?_, le_trans hupS.2 hcur_e⟩
                  intro ev hev
                  rcases hmem' ev hev with hin | hin
                  · exact hupS.1 ev (hrest_sub ev hin)
                  · rw [hin]
                    simp
                · intro hdn2
                  rw [hsv] at hdn2
                  exact absurd hdn2 (by simp)
                · show List.countP isServerEvent (if e.time + next ≤ c.sim_duration then
                      rest ++ [(⟨e.time + next, NKind.disk_fail, some i0⟩ : NEvent)]
                    else rest) ≤ 1
                  have hb := hcnt' isServerEvent
                  have hnew : isServerEvent ⟨e.time + next, NKind.disk_fail, some i0⟩ =
                      false := by
                    simp [isServerEvent]
                  rw [hnew] at hb
                  simp only [Bool.false_eq_true, if_false] at hb
                  have h1 := hrest_le isServerEvent
                  have h2 := hG.srv_events_le1
                  omega
                · intro j hj
                  have hjU : j < s.diskUp.length := by rw [hG.diskUp_len]; exact hj
                  have hjR : j < s.disks_results.length := by rw [hG.disks_len]; exact hj
                  by_cases hij : j = i0
                  · subst hij
                    rw [getD_set_self true true hjU, getD_set_self DiskRes.init _ hjR]
                    refine ⟨?_, fun _ => ⟨?_, ?_⟩, fun hcon => absurd hcon (by simp)⟩
                    · show 0 ≤ (s.disks_results.getD j DiskRes.init).downtime +
                        (e.time - st)
                      linarith
                    · show allClosed c.sim_duration ((st, some e.time) :: tail)
                      intro pr hpr
                      rcases List.mem_cons.mp hpr with hin | hin
                      · rw [hin]
                        exact ⟨e.time, rfl, h1, by linarith, he_le⟩
                      · exact h3 pr hin
                    · show (s.disks_results.getD j DiskRes.init).downtime +
                        (e.time - st) ≤ e.time
                      linarith
                  · rw [getD_set_ne true true (fun hc => hij hc.symm),
                        getD_set_ne DiskRes.init _ (fun hc => hij hc.symm)]
                    exact (hG.disks_ok j hj).mono hcur_e
                · intro j
                  show List.countP (isForDisk j) (if e.time + next ≤ c.sim_duration then
                      rest ++ [(⟨e.time + next, NKind.disk_fail, some i0⟩ : NEvent)]
                    else rest) ≤ 1
                  have hb := hcnt' (isForDisk j)
                  by_cases hij : j = i0
                  · subst hij
                    have hnew : isForDisk j ⟨e.time + next, NKind.disk_fail, some j⟩ =
                        true := by
                      simp [isForDisk]
                    rw [hnew, if_pos rfl] at hb
                    omega
                  · have hnew : isForDisk j ⟨e.time + next, NKind.disk_fail, some i0⟩ =
                        false := by
                      simp only [isForDisk, beq_eq_false_iff_ne, ne_eq, Option.some.injEq]
                      exact fun hc => hij hc.symm
                    rw [hnew] at hb
                    simp only [Bool.false_eq_true, if_false] at hb
                    have h5 := hrest_le (isForDisk j)
                    have h6 := hG.per_disk_le1 j
                    omega
                · intro _ j hj hdn2
                  show List.countP (isDiskFailFor j) (if e.time + next ≤ c.sim_duration then
                      rest ++ [(⟨e.time + next, NKind.disk_fail, some i0⟩ : NEvent)]
                    else rest) = 0
                  have hjU : j < s.diskUp.length := by rw [hG.diskUp_len]; exact hj
                  by_cases hij : j = i0
                  · subst hij
                    exfalso
                    rw [getD_set_self true true hjU] at hdn2
                    exact absurd hdn2 (by simp)
                  · have hdnj : s.diskUp.getD j true = false := by
                      rw [getD_set_ne true true (fun hc => hij hc.symm)] at hdn2
                      exact hdn2
                    have hb := hcnt' (isDiskFailFor j)
                    have hnew : isDiskFailFor j ⟨e.time + next, NKind.disk_fail, some i0⟩ =
                        false := by
                      simp only [isDiskFailFor, Bool.and_eq_false_iff]
                      right
                      simp only [beq_eq_false_iff_ne, ne_eq, Option.some.injEq]
                      exact fun hc => hij hc.symm
                    rw [hnew] at hb
                    simp only [Bool.false_eq_true, if_false] at hb
                    have h0 : List.countP (isDiskFailFor j) s.events = 0 :=
                      hG.no_fail_when_down hsv j hj hdnj
                    have hle := hrest_le (isDiskFailFor j)
                    omega
            · -- DISK REPAIR, ignored
              rw [if_neg hg] at h
              simp only [Except.ok.injEq, NLoopRes.cont.injEq] at h
              subst h
              exact hGadv hk2 _

/-- Fuel induction for the `while events:` loop of `simulationNorm`:
`P` is preserved by `cont` steps; a `brk` step or running out of events
establishes `Q`; so a successful run ends `running` with `P` or `done`
with `Q`. -/
theorem nIter_inv {c : NCtx} (P Q : NState → Prop)
    (hcont : ∀ s s', P s → nStep c s = .ok (.cont s') → P s')
    (hbrkQ : ∀ s s', P s → nStep c s = .ok (.brk s') → Q s')
    (hexitQ : ∀ s, P s → s.events = [] → Q s) :
    ∀ (fuel : ℕ) (s : NState) (st' : NIterSt), P s →
      nIter c fuel (.running s) = .ok st' →
      (∃ s2, st' = .running s2 ∧ P s2) ∨ (∃ s2, st' = .done s2 ∧ Q s2) := by
  intro fuel
  induction fuel with
  | zero =>
    intro s st' hP hiter
    simp only [nIter] at hiter
    by_cases hcond : s.events.isEmpty = false
    · rw [if_pos hcond] at hiter
      simp only [Except.ok.injEq] at hiter
      exact Or.inl ⟨s, hiter.symm, hP⟩
    · rw [if_neg hcond] at hiter
      simp only [Except.ok.injEq] at hiter
      have hnil : s.events = [] := by
        have : s.events.isEmpty = true := by
          cases hb : s.events.isEmpty
          · exact absurd hb hcond
          · rfl
        exact List.isEmpty_iff.mp this
      exact Or.inr ⟨s, hiter.symm, hexitQ s hP hnil⟩
  | succ fuel ih =>
    intro s st' hP hiter
    simp only [nIter] at hiter
    by_cases hcond : s.events.isEmpty = false
    · rw [if_pos hcond] at hiter
      cases hstep : nStep c s with
      | error er =>
        rw [hstep] at hiter
        exact absurd hiter (by simp [except_bind_err])
      | ok out =>
        rw [hstep] at hiter
        simp only [except_bind_ok] at hiter
        cases out with
        | brk s' =>
          simp only [Except.ok.injEq] at hiter
          exact Or.inr ⟨s', hiter.symm, hbrkQ s s' hP hstep⟩
        | cont s' =>
          exact ih s' st' (hcont s s' hP hstep) hiter
    · rw [if_neg hcond] at hiter
      simp only [Except.ok.injEq] at hiter
      have hnil : s.events = [] := by
        have : s.events.isEmpty = true := by
          cases hb : s.events.isEmpty
          · exact absurd hb hcond
          · rfl
        exact List.isEmpty_iff.mp this
      exact Or.inr ⟨s, hiter.symm, hexitQ s hP hnil⟩

theorem getD_replicate {α : Type _} {n i : ℕ} {a d : α} (h : i < n) :
    (List.replicate n a).getD i d = a := by
  rw [List.getD_eq_getElem?_getD, List.getElem?_replicate, if_pos h]
  rfl

theorem mapM_nevt_ok {sh sc : ℚ} (hsh : ¬sh ≤ 0) (hsc : ¬sc < 0) (w : ℕ → ℚ)
    (l : List ℕ) :
    (l.mapM fun i => do
      let t ← weibull_rvs sh sc (w (i + 1))
      pure (⟨t, NKind.disk_fail, some i⟩ : NEvent)) =
    .ok (l.map fun i => ⟨sc * w (i + 1), NKind.disk_fail, some i⟩) := by
  induction l with
  | nil => rfl
  | cons a l ih =>
    rw [List.mapM_cons, ih]
    have hwa : weibull_rvs sh sc (w (a + 1)) = .ok (sc * w (a + 1)) := by
      unfold weibull_rvs
      rw [if_neg (not_or.mpr ⟨hsh, hsc⟩)]
    simp only [hwa, bind, Except.bind, pure, Except.pure, List.map_cons]

/-- A successful `nInit` yields exactly the state the source builds, with
scipy's parameter checks already passed. -/
theorem nInit_ok_elim {c : NCtx} {s0 : NState} (h : nInit c = .ok s0) :
    s0 = { currentTime := 0
           serverUp := true
           diskUp := List.replicate c.server.disks.length true
           server_total_downtime := 0
           server_failures := 0
           server_total_repair_cost := 0
           server_total_lost_revenue := 0
           server_downtime_intervalsRev := []
           server_downtime_start := none
           disks_results := List.replicate c.server.disks.length DiskRes.init
           events := ⟨c.sim_duration / 1 * c.w 0, NKind.server_fail, none⟩ ::
             (List.range c.server.disks.length).map
               (fun i => ⟨c.sim_duration / 2 * c.w (i + 1), NKind.disk_fail, some i⟩)
           wIdx := c.server.disks.length + 1
           uIdx := 0
           trace := [] } ∧
    0 < c.shape ∧ 0 ≤ c.sim_duration := by
  unfold nInit at h
  cases hsf : weibull_rvs c.shape (c.sim_duration / 1) (c.w 0) with
  | error er => rw [hsf] at h; exact absurd h (by simp [except_bind_err])
  | ok sf =>
    rw [hsf] at h
    obtain ⟨hsf_eq, hsh, hsc⟩ := weibull_rvs_ok hsf
    have hdur : 0 ≤ c.sim_duration := by
      rw [div_one] at hsc
      exact hsc
    have hsc2 : ¬(c.sim_duration / 2) < 0 :=
      not_lt.mpr (div_nonneg hdur (by norm_num))
    rw [mapM_nevt_ok (not_le.mpr hsh) hsc2] at h
    simp only [except_bind_ok, pure, Except.pure, Except.ok.injEq] at h
    rw [hsf_eq] at h
    exact ⟨h.symm, hsh, hdur⟩

/-- The initial state satisfies the reachability invariant. -/
theorem nInit_good {c : NCtx} {s0 : NState} (hw : ∀ n, 0 ≤ c.w n)
    (h : nInit c = .ok s0) : NGood c s0 := by
  obtain ⟨hs0, hsh, hdur⟩ := nInit_ok_elim h
  subst hs0
  have hhead_nn : 0 ≤ c.sim_duration / 1 * c.w 0 :=
    mul_nonneg (by rw [div_one]; exact hdur) (hw 0)
  have htail_nn : ∀ i : ℕ, 0 ≤ c.sim_duration / 2 * c.w (i + 1) := fun i =>
    mul_nonneg (div_nonneg hdur (by norm_num)) (hw (i + 1))
  refine ⟨by simp, by simp, ?_, le_refl 0, hdur, ?_, ?_, le_refl 0, ?_, ?_,
         ?_, ?_, ?_, ?_, ?_⟩
  · intro e he hk
    rcases List.mem_cons.mp he with hin | hin
    · rw [hin] at hk
      rcases hk with hk | hk <;> exact absurd hk (by simp)
    · obtain ⟨i, hi, heq⟩ := List.mem_map.mp hin
      rw [← heq]
      exact ⟨i, rfl, List.mem_range.mp hi⟩
  · intro e he
    rcases List.mem_cons.mp he with hin | hin
    · rw [hin]
      exact hhead_nn
    · obtain ⟨i, _, heq⟩ := List.mem_map.mp hin
      rw [← heq]
      exact htail_nn i
  · intro e he hk
    rcases List.mem_cons.mp he with hin | hin
    · rw [hin] at hk
      rcases hk with hk | hk <;> exact absurd hk (by simp)
    · obtain ⟨i, _, heq⟩ := List.mem_map.mp hin
      rw [← heq] at hk
      rcases hk with hk | hk <;> exact absurd hk (by simp)
  · intro _
    refine ⟨?_, le_refl 0⟩
    intro e he
    rcases List.mem_cons.mp he with hin | hin
    · rw [hin]
      simp
    · obtain ⟨i, _, heq⟩ := List.mem_map.mp hin
      rw [← heq]
      simp
  · intro hdn
    exact absurd hdn (by simp)
  · intro iv hiv
    exact absurd hiv (by simp)
  · show List.countP isServerEvent _ ≤ 1
    rw [List.countP_cons]
    have h0 : List.countP isServerEvent ((List.range c.server.disks.length).map
        (fun i => (⟨c.sim_duration / 2 * c.w (i + 1), NKind.disk_fail, some i⟩ :
          NEvent))) = 0 := by
      rw [List.countP_eq_zero]
      intro e he
      obtain ⟨i, _, heq⟩ := List.mem_map.mp he
      rw [← heq]
      simp [isServerEvent]
    rw [h0]
    simp [isServerEvent]
  · intro i hi
    rw [getD_replicate hi, getD_replicate hi]
    exact ⟨le_refl 0, fun _ => ⟨fun pr hpr => absurd hpr (by simp [DiskRes.init]),
      le_refl 0⟩, fun hcon => absurd hcon (by simp)⟩
  · intro j
    show List.countP (isForDisk j) _ ≤ 1
    rw [List.countP_cons]
    have hhead : isForDisk j ⟨c.sim_duration / 1 * c.w 0, NKind.server_fail, none⟩ =
        false := by
      simp [isForDisk]
    rw [hhead, List.countP_map]
    have hcongr : List.countP
        ((isForDisk j) ∘ (fun i => (⟨c.sim_duration / 2 * c.w (i + 1),
          NKind.disk_fail, some i⟩ : NEvent))) (List.range c.server.disks.length) =
        List.countP (fun i => i == j) (List.range c.server.disks.length) := by
      apply List.countP_congr
      intro i _
      have hb : isForDisk j (⟨c.sim_duration / 2 * c.w (i + 1),
          NKind.disk_fail, some i⟩ : NEvent) = (i == j) := by
        by_cases hij : i = j
        · subst hij
          simp [isForDisk]
        · have h1 : isForDisk j (⟨c.sim_duration / 2 * c.w (i + 1),
              NKind.disk_fail, some i⟩ : NEvent) = false := by
            simp only [isForDisk, beq_eq_false_iff_ne, ne_eq, Option.some.injEq]
            exact hij
          have h2 : (i == j) = false := beq_eq_false_iff_ne.mpr hij
          rw [h1, h2]
      simp only [Function.comp_apply, hb]
    rw [hcongr, countP_range_beq]
    by_cases hj : j < c.server.disks.length
    · rw [if_pos hj]
      simp
    · rw [if_neg hj]
      simp
  · intro _ i hi hdn
    rw [getD_replicate hi] at hdn
    exact absurd hdn (by simp)

theorem getD_map_range {β : Type _} {f : ℕ → β} {n i : ℕ} (h : i < n) (d : β) :
    ((List.range n).map f).getD i d = f i := by
  rw [List.getD_eq_getElem?_getD, List.getElem?_map, List.getElem?_range h]
  rfl

theorem avail_bounds {dt dur : ℚ} (h0 : 0 ≤ dt) (h1 : dt ≤ dur) (hd : 0 < dur) :
    0 ≤ (1 - dt / dur) * 100 ∧ (1 - dt / dur) * 100 ≤ 100 := by
  have hq0 : 0 ≤ dt / dur := div_nonneg h0 (le_of_lt hd)
  have hq1 : dt / dur ≤ 1 := (div_le_one hd).mpr h1
  constructor <;> nlinarith

/-- After the end-of-simulation closing pass, every disk record has its
downtime in `[0, horizon]` and only closed, in-range intervals. -/
theorem closeOpen_mem {c : NCtx} {s : NState} (hG : NGood c s) :
    ∀ d' ∈ closeOpenDiskIntervals c s.diskUp s.disks_results,
      (0 ≤ d'.downtime ∧ d'.downtime ≤ c.sim_duration) ∧
      allClosed c.sim_duration d'.downtime_intervalsRev := by
  intro d' hd'
  rw [closeOpenDiskIntervals] at hd'
  obtain ⟨i, hi, heq⟩ := List.mem_map.mp hd'
  have hiR : i < s.disks_results.length := List.mem_range.mp hi
  have hin : i < c.server.disks.length := by rw [← hG.disks_len]; exact hiR
  obtain ⟨hd0, hdup, hddn⟩ := hG.disks_ok i hin
  have hcur_le := hG.time_le
  have hcur_nn := hG.time_nonneg
  have hd'eq : d' = (closeOpenDiskIntervals c s.diskUp s.disks_results).getD i
      DiskRes.init := by
    rw [closeOpenDiskIntervals, getD_map_range hiR]
    exact heq.symm
  by_cases hst : s.diskUp.getD i true = false
  · obtain ⟨st, tail, hiv, h1, h2, h3, h4⟩ := hddn hst
    have hzip : (closeOpenDiskIntervals c s.diskUp s.disks_results).getD i
        DiskRes.init =
        { (s.disks_results.getD i DiskRes.init) with
            downtime := (s.disks_results.getD i DiskRes.init).downtime +
              (c.sim_duration - st)
            lost_revenue_total := (s.disks_results.getD i DiskRes.init).lost_revenue_total +
              (c.sim_duration - st) *
                (c.server.disks.getD i ⟨0, 0⟩).lost_revenue_per_hour_PLN
            downtime_intervalsRev := (st, some c.sim_duration) :: tail } := by
      simp only [closeOpenDiskIntervals, getD_map_range hiR, hst, hiv]
      simp
    rw [hd'eq, hzip]
    refine ⟨⟨?_, ?_⟩, ?_⟩
    · show 0 ≤ (s.disks_results.getD i DiskRes.init).downtime + (c.sim_duration - st)
      have : st ≤ c.sim_duration := le_trans h2 hcur_le
      linarith
    · show (s.disks_results.getD i DiskRes.init).downtime + (c.sim_duration - st) ≤
        c.sim_duration
      linarith
    · show allClosed c.sim_duration ((st, some c.sim_duration) :: tail)
      intro pr hpr
      rcases List.mem_cons.mp hpr with hcase | hcase
      · rw [hcase]
        exact ⟨c.sim_duration, rfl, h1, le_trans h2 hcur_le, le_refl _⟩
      · exact h3 pr hcase
  · have hst' : s.diskUp.getD i true = true := by
      cases hb : s.diskUp.getD i true
      · exact absurd hb hst
      · rfl
    obtain ⟨hcl, hb⟩ := hdup hst'
    have hzip : (closeOpenDiskIntervals c s.diskUp s.disks_results).getD i
        DiskRes.init = s.disks_results.getD i DiskRes.init := by
      simp only [closeOpenDiskIntervals, getD_map_range hiR, hst']
      simp
    rw [hd'eq, hzip]
    exact ⟨⟨hd0, le_trans hb hcur_le⟩, hcl⟩

/-- The epilogue, run from a reachable exit state (server up), reports a
server downtime in `[0, horizon]`, server outage intervals inside
`[0, horizon]`, a server availability in `[0, 100]`, and the same three
facts for every disk (with every disk interval closed). -/
theorem nFinish_good {c : NCtx} {s : NState} {srv : ServerRes} {dres : List DiskRes}
    (hG : NGood c s) (hup : s.serverUp = true)
    (h : nFinish c s = .ok (srv, dres)) :
    (0 ≤ srv.downtime ∧ srv.downtime ≤ c.sim_duration) ∧
    (∀ iv ∈ srv.downtime_intervalsRev, 0 ≤ iv.1 ∧ iv.1 ≤ iv.2 ∧
      iv.2 ≤ c.sim_duration) ∧
    (0 ≤ srv.availability_percent ∧ srv.availability_percent ≤ 100) ∧
    (∀ d ∈ dres, (0 ≤ d.downtime ∧ d.downtime ≤ c.sim_duration) ∧
      (∀ pr ∈ d.downtime_intervalsRev, ∃ en, pr.2 = some en ∧ 0 ≤ pr.1 ∧
        pr.1 ≤ en ∧ en ≤ c.sim_duration) ∧
      (0 ≤ d.availability_percent ∧ d.availability_percent ≤ 100)) := by
  have hc1 : ¬(s.serverUp = false ∧ s.server_downtime_start.isSome = true) := by
    rw [hup]
    simp
  simp only [nFinish, if_neg hc1] at h
  by_cases hdur0 : c.sim_duration = 0
  · rw [if_pos hdur0] at h
    exact absurd h (by simp)
  · rw [if_neg hdur0] at h
    have hdurpos : 0 < c.sim_duration :=
      lt_of_le_of_ne (le_trans hG.time_nonneg hG.time_le) (Ne.symm hdur0)
    have hsdt0 := hG.sdt_nonneg
    have hsdt1 : s.server_total_downtime ≤ c.sim_duration :=
      le_trans (hG.up_state hup).2 hG.time_le
    simp only [Except.ok.injEq, Prod.mk.injEq] at h
    obtain ⟨hsrv, hdres⟩ := h
    subst hsrv
    subst hdres
    refine ⟨⟨hsdt0, hsdt1⟩, hG.srv_iv, avail_bounds hsdt0 hsdt1 hdurpos, ?_⟩
    intro d hd
    obtain ⟨d0, hd0mem, hd0eq⟩ := List.mem_map.mp hd
    obtain ⟨⟨hb0, hb1⟩, hcl⟩ := closeOpen_mem hG d0 hd0mem
    rw [← hd0eq]
    exact ⟨⟨hb0, hb1⟩, hcl, avail_bounds hb0 hb1 hdurpos⟩

/-- A completed `simulate_server_and_disks` trial decomposes into a
successful init, a loop run that reached `done`, and a successful
epilogue. -/
theorem simulate_ssd_ok_elim {c : NCtx} {fuel : ℕ} {r : ServerRes × List DiskRes}
    (h : simulate_server_and_disks c fuel = .ok (some r)) :
    ∃ s0 sf, nInit c = .ok s0 ∧ nIter c fuel (.running s0) = .ok (.done sf) ∧
      nFinish c sf = .ok r := by
  unfold simulate_server_and_disks at h
  cases hinit : nInit c with
  | error er => rw [hinit] at h; exact absurd h (by simp [except_bind_err])
  | ok s0 =>
    rw [hinit] at h
    simp only [except_bind_ok] at h
    cases hiter : nIter c fuel (.running s0) with
    | error er => rw [hiter] at h; exact absurd h (by simp [except_bind_err])
    | ok st' =>
      rw [hiter] at h
      simp only [except_bind_ok] at h
      split at h
      · rename_i stold sfst
        cases hfin : nFinish c sfst with
        | error er => rw [hfin] at h; exact absurd h (by simp [except_bind_err])
        | ok r' =>
          rw [hfin] at h
          simp only [except_bind_ok, pure, Except.pure, Except.ok.injEq,
            Option.some.injEq] at h
          exact ⟨s0, sfst, rfl, hiter, by rw [hfin, h]⟩
      · simp [pure, Except.pure] at h

/-- Every completed `simulate_server_and_disks` trial reports downtimes in
`[0, horizon]`, closed outage intervals inside `[0, horizon]`, and
availabilities in `[0, 100]`, for the server and for every disk. -/
theorem simulate_ssd_bounds {c : NCtx} {fuel : ℕ} {srv : ServerRes}
    {dres : List DiskRes}
    (hu : ∀ n, 0 ≤ c.u n) (hw : ∀ n, 0 ≤ c.w n)
    (h : simulate_server_and_disks c fuel = .ok (some (srv, dres))) :
    (0 ≤ srv.downtime ∧ srv.downtime ≤ c.sim_duration) ∧
    (∀ iv ∈ srv.downtime_intervalsRev, 0 ≤ iv.1 ∧ iv.1 ≤ iv.2 ∧
      iv.2 ≤ c.sim_duration) ∧
    (0 ≤ srv.availability_percent ∧ srv.availability_percent ≤ 100) ∧
    (∀ d ∈ dres, (0 ≤ d.downtime ∧ d.downtime ≤ c.sim_duration) ∧
      (∀ pr ∈ d.downtime_intervalsRev, ∃ en, pr.2 = some en ∧ 0 ≤ pr.1 ∧
        pr.1 ≤ en ∧ en ≤ c.sim_duration) ∧
      (0 ≤ d.availability_percent ∧ d.availability_percent ≤ 100)) := by
  obtain ⟨s0, sf, hinit, hiter, hfin⟩ := simulate_ssd_ok_elim h
  have hG0 := nInit_good hw hinit
  have htr := nIter_inv (c := c) (NGood c) (fun s => NGood c s ∧ s.serverUp = true)
    (fun s s' hs hstep => nStep_cont_good hu hw hs hstep)
    (fun s s' hs hstep => nStep_brk_good hs hstep)
    (fun s hs hnil => ⟨hs, by
      by_contra hcon
      obtain ⟨ev, hev, _⟩ := hs.down_state (eq_false_of_ne_true hcon)
      rw [hnil] at hev
      exact absurd hev (by simp)⟩)
    fuel s0 (.done sf) hG0 hiter
  rcases htr with ⟨s2, hst, _⟩ | ⟨s2, hst, hQ⟩
  · exact absurd hst (by simp)
  · have hsf : sf = s2 := by
      injection hst
    rw [hsf] at hfin
    exact nFinish_good hQ.1 hQ.2 hfin

theorem nStep_nmf {c : NCtx} {s s' : NState} {i : ℕ} {t0 : List (NEvent × Bool)}
    (hi : i < c.server.disks.length) (hG : NGood c s) (hP : NMF i t0 s)
    (h : nStep c s = .ok (.cont s')) : NMF i t0 s' := by
  cases hpop : popMin nLe s.events with
  | none => simp [nStep, hpop] at h
  | some pr =>
    obtain ⟨e, rest⟩ := pr
    simp only [nStep, hpop] at h
    have hcount := fun p => popMin_countP nLe hpop p
    obtain ⟨hcnt0, hud, htr⟩ := hP
    have hiU : i < s.diskUp.length := by rw [hG.diskUp_len]; exact hi
    have he_not : isDiskFailFor i e = false := by
      by_contra hcon
      have he_t : isDiskFailFor i e = true := eq_true_of_ne_false hcon
      have hc := hcount (isDiskFailFor i)
      rw [he_t, if_pos rfl] at hc
      omega
    have hrest0 : rest.countP (isDiskFailFor i) = 0 := by
      have hc := hcount (isDiskFailFor i)
      omega
    have htr_ext : ∀ b : Bool,
        (isForDisk i e = true → e.kind = NKind.disk_repair → b = false) →
        ∃ t1, (s.trace ++ [(e, b)]) = t0 ++ t1 ∧
        ∀ pr ∈ t1, isDiskFailFor i pr.1 = false ∧
          (isForDisk i pr.1 = true → pr.1.kind = NKind.disk_repair → pr.2 = false) := by
      intro b hb
      obtain ⟨t1, ht1, hall⟩ := htr
      refine ⟨t1 ++ [(e, b)], by rw [ht1, List.append_assoc], ?_⟩
      intro pr hpr
      rcases List.mem_append.mp hpr with hin | hin
      · exact hall pr hin
      · rw [List.mem_singleton.mp hin]
        exact ⟨he_not, hb⟩
    have happ0 : ∀ ev : NEvent, isDiskFailFor i ev = false →
        (rest ++ [ev]).countP (isDiskFailFor i) = 0 := by
      intro ev hev
      rw [List.countP_append, hrest0, List.countP_cons, List.countP_nil, hev]
      simp
    by_cases hbrk : c.sim_duration < e.time
    · rw [if_pos hbrk] at h
      exact absurd h (by simp)
    · rw [if_neg hbrk] at h
      by_cases hk1 : e.kind = NKind.server_fail
      · rw [if_pos hk1] at h
        by_cases hg : s.serverUp = true
        · rw [if_pos hg] at h
          simp only [Except.ok.injEq, NLoopRes.cont.injEq] at h
          subst h
          refine ⟨?_, ?_, htr_ext true (fun _ hkr => absurd hkr (by rw [hk1]; simp))⟩
          · exact happ0 _ (by simp [isDiskFailFor])
          · show ((s.diskUp.map fun _ => false).getD i true) = false
            exact getD_map_const hiU
        · rw [if_neg hg] at h
          simp only [Except.ok.injEq, NLoopRes.cont.injEq] at h
          subst h
          exact ⟨hrest0, hud, htr_ext false (fun _ _ => rfl)⟩
      · rw [if_neg hk1] at h
        by_cases hk2 : e.kind = NKind.server_repair
        · rw [if_pos hk2] at h
          by_cases hg : s.serverUp = false
          · rw [if_pos hg] at h
            cases hdraw : weibull_rvs c.shape (c.sim_duration / 1) (c.w s.wIdx) with
            | error er => rw [hdraw] at h; exact absurd h (by simp [except_bind_err])
            | ok next =>
              rw [hdraw] at h
              simp only [except_bind_ok, Except.ok.injEq, NLoopRes.cont.injEq] at h
              subst h
              refine ⟨?_, ?_,
                htr_ext true (fun _ hkr => absurd hkr (by rw [hk2]; simp))⟩
              · by_cases hp : e.time + next ≤ c.sim_duration
                · rw [if_pos hp]
                  exact happ0 _ (by simp [isDiskFailFor])
                · rw [if_neg hp]
                  exact hrest0
              · show ((s.diskUp.map fun _ => true).getD i true) = true
                exact getD_map_const hiU
          · rw [if_neg hg] at h
            simp only [Except.ok.injEq, NLoopRes.cont.injEq] at h
            subst h
            exact ⟨hrest0, hud, htr_ext false (fun _ _ => rfl)⟩
        · rw [if_neg hk2] at h
          by_cases hk3 : e.kind = NKind.disk_fail
          · rw [if_pos hk3] at h
            by_cases hg : (s.serverUp && s.diskUp.getD (e.idx.getD 0) false) = true
            · rw [if_pos hg] at h
              simp only [Except.ok.injEq, NLoopRes.cont.injEq] at h
              subst h
              have hmem := popMin_mem nLe s.events e rest hpop
              obtain ⟨j0, hidx, _⟩ := hG.disk_idx e hmem (Or.inl hk3)
              have hne : j0 ≠ i := by
                intro hcon
                subst hcon
                have : isDiskFailFor j0 e = true := by
                  simp [isDiskFailFor, hk3, hidx]
                rw [this] at he_not
                exact absurd he_not (by simp)
              have hgd0 : e.idx.getD 0 = j0 := by rw [hidx]; rfl
              refine ⟨?_, ?_,
                htr_ext true (fun _ hkr => absurd hkr (by rw [hk3]; simp))⟩
              · exact happ0 _ (by simp [isDiskFailFor])
              · show ((s.diskUp.set (e.idx.getD 0) false).getD i true) = s.serverUp
                rw [hgd0, getD_set_ne true false hne]
                exact hud
            · rw [if_neg hg] at h
              simp only [Except.ok.injEq, NLoopRes.cont.injEq] at h
              subst h
              exact ⟨hrest0, hud, htr_ext false (fun _ _ => rfl)⟩
          · rw [if_neg hk3] at h
            by_cases hg : (s.serverUp && (s.diskUp.getD (e.idx.getD 0) true == false)) =
                true
            · rw [if_pos hg] at h
              obtain ⟨hsv, hdnb⟩ := Bool.and_eq_true_iff.mp hg
              have hdn : s.diskUp.getD (e.idx.getD 0) true = false := by
                simpa using hdnb
              have hne : e.idx.getD 0 ≠ i := by
                intro hcon
                rw [hcon, hud, hsv] at hdn
                exact absurd hdn (by simp)
              cases hdraw : weibull_rvs c.shape (c.sim_duration / 2) (c.w s.wIdx) with
              | error er => rw [hdraw] at h; exact absurd h (by simp [except_bind_err])
              | ok next =>
                rw [hdraw] at h
                simp only [except_bind_ok, Except.ok.injEq, NLoopRes.cont.injEq] at h
                subst h
                refine ⟨?_, ?_, htr_ext true (fun hf _ => by
                  exfalso
                  simp only [isForDisk, beq_iff_eq] at hf
                  exact hne (by rw [hf]; rfl))⟩
                · by_cases hp : e.time + next ≤ c.sim_duration
                  · rw [if_pos hp]
                    refine happ0 _ ?_
                    simp only [isDiskFailFor, Bool.and_eq_false_iff]
                    right
                    simp only [beq_eq_false_iff_ne, ne_eq, Option.some.injEq]
                    exact hne
                  · rw [if_neg hp]
                    exact hrest0
                · show ((s.diskUp.set (e.idx.getD 0) true).getD i true) = s.serverUp
                  rw [getD_set_ne true true hne]
                  exact hud
            · rw [if_neg hg] at h
              simp only [Except.ok.injEq, NLoopRes.cont.injEq] at h
              subst h
              exact ⟨hrest0, hud, htr_ext false (fun _ _ => rfl)⟩

theorem nStep_brk_nmf {c : NCtx} {s s' : NState} {i : ℕ} {t0 : List (NEvent × Bool)}
    (hP : NMF i t0 s) (h : nStep c s = .ok (.brk s')) :
    NMF i t0 s' := by
  cases hpop : popMin nLe s.events with
  | none => simp [nStep, hpop] at h
  | some pr =>
    obtain ⟨e, rest⟩ := pr
    simp only [nStep, hpop] at h
    have hcount := fun p => popMin_countP nLe hpop p
    obtain ⟨hcnt0, hud, htr⟩ := hP
    have hrest0 : rest.countP (isDiskFailFor i) = 0 := by
      have hc := hcount (isDiskFailFor i)
      have : (if isDiskFailFor i e = true then 1 else 0) ≤ 1 := by
        by_cases hb : isDiskFailFor i e = true
        · rw [if_pos hb]
        · rw [if_neg hb]
          omega
      omega
    by_cases hbrk : c.sim_duration < e.time
    · rw [if_pos hbrk] at h
      simp only [Except.ok.injEq, NLoopRes.brk.injEq] at h
      subst h
      exact ⟨hrest0, hud, htr⟩
    · rw [if_neg hbrk] at h
      by_cases hk1 : e.kind = NKind.server_fail
      · rw [if_pos hk1] at h
        by_cases hg : s.serverUp = true
        · rw [if_pos hg] at h
          exact absurd h (by simp)
        · rw [if_neg hg] at h
          exact absurd h (by simp)
      · rw [if_neg hk1] at h
        by_cases hk2 : e.kind = NKind.server_repair
        · rw [if_pos hk2] at h
          by_cases hg : s.serverUp = false
          · rw [if_pos hg] at h
            cases hdraw : weibull_rvs c.shape (c.sim_duration / 1) (c.w s.wIdx) with
            | error er => rw [hdraw] at h; exact absurd h (by simp [except_bind_err])
            | ok next =>
              rw [hdraw] at h
              exact absurd h (by simp [except_bind_ok])
          · rw [if_neg hg] at h
            exact absurd h (by simp)
        · rw [if_neg hk2] at h
          by_cases hk3 : e.kind = NKind.disk_fail
          · rw [if_pos hk3] at h
            by_cases hg : (s.serverUp && s.diskUp.getD (e.idx.getD 0) false) = true
            · rw [if_pos hg] at h
              exact absurd h (by simp)
            · rw [if_neg hg] at h
              exact absurd h (by simp)
          · rw [if_neg hk3] at h
            by_cases hg : (s.serverUp && (s.diskUp.getD (e.idx.getD 0) true == false)) =
                true
            · rw [if_pos hg] at h
              cases hdraw : weibull_rvs c.shape (c.sim_duration / 2) (c.w s.wIdx) with
              | error er => rw [hdraw] at h; exact absurd h (by simp [except_bind_err])
              | ok next =>
                rw [hdraw] at h
                exact absurd h (by simp [except_bind_ok])
            · rw [if_neg hg] at h
              exact absurd h (by simp)

/-- Establishing the C10 situation: a `server_fail` event processed while
the server is up and disk `i` is already down leaves a state from which
disk `i` never fails again. -/
theorem nStep_serverfail_nmf {c : NCtx} {s s' : NState} {e : NEvent}
    {rest : List NEvent} {i : ℕ}
    (hG : NGood c s) (hi : i < c.server.disks.length)
    (hpop : popMin nLe s.events = some (e, rest))
    (hk : e.kind = NKind.server_fail) (hup : s.serverUp = true)
    (hdn : s.diskUp.getD i true = false)
    (h : nStep c s = .ok (.cont s')) :
    NMF i s'.trace s' ∧ s'.trace = s.trace ++ [(e, true)] := by
  simp only [nStep, hpop] at h
  have hcount := fun p => popMin_countP nLe hpop p
  have hiU : i < s.diskUp.length := by rw [hG.diskUp_len]; exact hi
  have h0 : s.events.countP (isDiskFailFor i) = 0 :=
    hG.no_fail_when_down hup i hi hdn
  have hrest0 : rest.countP (isDiskFailFor i) = 0 := by
    have hc := hcount (isDiskFailFor i)
    omega
  by_cases hbrk : c.sim_duration < e.time
  · rw [if_pos hbrk] at h
    exact absurd h (by simp)
  · rw [if_neg hbrk, if_pos hk, if_pos hup] at h
    simp only [Except.ok.injEq, NLoopRes.cont.injEq] at h
    subst h
    refine ⟨⟨?_, ?_, [], (List.append_nil _).symm, by simp⟩, rfl⟩
    · show (rest ++ [(⟨if c.sim_duration < e.time +
        uniform (3/2) (5/2) (c.u s.uIdx) then c.sim_duration else e.time +
        uniform (3/2) (5/2) (c.u s.uIdx), NKind.server_repair, none⟩ : NEvent)]).countP
        (isDiskFailFor i) = 0
      rw [List.countP_append, hrest0, List.countP_cons, List.countP_nil]
      simp [isDiskFailFor]
    · show ((s.diskUp.map fun _ => false).getD i true) = false
      exact getD_map_const hiU

/-- MTTF/MTTR of a completed `simulate_server_and_disks` trial: the
source's guarded formulas.  MTTF is `sim_duration / failures` (not
uptime-based), and `sim_duration` itself — not infinity — at zero
failures; MTTR is `downtime / failures`, `0` at zero failures. -/
theorem simulate_ssd_metrics {c : NCtx} {fuel : ℕ} {srv : ServerRes}
    {dres : List DiskRes}
    (h : simulate_server_and_disks c fuel = .ok (some (srv, dres))) :
    (srv.mttf = if 0 < srv.failures then c.sim_duration / (srv.failures : ℚ)
      else c.sim_duration) ∧
    (srv.mttr = if 0 < srv.failures then srv.downtime / (srv.failures : ℚ) else 0) ∧
    ∀ d ∈ dres,
      (d.mttf = if 0 < d.failures then c.sim_duration / (d.failures : ℚ)
        else c.sim_duration) ∧
      (d.mttr = if 0 < d.failures then d.downtime / (d.failures : ℚ) else 0) := by
  obtain ⟨s0, sf, hinit, hiter, hfin⟩ := simulate_ssd_ok_elim h
  simp only [nFinish] at hfin
  by_cases hdur0 : c.sim_duration = 0
  · rw [if_pos hdur0] at hfin
    exact absurd hfin (by simp)
  · rw [if_neg hdur0] at hfin
    simp only [Except.ok.injEq, Prod.mk.injEq] at hfin
    obtain ⟨hsrv, hdres⟩ := hfin
    subst hsrv
    subst hdres
    refine ⟨rfl, rfl, ?_⟩
    intro d hd
    obtain ⟨d0, _, hd0eq⟩ := List.mem_map.mp hd
    rw [← hd0eq]
    exact ⟨rfl, rfl⟩

theorem npMean_eq_meanSpec (xs : List ℚ) : npMean xs = meanSpec xs := rfl

theorem npStdSq_eq_varSpec (xs : List ℚ) : npStdSq xs = varSpec xs := by
  unfold npStdSq npMean varSpec meanSpec
  rw [List.length_map]

theorem npMean_perm {xs ys : List ℚ} (h : xs.Perm ys) : npMean xs = npMean ys := by
  unfold npMean
  rw [h.sum_eq, h.length_eq]

theorem npMeanInf_perm {xs ys : List QInf} (h : xs.Perm ys) :
    npMeanInf xs = npMeanInf ys := by
  unfold npMeanInf
  rw [h.sum_eq, h.length_eq]

theorem npStdSq_perm {xs ys : List ℚ} (h : xs.Perm ys) : npStdSq xs = npStdSq ys := by
  unfold npStdSq
  rw [npMean_perm h]
  exact npMean_perm (h.map _)

/-- The aggregation is order-independent: permuting the per-trial results
leaves every aggregated field unchanged. -/
theorem aggregate_results_perm (name : String) (sla : SlaTargets)
    {rs rs' : List RunResult} (h : rs.Perm rs') :
    aggregate_results name sla rs = aggregate_results name sla rs' := by
  unfold aggregate_results
  rw [npMean_perm (h.map _), npMean_perm (h.map (·.total_maintenance_cost)),
      npMean_perm (h.map (fun r => (r.total_replacements : ℚ))),
      npMean_perm (h.map (·.availability)), npMeanInf_perm (h.map (·.MTBF)),
      npMean_perm (h.map (·.MTTR)), npStdSq_perm (h.map (·.total_downtime)),
      npStdSq_perm (h.map (·.total_maintenance_cost))]

theorem collectSome_map_some {α β : Type _} (f : α → β) (l : List α) :
    collectSome (l.map fun x => some (f x)) = some (l.map f) := by
  induction l with
  | nil => rfl
  | cons a l ih =>
    simp only [List.map_cons, collectSome, ih, Option.map]

/-- With zero trials per policy, `run_simulations` never draws from the
distribution and returns the aggregation of an empty result list for
every policy — parameters are not validated before the trials. -/
theorem run_simulations_zero_trials (policies : List DataCenterPolicy) (dur : ℚ)
    (sla : SlaTargets) (w : ℕ → ℕ → ℚ) (fuel : ℕ) :
    run_simulations policies dur 0 sla w fuel =
      .ok (some (policies.map fun p => aggregate_results p.name sla [])) := by
  unfold run_simulations
  have hmap : ∀ ps : List DataCenterPolicy, (ps.mapM fun p => do
      let rs ← (List.range 0).mapM fun t => simulate_policy p dur (w t) fuel
      match collectSome rs with
      | some rs' => pure (some (aggregate_results p.name sla rs'))
      | none => pure (none : Option AggregatedResult)) =
      .ok (ps.map fun p => some (aggregate_results p.name sla [])) := by
    intro ps
    induction ps with
    | nil => rfl
    | cons a l ih =>
      rw [List.mapM_cons, ih]
      rfl
  rw [hmap]
  simp only [bind, Except.bind, pure, Except.pure, Except.ok.injEq]
  have : (policies.map fun p => some (aggregate_results p.name sla [])) =
      policies.map fun p => some ((fun q => aggregate_results q.name sla []) p) := rfl
  rw [this, collectSome_map_some]

/-- C1: the redundancy decision of `simulate_policy`, as the code
implements it: on levels 1, 5 and 6 the failure-branch and repair-branch
checks are complements of one pure predicate of `(level, total, failed)`,
but on level 0 the failure branch always declares the system failed and
the repair branch always declares it recovered — even with
`failedCount > 0` — and on unknown levels a failure always downs the
system while no repair ever recovers it. -/
theorem C1_redundancy_decision :
    (∀ (lvl : ℤ) (total : ℕ) (f : ℤ), (lvl = 1 ∨ lvl = 5 ∨ lvl = 6) →
      f ≤ (total : ℤ) →
      system_failed_check lvl total f = !system_recovered_check lvl total f) ∧
    (∀ (total : ℕ) (f : ℤ), system_failed_check 0 total f = true) ∧
    (∀ (total : ℕ) (f : ℤ), system_recovered_check 0 total f = true) ∧
    (∀ (lvl : ℤ) (total : ℕ) (f : ℤ), lvl ≠ 0 → lvl ≠ 1 → lvl ≠ 5 → lvl ≠ 6 →
      system_failed_check lvl total f = true ∧
      system_recovered_check lvl total f = false) := by
  refine ⟨?_, ?_, ?_, ?_⟩
  · intro lvl total f hl hle
    rcases hl with h | h | h <;> subst h <;>
      simp only [system_failed_check, system_recovered_check] <;> norm_num
    · by_cases hf : f = (total : ℤ)
      · simp [hf]
      · have hlt : f < (total : ℤ) := lt_of_le_of_ne hle hf
        simp [hf, hlt]
    · by_cases h5 : f ≤ 1
      · simp [h5, not_lt.mpr h5]
      · simp [h5, lt_of_not_le h5]
    · by_cases h6 : f ≤ 2
      · simp [h6, not_lt.mpr h6]
      · simp [h6, lt_of_not_le h6]
  · intro total f
    simp [system_failed_check]
  · intro total f
    simp [system_recovered_check]
  · intro lvl total f h0 h1 h5 h6
    exact ⟨by simp [system_failed_check, h0, h1, h5, h6],
           by simp [system_recovered_check, h0, h1, h5, h6]⟩

/-- C1 counterexample: under RAID level 0 a repair event that leaves one
of the two disks still failed brings the system back up, contradicting
"under level 0 the system is up iff failedCount == 0": in the `p0` trial
the repair at `t = 11` sets `system_down = False` while `failed_disks`
is still `1`. -/
theorem C1_counterexample :
    system_recovered_check 0 2 1 = true ∧
    ∃ s0 st, pyInit p0 w0 = .ok s0 ∧
      pyIter p0 100 w0 3 (.running s0) = .ok (.running st) ∧
      st.systemDown = false ∧ st.failedDisks = 1 := by
  refine ⟨by decide,
    { currentTime := 0
      disksFailed := [false, false]
      failedDisks := 0
      systemDown := false
      downtimeStart := none
      totalDowntime := 0
      totalMaintenanceCost := 0
      totalReplacements := 0
      events := [⟨1, PyKind.failure, 0⟩, ⟨2, PyKind.failure, 1⟩]
      rng := 2 },
    { currentTime := 11
      disksFailed := [false, true]
      failedDisks := 1
      systemDown := false
      downtimeStart := none
      totalDowntime := 10
      totalMaintenanceCost := 6
      totalReplacements := 2
      events := [⟨12, PyKind.repair, 1⟩, ⟨1011, PyKind.failure, 0⟩]
      rng := 3 }, ?_, ?_, rfl, rfl⟩
  · norm_num [pyInit, pyInitEvents, p0, w0, weibull_rvs, List.mapM, List.mapM.loop,
      bind, Except.bind, pure, Except.pure, List.replicate]
  · norm_num [pyIter, pyStep, pyLoopCond, popMin, pyLe, pyKey, p0, w0,
      system_failed_check, system_recovered_check, weibull_rvs, bind, Except.bind,
      pure, Except.pure, Prod.Lex.le_iff]
    rfl

/-- C1 witness: the complement law applied at level 1 with two disks and
one failure, and the unknown-level law applied at level 2. -/
theorem C1_witness :
    system_failed_check 1 2 1 = !system_recovered_check 1 2 1 ∧
    system_failed_check 2 4 1 = true ∧ system_recovered_check 2 4 1 = false :=
  ⟨C1_redundancy_decision.1 1 2 1 (Or.inl rfl) (by decide),
   (C1_redundancy_decision.2.2.2 2 4 1 (by decide) (by decide) (by decide)
     (by decide)).1,
   (C1_redundancy_decision.2.2.2 2 4 1 (by decide) (by decide) (by decide)
     (by decide)).2⟩

/-- C6: under RAID level 1 with exactly two disks, at every point of a
`simulate_policy` trial the system is down exactly when both disks are
simultaneously down (`failed_disks = 2`); in particular with exactly one
disk down it stays up. -/
theorem C6_raid1_two_disks :
    ∀ (p : DataCenterPolicy) (dur : ℚ) (w : ℕ → ℚ) (fuel : ℕ) (s0 : PyState)
      (st : PyIterSt),
      p.raid_level = 1 → p.number_of_disks = 2 →
      pyInit p w = .ok s0 → pyIter p dur w fuel (.running s0) = .ok st →
      (st.state.systemDown = true ↔ st.state.failedDisks = 2) ∧
      (st.state.failedDisks = 1 → st.state.systemDown = false) := by
  intro p dur w fuel s0 st h1 h2 hinit hiter
  have hI : Inv6 st.state := pyIter_inv6 h1 h2 hinit hiter
  refine ⟨hI, ?_⟩
  intro hone
  cases hb : st.state.systemDown
  · rfl
  · have h2' := hI.mp hb
    rw [hone] at h2'
    exact absurd h2' (by norm_num)

/-- C6 witness: the invariant applied to the `p1` trial after two
failure events: both disks are down and the system is down. -/
theorem C6_witness :
    p1.raid_level = 1 ∧
    ((PyIterSt.running
      { currentTime := 2
        disksFailed := [true, true]
        failedDisks := 2
        systemDown := true
        downtimeStart := some 2
        totalDowntime := 0
        totalMaintenanceCost := 6
        totalReplacements := 2
        events := [⟨11, PyKind.repair, 0⟩, ⟨12, PyKind.repair, 1⟩]
        rng := 2 }).state.systemDown = true ↔
     (PyIterSt.running
      { currentTime := 2
        disksFailed := [true, true]
        failedDisks := 2
        systemDown := true
        downtimeStart := some 2
        totalDowntime := 0
        totalMaintenanceCost := 6
        totalReplacements := 2
        events := [⟨11, PyKind.repair, 0⟩, ⟨12, PyKind.repair, 1⟩]
        rng := 2 }).state.failedDisks = 2) :=
  ⟨rfl,
   (C6_raid1_two_disks p1 100 w0 2
     { currentTime := 0
       disksFailed := [false, false]
       failedDisks := 0
       systemDown := false
       downtimeStart := none
       totalDowntime := 0
       totalMaintenanceCost := 0
       totalReplacements := 0
       events := [⟨1, PyKind.failure, 0⟩, ⟨2, PyKind.failure, 1⟩]
       rng := 2 }
     (.running
      { currentTime := 2
        disksFailed := [true, true]
        failedDisks := 2
        systemDown := true
        downtimeStart := some 2
        totalDowntime := 0
        totalMaintenanceCost := 6
        totalReplacements := 2
        events := [⟨11, PyKind.repair, 0⟩, ⟨12, PyKind.repair, 1⟩]
        rng := 2 })
     rfl rfl
     (by norm_num [pyInit, pyInitEvents, p1, w0, weibull_rvs, List.mapM,
       List.mapM.loop, bind, Except.bind, pure, Except.pure, List.replicate])
     (by
       norm_num [pyIter, pyStep, pyLoopCond, popMin, pyLe, pyKey, p1, w0,
         system_failed_check, system_recovered_check, weibull_rvs, bind,
         Except.bind, pure, Except.pure, Prod.Lex.le_iff])).1⟩

/-- C7: both event queues pop an event that is minimal for the full
lexicographic tuple key — time first, then the event-kind string, then
the component index — so events come out in non-decreasing time order;
same-time ties are broken by the kind string and the index, not by an
insertion sequence number. -/
theorem C7_event_ordering :
    (∀ (l : List PyEvent) (e : PyEvent) (rest : List PyEvent),
      popMin pyLe l = some (e, rest) →
      (∀ x ∈ rest, e.time ≤ x.time) ∧ (∀ x ∈ rest, pyKey e ≤ pyKey x)) ∧
    (∀ (l : List NEvent) (e : NEvent) (rest : List NEvent),
      popMin nLe l = some (e, rest) →
      (∀ x ∈ rest, e.time ≤ x.time) ∧ (∀ x ∈ rest, nKey e ≤ nKey x)) := by
  constructor
  · intro l e rest hpop
    have hmin := popMin_min pyLe pyLe_total pyLe_trans l e rest hpop
    have hkey : ∀ x ∈ rest, pyKey e ≤ pyKey x := by
      intro x hx
      have := hmin x hx
      simpa [pyLe, decide_eq_true_eq] using this
    refine ⟨?_, hkey⟩
    intro x hx
    rcases (Prod.Lex.le_iff _ _).mp (hkey x hx) with hlt | ⟨heq, _⟩
    · exact le_of_lt hlt
    · exact le_of_eq heq
  · intro l e rest hpop
    have hmin := popMin_min nLe nLe_total nLe_trans l e rest hpop
    have hkey : ∀ x ∈ rest, nKey e ≤ nKey x := by
      intro x hx
      have := hmin x hx
      simpa [nLe, decide_eq_true_eq] using this
    refine ⟨?_, hkey⟩
    intro x hx
    rcases (Prod.Lex.le_iff _ _).mp (hkey x hx) with hlt | ⟨heq, _⟩
    · exact le_of_lt hlt
    · exact le_of_eq heq

/-- C7 counterexample: two same-time events.  The `'repair'` event was
inserted first, yet the later-inserted `'failure'` event is popped first
(`'failure' < 'repair'` in string order), so ties are not broken by the
insertion sequence number; `simulationNorm`'s queue behaves the same with
its four kind strings. -/
theorem C7_counterexample :
    popMin pyLe [⟨5, PyKind.repair, 0⟩, ⟨5, PyKind.failure, 1⟩] =
      some (⟨5, PyKind.failure, 1⟩, [⟨5, PyKind.repair, 0⟩]) ∧
    popMin nLe [⟨5, NKind.server_repair, none⟩, ⟨5, NKind.disk_fail, some 0⟩] =
      some (⟨5, NKind.disk_fail, some 0⟩, [⟨5, NKind.server_repair, none⟩]) := by
  constructor
  · norm_num [popMin, pyLe, pyKey, PyKind.rank, Prod.Lex.le_iff]
  · norm_num [popMin, nLe, nKey, NKind.rank, Prod.Lex.le_iff]
    intro h
    rcases (Prod.Lex.le_iff _ _).mp h with hlt | ⟨heq, _⟩
    · exact absurd hlt (by norm_num)
    · exact absurd heq (by norm_num)

/-- C7 witness: the ordering law applied to the two-event queue of the
counterexample configuration. -/
theorem C7_witness :
    ∀ x ∈ [(⟨5, PyKind.repair, 0⟩ : PyEvent)],
      (5 : ℚ) ≤ x.time ∧ pyKey ⟨5, PyKind.failure, 1⟩ ≤ pyKey x := by
  have h := C7_event_ordering.1 [⟨5, PyKind.repair, 0⟩, ⟨5, PyKind.failure, 1⟩]
    ⟨5, PyKind.failure, 1⟩ [⟨5, PyKind.repair, 0⟩]
    (by norm_num [popMin, pyLe, pyKey, PyKind.rank, Prod.Lex.le_iff])
  intro x hx
  exact ⟨h.1 x hx, h.2 x hx⟩

/-- C8: for at least one trial, the aggregation is the arithmetic mean of
the numeric fields and the population standard deviation (stated through
its square) of downtime and maintenance cost; `meets_sla` holds exactly
when the mean availability reaches the target and the mean downtime stays
within the maximum; and any permutation of the trial results yields the
same aggregate. -/
theorem C8_aggregation :
    ∀ (name : String) (sla : SlaTargets) (rs rs' : List RunResult),
      0 < rs.length → rs.Perm rs' →
      aggregate_results name sla rs = aggregate_results name sla rs' ∧
      (aggregate_results name sla rs).avg_downtime =
        meanSpec (rs.map (·.total_downtime)) ∧
      (aggregate_results name sla rs).avg_maintenance_cost =
        meanSpec (rs.map (·.total_maintenance_cost)) ∧
      (aggregate_results name sla rs).avg_availability =
        meanSpec (rs.map (·.availability)) ∧
      (aggregate_results name sla rs).avg_MTTR = meanSpec (rs.map (·.MTTR)) ∧
      (aggregate_results name sla rs).std_downtime_sq =
        varSpec (rs.map (·.total_downtime)) ∧
      (aggregate_results name sla rs).std_maintenance_cost_sq =
        varSpec (rs.map (·.total_maintenance_cost)) ∧
      ((aggregate_results name sla rs).meets_sla = true ↔
        sla.availability ≤ meanSpec (rs.map (·.availability)) ∧
        meanSpec (rs.map (·.total_downtime)) ≤ sla.max_downtime) := by
  intro name sla rs rs' _ hperm
  refine ⟨aggregate_results_perm name sla hperm, rfl, rfl, rfl, rfl,
    npStdSq_eq_varSpec _, npStdSq_eq_varSpec _, ?_⟩
  show decide _ = true ↔ _
  rw [decide_eq_true_iff]
  exact Iff.rfl

/-- C8 witness: the aggregation law applied to two concrete trial results
and their swap. -/
theorem C8_witness :
    0 < ([(⟨"x", 1, 2, 3, 90, QInf.inf, 0⟩ : RunResult),
          ⟨"x", 2, 4, 1, 80, QInf.fin 5, 2⟩] : List RunResult).length ∧
    aggregate_results "x" ⟨85, 2⟩
        [⟨"x", 1, 2, 3, 90, QInf.inf, 0⟩, ⟨"x", 2, 4, 1, 80, QInf.fin 5, 2⟩] =
      aggregate_results "x" ⟨85, 2⟩
        [⟨"x", 2, 4, 1, 80, QInf.fin 5, 2⟩, ⟨"x", 1, 2, 3, 90, QInf.inf, 0⟩] :=
  ⟨by norm_num,
   (C8_aggregation "x" (⟨85, 2⟩ : SlaTargets)
     ([⟨"x", 1, 2, 3, 90, QInf.inf, 0⟩, ⟨"x", 2, 4, 1, 80, QInf.fin 5, 2⟩] :
       List RunResult)
     ([⟨"x", 2, 4, 1, 80, QInf.fin 5, 2⟩, ⟨"x", 1, 2, 3, 90, QInf.inf, 0⟩] :
       List RunResult)
     (by norm_num)
     (List.Perm.swap (⟨"x", 2, 4, 1, 80, QInf.fin 5, 2⟩ : RunResult)
       (⟨"x", 1, 2, 3, 90, QInf.inf, 0⟩ : RunResult) [])).1⟩

/-- C9: the failure-interval draw fails with scipy's `ValueError` exactly
when `shape ≤ 0` or `scale < 0` (a zero scale is accepted), and succeeds
with a non-negative sample for valid parameters; there is no validation
before the trials — with zero trials per policy nothing is drawn and
`run_simulations` succeeds whatever the parameters. -/
theorem C9_parameter_validation :
    (∀ sh sc u : ℚ, weibull_rvs sh sc u = .error .valueError ↔ (sh ≤ 0 ∨ sc < 0)) ∧
    (∀ sh sc u : ℚ, ¬sh ≤ 0 → ¬sc < 0 → 0 ≤ u →
      ∃ v, weibull_rvs sh sc u = .ok v ∧ 0 ≤ v) ∧
    (∀ (policies : List DataCenterPolicy) (dur : ℚ) (sla : SlaTargets)
      (w : ℕ → ℕ → ℚ) (fuel : ℕ),
      run_simulations policies dur 0 sla w fuel =
        .ok (some (policies.map fun p => aggregate_results p.name sla []))) := by
  refine ⟨?_, ?_, fun policies dur sla w fuel =>
    run_simulations_zero_trials policies dur sla w fuel⟩
  · intro sh sc u
    unfold weibull_rvs
    by_cases hc : sh ≤ 0 ∨ sc < 0
    · simp [hc]
    · simp [hc]
  · intro sh sc u hsh hsc hu
    refine ⟨sc * u, ?_, mul_nonneg (not_lt.mp hsc) hu⟩
    unfold weibull_rvs
    rw [if_neg (not_or.mpr ⟨hsh, hsc⟩)]

/-- C9 counterexample: a policy with a negative disk MTTF (an invalid
scipy scale) is not rejected before the trials: with zero trials
`run_simulations` succeeds, and with one trial the failure surfaces as a
`ValueError` raised inside the trial — not as a pre-trial
`InvalidParameterError`. -/
theorem C9_counterexample :
    pBad.disk_mttf < 0 ∧
    run_simulations [pBad] 5 0 ⟨90, 10⟩ (fun _ _ => 1) 3 =
      .ok (some [aggregate_results "bad" ⟨90, 10⟩ []]) ∧
    run_simulations [pBad] 5 1 ⟨90, 10⟩ (fun _ _ => 1) 3 = .error .valueError := by
  refine ⟨by norm_num [pBad], ?_, ?_⟩
  · norm_num [run_simulations, simulate_policy, pyInit, pyInitEvents, pBad,
      weibull_rvs, List.mapM, List.mapM.loop, bind, Except.bind, pure, Except.pure,
      collectSome]
  · norm_num [run_simulations, simulate_policy, pyInit, pyInitEvents, pBad,
      weibull_rvs, List.mapM, List.mapM.loop, bind, Except.bind, pure, Except.pure,
      collectSome]

/-- C9 witness: a valid draw at shape `2`, scale `3`, unit sample `1/2`. -/
theorem C9_witness : ∃ v, weibull_rvs 2 3 (1/2) = .ok v ∧ 0 ≤ v :=
  C9_parameter_validation.2.1 2 3 (1/2) (by norm_num) (by norm_num) (by norm_num)

/-- C4: a zero horizon does not produce the all-zero result the spec
promises: the epilogue's availability division `uptime / total_time` is
unguarded, so any trial whose setup succeeds ends in
`ZeroDivisionError`. -/
theorem C4_zero_horizon :
    (∀ (p : DataCenterPolicy) (sf : PyState), sf.systemDown = false →
      pyFinish p 0 sf = .error .zeroDivisionError) ∧
    (∀ (p : DataCenterPolicy) (w : ℕ → ℚ) (fuel : ℕ),
      (∃ s0, pyInit p w = .ok s0) →
      simulate_policy p 0 w fuel = .error .zeroDivisionError) := by
  have hfin0 : ∀ (p : DataCenterPolicy) (sf : PyState), sf.systemDown = false →
      pyFinish p 0 sf = .error .zeroDivisionError := by
    intro p sf hsd
    unfold pyFinish
    simp [hsd, bind, Except.bind]
  refine ⟨hfin0, ?_⟩
  intro p w fuel ⟨s0, hinit⟩
  obtain ⟨hs0, _⟩ := pyInit_ok_elim hinit
  unfold simulate_policy
  rw [hinit]
  simp only [except_bind_ok]
  have hcond : pyLoopCond 0 s0 = false := by
    rw [hs0]
    simp [pyLoopCond]
  have hiter : pyIter p 0 w fuel (.running s0) = .ok (.done s0) := by
    cases fuel with
    | zero => simp [pyIter, hcond]
    | succ n => simp [pyIter, hcond]
  rw [hiter]
  simp only [except_bind_ok]
  have hsd : s0.systemDown = false := by rw [hs0]
  rw [hfin0 p s0 hsd]
  rfl

/-- C4 counterexample: the `p0` configuration at horizon 0 returns
`ZeroDivisionError` — not a RunResult with all-zero metrics and 100%
availability. -/
theorem C4_counterexample :
    simulate_policy p0 0 w0 5 = .error .zeroDivisionError := by
  norm_num [simulate_policy, pyInit, pyInitEvents, pyIter, pyStep, pyLoopCond,
    pyFinish, p0, w0, weibull_rvs, List.mapM, List.mapM.loop, bind, Except.bind,
    pure, Except.pure, List.replicate]

/-- C4 witness: the zero-horizon error law applied to the `p0`
configuration. -/
theorem C4_witness :
    simulate_policy p0 0 w0 3 = .error .zeroDivisionError :=
  C4_zero_horizon.2 p0 w0 3
    ⟨{ currentTime := 0
       disksFailed := [false, false]
       failedDisks := 0
       systemDown := false
       downtimeStart := none
       totalDowntime := 0
       totalMaintenanceCost := 0
       totalReplacements := 0
       events := [⟨1, PyKind.failure, 0⟩, ⟨2, PyKind.failure, 1⟩]
       rng := 2 },
     by norm_num [pyInit, pyInitEvents, p0, w0, weibull_rvs, List.mapM,
       List.mapM.loop, bind, Except.bind, pure, Except.pure, List.replicate]⟩

/-- C5: MTBF/MTTR as the two engines actually compute them, never raising
on zero failures.  `simulate_policy` follows the spec: MTBF is
`uptime / failureCount` when positive and `float('inf')` at zero
failures, MTTR is `downtime / failureCount` or `0`.  `simulationNorm`
instead computes MTTF as `sim_duration / failures` — the raw horizon, not
uptime — and reports the horizon itself (a finite number, not infinity)
at zero failures. -/
theorem C5_mtbf_mttr :
    (∀ (p : DataCenterPolicy) (dur : ℚ) (w : ℕ → ℚ) (fuel : ℕ) (r : RunResult),
      simulate_policy p dur w fuel = .ok (some r) →
      (r.total_replacements = 0 → r.MTBF = .inf ∧ r.MTTR = 0) ∧
      (0 < r.total_replacements →
        r.MTBF = .fin ((dur - r.total_downtime) / (r.total_replacements : ℚ)) ∧
        r.MTTR = r.total_downtime / (r.total_replacements : ℚ))) ∧
    (∀ (c : NCtx) (fuel : ℕ) (srv : ServerRes) (dres : List DiskRes),
      simulate_server_and_disks c fuel = .ok (some (srv, dres)) →
      (srv.mttf = if 0 < srv.failures then c.sim_duration / (srv.failures : ℚ)
        else c.sim_duration) ∧
      (srv.mttr = if 0 < srv.failures then srv.downtime / (srv.failures : ℚ)
        else 0) ∧
      ∀ d ∈ dres,
        (d.mttf = if 0 < d.failures then c.sim_duration / (d.failures : ℚ)
          else c.sim_duration) ∧
        (d.mttr = if 0 < d.failures then d.downtime / (d.failures : ℚ) else 0)) :=
  ⟨fun _ _ _ _ _ h => simulate_policy_metrics h,
   fun _ _ _ _ h => simulate_ssd_metrics h⟩

/-- C5 counterexample: in `simulationNorm` a trial with one server
failure and downtime 2 over a horizon of 10 reports MTTF 10 — not the
spec's `uptime / failureCount = 8` — and a trial with zero failures
reports the finite horizon 10, not infinity. -/
theorem C5_counterexample :
    (∃ srv : ServerRes, simulate_server_and_disks cC5 3 = .ok (some (srv, [])) ∧
      srv.failures = 1 ∧ srv.downtime = 2 ∧ srv.mttf = 10 ∧
      srv.mttf ≠ (10 - srv.downtime) / (srv.failures : ℚ)) ∧
    (∃ srv2 : ServerRes, simulate_server_and_disks cC5b 1 = .ok (some (srv2, [])) ∧
      srv2.failures = 0 ∧ srv2.mttf = 10) := by
  constructor
  · refine ⟨⟨2, 1, 5, 0, 2, 10, 80, [(5, 7)]⟩, ?_, rfl, rfl, rfl, by norm_num⟩
    have h0 : nInit cC5 = .ok (⟨0, true, [], 0, 0, 0, 0,
        [], none, [],
        [⟨5, NKind.server_fail, none⟩], 1, 0,
        []⟩ : NState) := by
      norm_num [nInit, cC5, weibull_rvs, List.mapM, List.mapM.loop, bind,
        Except.bind, pure, Except.pure]
    have h1 : nStep cC5 (⟨0, true, [], 0, 0, 0, 0,
        [], none, [],
        [⟨5, NKind.server_fail, none⟩], 1, 0,
        []⟩ : NState) = .ok (.cont (⟨5, false, [], 2, 1, 5, 0,
        [(5, 7)], some 5, [],
        [⟨7, NKind.server_repair, none⟩], 1, 1,
        [(⟨5, NKind.server_fail, none⟩, true)]⟩ : NState)) := by
      norm_num [nStep, cC5, popMin, nLe, nKey, NKind.rank, weibull_rvs, uniform,
        markDisksDown, closeDisksServerRepair, NCtx.totalLostPerHour,
        List.zipWith, bind, Except.bind, pure, Except.pure,
        Prod.Lex.le_iff, reduceCtorEq]
      all_goals decide
    have h2 : nStep cC5 (⟨5, false, [], 2, 1, 5, 0,
        [(5, 7)], some 5, [],
        [⟨7, NKind.server_repair, none⟩], 1, 1,
        [(⟨5, NKind.server_fail, none⟩, true)]⟩ : NState) = .ok (.cont (⟨7, true, [], 2, 1, 5, 0,
        [(5, 7)], some 5, [],
        [], 2, 1,
        [(⟨5, NKind.server_fail, none⟩, true), (⟨7, NKind.server_repair, none⟩, true)]⟩ : NState)) := by
      norm_num [nStep, cC5, popMin, nLe, nKey, NKind.rank, weibull_rvs, uniform,
        markDisksDown, closeDisksServerRepair, NCtx.totalLostPerHour,
        List.zipWith, bind, Except.bind, pure, Except.pure,
        Prod.Lex.le_iff, reduceCtorEq]
      all_goals decide
    have hfin : nFinish cC5 (⟨7, true, [], 2, 1, 5, 0,
        [(5, 7)], some 5, [],
        [], 2, 1,
        [(⟨5, NKind.server_fail, none⟩, true), (⟨7, NKind.server_repair, none⟩, true)]⟩ : NState) =
        .ok ((⟨2, 1, 5, 0, 2, 10, 80, [(5, 7)]⟩ : ServerRes), []) := by
      norm_num [nFinish, cC5, closeOpenDiskIntervals, NCtx.totalLostPerHour]
    norm_num [simulate_server_and_disks, nIter, h0, h1, h2, hfin, bind,
      Except.bind, pure, Except.pure]
  · refine ⟨⟨0, 0, 0, 0, 0, 10, 100, []⟩, ?_, rfl, rfl⟩
    have h0 : nInit cC5b = .ok (⟨0, true, [], 0, 0, 0, 0,
        [], none, [],
        [⟨20, NKind.server_fail, none⟩], 1, 0,
        []⟩ : NState) := by
      norm_num [nInit, cC5b, weibull_rvs, List.mapM, List.mapM.loop, bind,
        Except.bind, pure, Except.pure]
    have h1 : nStep cC5b (⟨0, true, [], 0, 0, 0, 0,
        [], none, [],
        [⟨20, NKind.server_fail, none⟩], 1, 0,
        []⟩ : NState) = .ok (.brk (⟨0, true, [], 0, 0, 0, 0,
        [], none, [],
        [], 1, 0,
        []⟩ : NState)) := by
      norm_num [nStep, cC5b, popMin, nLe, nKey, NKind.rank, weibull_rvs, uniform,
        bind, Except.bind, pure, Except.pure, Prod.Lex.le_iff, reduceCtorEq]
    have hfin : nFinish cC5b (⟨0, true, [], 0, 0, 0, 0,
        [], none, [],
        [], 1, 0,
        []⟩ : NState) =
        .ok ((⟨0, 0, 0, 0, 0, 10, 100, []⟩ : ServerRes), []) := by
      norm_num [nFinish, cC5b, closeOpenDiskIntervals, NCtx.totalLostPerHour]
    norm_num [simulate_server_and_disks, nIter, h0, h1, hfin, bind,
      Except.bind, pure, Except.pure]

/-- C5 witness: the MTTF/MTTR law applied to the one-failure
`simulationNorm` trial. -/
theorem C5_witness :
    (0 : ℚ) = (if 0 < (0 : ℕ) then (0 : ℚ) / ((0 : ℕ) : ℚ) else 0) ∧
    (10 : ℚ) = (if 0 < (0 : ℕ) then (10 : ℚ) / ((0 : ℕ) : ℚ) else 10) := by
  have h := C5_mtbf_mttr.2 cC5b 1 ⟨0, 0, 0, 0, 0, 10, 100, []⟩ []
    (by
    have h0 : nInit cC5b = .ok (⟨0, true, [], 0, 0, 0, 0,
        [], none, [],
        [⟨20, NKind.server_fail, none⟩], 1, 0,
        []⟩ : NState) := by
      norm_num [nInit, cC5b, weibull_rvs, List.mapM, List.mapM.loop, bind,
        Except.bind, pure, Except.pure]
    have h1 : nStep cC5b (⟨0, true, [], 0, 0, 0, 0,
        [], none, [],
        [⟨20, NKind.server_fail, none⟩], 1, 0,
        []⟩ : NState) = .ok (.brk (⟨0, true, [], 0, 0, 0, 0,
        [], none, [],
        [], 1, 0,
        []⟩ : NState)) := by
      norm_num [nStep, cC5b, popMin, nLe, nKey, NKind.rank, weibull_rvs, uniform,
        bind, Except.bind, pure, Except.pure, Prod.Lex.le_iff, reduceCtorEq]
    have hfin : nFinish cC5b (⟨0, true, [], 0, 0, 0, 0,
        [], none, [],
        [], 1, 0,
        []⟩ : NState) =
        .ok ((⟨0, 0, 0, 0, 0, 10, 100, []⟩ : ServerRes), []) := by
      norm_num [nFinish, cC5b, closeOpenDiskIntervals, NCtx.totalLostPerHour]
    norm_num [simulate_server_and_disks, nIter, h0, h1, hfin, bind,
      Except.bind, pure, Except.pure]
      )
  refine ⟨h.2.1, ?_⟩
  norm_num

/-- C2: for every completed trial of either engine, total downtime lies
in `[0, horizon]` and the availability percentage in `[0, 100]`; in
`simulationNorm`, which records outage intervals, every recorded server
or disk interval is closed and satisfies
`0 ≤ start ≤ end ≤ horizon`. -/
theorem C2_interval_bounds :
    (∀ (p : DataCenterPolicy) (dur : ℚ) (w : ℕ → ℚ) (fuel : ℕ) (r : RunResult),
      0 ≤ dur → 0 ≤ p.repair_time → (∀ n, 0 ≤ w n) →
      simulate_policy p dur w fuel = .ok (some r) →
      0 ≤ r.total_downtime ∧ r.total_downtime ≤ dur ∧
      0 ≤ r.availability ∧ r.availability ≤ 100) ∧
    (∀ (c : NCtx) (fuel : ℕ) (srv : ServerRes) (dres : List DiskRes),
      (∀ n, 0 ≤ c.u n) → (∀ n, 0 ≤ c.w n) →
      simulate_server_and_disks c fuel = .ok (some (srv, dres)) →
      (0 ≤ srv.downtime ∧ srv.downtime ≤ c.sim_duration) ∧
      (∀ iv ∈ srv.downtime_intervalsRev, 0 ≤ iv.1 ∧ iv.1 ≤ iv.2 ∧
        iv.2 ≤ c.sim_duration) ∧
      (0 ≤ srv.availability_percent ∧ srv.availability_percent ≤ 100) ∧
      (∀ d ∈ dres, (0 ≤ d.downtime ∧ d.downtime ≤ c.sim_duration) ∧
        (∀ pr ∈ d.downtime_intervalsRev, ∃ en, pr.2 = some en ∧ 0 ≤ pr.1 ∧
          pr.1 ≤ en ∧ en ≤ c.sim_duration) ∧
        (0 ≤ d.availability_percent ∧ d.availability_percent ≤ 100))) := by
  constructor
  · intro p dur w fuel r hdur hrt hw hsim
    obtain ⟨h1, h2, _, _, h5, h6⟩ := simulate_policy_bounds hdur hrt hw hsim
    exact ⟨h1, h2, h5, h6⟩
  · intro c fuel srv dres hu hw hsim
    exact simulate_ssd_bounds hu hw hsim

/-- C2 witness: the bounds applied to a completed `simulationNorm`
trial. -/
theorem C2_witness :
    (0 : ℚ) ≤ (⟨0, 0, 0, 0, 0, 10, 100, []⟩ : ServerRes).downtime ∧
    (⟨0, 0, 0, 0, 0, 10, 100, []⟩ : ServerRes).downtime ≤ cC5b.sim_duration :=
  (C2_interval_bounds.2 cC5b 1 ⟨0, 0, 0, 0, 0, 10, 100, []⟩ []
    (fun _ => by norm_num [cC5b]) (fun _ => by norm_num [cC5b])
    (by
    have h0 : nInit cC5b = .ok (⟨0, true, [], 0, 0, 0, 0,
        [], none, [],
        [⟨20, NKind.server_fail, none⟩], 1, 0,
        []⟩ : NState) := by
      norm_num [nInit, cC5b, weibull_rvs, List.mapM, List.mapM.loop, bind,
        Except.bind, pure, Except.pure]
    have h1 : nStep cC5b (⟨0, true, [], 0, 0, 0, 0,
        [], none, [],
        [⟨20, NKind.server_fail, none⟩], 1, 0,
        []⟩ : NState) = .ok (.brk (⟨0, true, [], 0, 0, 0, 0,
        [], none, [],
        [], 1, 0,
        []⟩ : NState)) := by
      norm_num [nStep, cC5b, popMin, nLe, nKey, NKind.rank, weibull_rvs, uniform,
        bind, Except.bind, pure, Except.pure, Prod.Lex.le_iff, reduceCtorEq]
    have hfin : nFinish cC5b (⟨0, true, [], 0, 0, 0, 0,
        [], none, [],
        [], 1, 0,
        []⟩ : NState) =
        .ok ((⟨0, 0, 0, 0, 0, 10, 100, []⟩ : ServerRes), []) := by
      norm_num [nFinish, cC5b, closeOpenDiskIntervals, NCtx.totalLostPerHour]
    norm_num [simulate_server_and_disks, nIter, h0, h1, hfin, bind,
      Except.bind, pure, Except.pure]
      )).1

/-- C3: `simulationNorm` clips repairs: in every state reachable inside
`simulate_server_and_disks`, every pending repair event lies at or before
the horizon.  `simulation.py` does not clip: a processed failure always
schedules its repair at exactly `event_time + repair_time`, past the
horizon or not — yet its reported downtime still never exceeds the
horizon, because the loop breaks before such a repair is processed and
the epilogue closes the outage at the horizon. -/
theorem C3_repair_clipping :
    (∀ (c : NCtx) (k : ℕ) (s0 : NState) (st : NIterSt),
      (∀ n, 0 ≤ c.u n) → (∀ n, 0 ≤ c.w n) →
      nInit c = .ok s0 → nIter c k (.running s0) = .ok st →
      ∀ e ∈ (NIterSt.state st).events,
        (e.kind = NKind.disk_repair ∨ e.kind = NKind.server_repair) →
        e.time ≤ c.sim_duration) ∧
    (∀ (p : DataCenterPolicy) (dur : ℚ) (w : ℕ → ℚ) (s s' : PyState)
      (e : PyEvent) (rest : List PyEvent),
      popMin pyLe s.events = some (e, rest) → e.kind = PyKind.failure →
      pyStep p dur w s = .ok (.cont s') →
      (⟨e.time + p.repair_time, PyKind.repair, e.idx⟩ : PyEvent) ∈ s'.events) ∧
    (∀ (p : DataCenterPolicy) (dur : ℚ) (w : ℕ → ℚ) (fuel : ℕ) (r : RunResult),
      0 ≤ dur → 0 ≤ p.repair_time → (∀ n, 0 ≤ w n) →
      simulate_policy p dur w fuel = .ok (some r) → r.total_downtime ≤ dur) := by
  refine ⟨?_, ?_, ?_⟩
  · intro c k s0 st hu hw hinit hiter
    have hG0 := nInit_good hw hinit
    have htr := nIter_inv (c := c) (NGood c) (NGood c)
      (fun s s' hs hstep => nStep_cont_good hu hw hs hstep)
      (fun s s' hs hstep => (nStep_brk_good hs hstep).1)
      (fun s hs _ => hs)
      k s0 st hG0 hiter
    rcases htr with ⟨s2, hst, hG⟩ | ⟨s2, hst, hG⟩ <;> rw [hst] <;>
      exact hG.repairs_le
  · intro p dur w s s' e rest hpop hk h
    simp only [pyStep, hpop] at h
    by_cases hbrk : dur < e.time
    · rw [if_pos hbrk] at h
      exact absurd h (by simp)
    · rw [if_neg hbrk, if_pos hk] at h
      by_cases hg : (system_failed_check p.raid_level p.number_of_disks
          (s.failedDisks + 1) && !s.systemDown) = true
      · rw [if_pos hg] at h
        simp only [Except.ok.injEq, PyLoopRes.cont.injEq] at h
        rw [← h]
        exact List.mem_append.mpr (Or.inr (List.mem_singleton.mpr rfl))
      · rw [if_neg hg] at h
        simp only [Except.ok.injEq, PyLoopRes.cont.injEq] at h
        rw [← h]
        exact List.mem_append.mpr (Or.inr (List.mem_singleton.mpr rfl))
  · intro p dur w fuel r hdur hrt hw hsim
    exact (simulate_policy_bounds hdur hrt hw hsim).2.1

/-- C3 counterexample: with horizon 5 and repair time 10, the failure at
`t = 1` schedules its repair at `t = 11 > 5` — `simulation.py` does not
clip the repair to the horizon. -/
theorem C3_counterexample :
    ∃ s0 s1, pyInit p0 w0 = .ok s0 ∧ pyStep p0 5 w0 s0 = .ok (.cont s1) ∧
      (⟨11, PyKind.repair, 0⟩ : PyEvent) ∈ s1.events ∧ (5 : ℚ) < 11 := by
  refine ⟨{ currentTime := 0
            disksFailed := [false, false]
            failedDisks := 0
            systemDown := false
            downtimeStart := none
            totalDowntime := 0
            totalMaintenanceCost := 0
            totalReplacements := 0
            events := [⟨1, PyKind.failure, 0⟩, ⟨2, PyKind.failure, 1⟩]
            rng := 2 },
          { currentTime := 1
            disksFailed := [true, false]
            failedDisks := 1
            systemDown := true
            downtimeStart := some 1
            totalDowntime := 0
            totalMaintenanceCost := 3
            totalReplacements := 1
            events := [⟨2, PyKind.failure, 1⟩, ⟨11, PyKind.repair, 0⟩]
            rng := 2 }, ?_, ?_, by norm_num, by norm_num⟩
  · norm_num [pyInit, pyInitEvents, p0, w0, weibull_rvs, List.mapM, List.mapM.loop,
      bind, Except.bind, pure, Except.pure, List.replicate]
  · norm_num [pyStep, popMin, pyLe, pyKey, PyKind.rank, p0, w0,
      system_failed_check, weibull_rvs, bind, Except.bind, pure, Except.pure,
      Prod.Lex.le_iff, reduceCtorEq]

/-- C3 witness: the unclipped-scheduling law applied to the first failure
of the `p0` trial at horizon 5. -/
theorem C3_witness :
    (⟨11, PyKind.repair, 0⟩ : PyEvent) ∈
      ({ currentTime := 1
         disksFailed := [true, false]
         failedDisks := 1
         systemDown := true
         downtimeStart := some 1
         totalDowntime := 0
         totalMaintenanceCost := 3
         totalReplacements := 1
         events := [⟨2, PyKind.failure, 1⟩, ⟨11, PyKind.repair, 0⟩]
         rng := 2 } : PyState).events := by
  have h := C3_repair_clipping.2.1 p0 5 w0
    { currentTime := 0
      disksFailed := [false, false]
      failedDisks := 0
      systemDown := false
      downtimeStart := none
      totalDowntime := 0
      totalMaintenanceCost := 0
      totalReplacements := 0
      events := [⟨1, PyKind.failure, 0⟩, ⟨2, PyKind.failure, 1⟩]
      rng := 2 }
    { currentTime := 1
      disksFailed := [true, false]
      failedDisks := 1
      systemDown := true
      downtimeStart := some 1
      totalDowntime := 0
      totalMaintenanceCost := 3
      totalReplacements := 1
      events := [⟨2, PyKind.failure, 1⟩, ⟨11, PyKind.repair, 0⟩]
      rng := 2 }
    ⟨1, PyKind.failure, 0⟩ [⟨2, PyKind.failure, 1⟩]
    (by norm_num [popMin, pyLe, pyKey, PyKind.rank, Prod.Lex.le_iff]) rfl
    (by norm_num [pyStep, popMin, pyLe, pyKey, PyKind.rank, p0, w0,
      system_failed_check, weibull_rvs, bind, Except.bind, pure, Except.pure,
      Prod.Lex.le_iff, reduceCtorEq])
  have h10 : (1 : ℚ) + p0.repair_time = 11 := by norm_num [p0]
  rw [h10] at h
  exact h

/-- C10: what the code guarantees after a server failure strikes while a
disk is already down: from that moment the disk never generates another
failure event — no `disk_fail` event for it is ever pending or processed
again — and any later-processed event addressing that disk is a
`disk_repair` that is ignored.  (The spec's claimed ordering — server
repair before the pending disk repair — is not guaranteed; the pending
disk repair may also be processed first and ignored because the server is
down, see the counterexample.) -/
theorem C10_disk_never_fails_again :
    ∀ (c : NCtx) (i k fuel : ℕ) (s0 s : NState) (e : NEvent)
      (rest : List NEvent) (s1 sf : NState),
      (∀ n, 0 ≤ c.u n) → (∀ n, 0 ≤ c.w n) → i < c.server.disks.length →
      nInit c = .ok s0 → nIter c k (.running s0) = .ok (.running s) →
      popMin nLe s.events = some (e, rest) → e.kind = NKind.server_fail →
      s.serverUp = true → s.diskUp.getD i true = false →
      nStep c s = .ok (.cont s1) → nIter c fuel (.running s1) = .ok (.done sf) →
      sf.events.countP (isDiskFailFor i) = 0 ∧
      ∃ t1, sf.trace = s1.trace ++ t1 ∧ ∀ pr ∈ t1,
        isDiskFailFor i pr.1 = false ∧
        (isForDisk i pr.1 = true → pr.1.kind = NKind.disk_repair →
          pr.2 = false) := by
  intro c i k fuel s0 s e rest s1 sf hu hw hi hinit hreach hpop hk hup hdn
    hstep hiter
  have hG0 := nInit_good hw hinit
  have htr := nIter_inv (c := c) (NGood c) (NGood c)
    (fun a b hs hstep' => nStep_cont_good hu hw hs hstep')
    (fun a b hs hstep' => (nStep_brk_good hs hstep').1)
    (fun a hs _ => hs) k s0 (.running s) hG0 hreach
  have hGs : NGood c s := by
    rcases htr with ⟨s2, hst, hG⟩ | ⟨s2, hst, _⟩
    · have heq : s = s2 := by injection hst
      rw [heq]
      exact hG
    · exact absurd hst (by simp)
  obtain ⟨hNMF, _⟩ := nStep_serverfail_nmf hGs hi hpop hk hup hdn hstep
  have hG1 : NGood c s1 := nStep_cont_good hu hw hGs hstep
  have htr2 := nIter_inv (c := c)
    (fun st => NGood c st ∧ NMF i s1.trace st)
    (fun st => NGood c st ∧ NMF i s1.trace st)
    (fun a b hs hstep' => ⟨nStep_cont_good hu hw hs.1 hstep',
      nStep_nmf hi hs.1 hs.2 hstep'⟩)
    (fun a b hs hstep' => ⟨(nStep_brk_good hs.1 hstep').1,
      nStep_brk_nmf hs.2 hstep'⟩)
    (fun a hs _ => hs) fuel s1 (.done sf) ⟨hG1, hNMF⟩ hiter
  have hQ : NMF i s1.trace sf := by
    rcases htr2 with ⟨s2, hst, _⟩ | ⟨s2, hst, hQ⟩
    · exact absurd hst (by simp)
    · have heq : sf = s2 := by injection hst
      rw [heq]
      exact hQ.2
  obtain ⟨hcnt, _, t1, ht1, hall⟩ := hQ
  exact ⟨hcnt, t1, ht1, hall⟩

/-- C10 counterexample: in the `cN` trial the disk fails at `t = 10`, the
server fails at `t = 11`, and the disk's pending `disk_repair` is
processed — and ignored, the server being down — at `t = 12`, BEFORE the
`server_repair` at `t = 13` marks the disk up: the spec's "the server
repair marks that disk up before its pending disk_repair event is
processed" does not hold.  (The trial still ends with the disk never
failing again, as the amended claim states.) -/
theorem C10_counterexample :
    ∃ s0 sf, nInit cN = .ok s0 ∧ nIter cN 4 (.running s0) = .ok (.done sf) ∧
      sf.trace = [(⟨10, NKind.disk_fail, some 0⟩, true),
                  (⟨11, NKind.server_fail, none⟩, true),
                  (⟨12, NKind.disk_repair, some 0⟩, false),
                  (⟨13, NKind.server_repair, none⟩, true)] := by
  have h0 : nInit cN = .ok (⟨0, true, [true], 0, 0, 0, 0, [], none,
        [(⟨0, 0, 0, 0, 0, 0, 100, []⟩ : DiskRes)],
        [(⟨11, NKind.server_fail, none⟩ : NEvent), (⟨10, NKind.disk_fail, some 0⟩ : NEvent)], 2, 0,
        []⟩ : NState) := by
    norm_num [nInit, cN, weibull_rvs, List.mapM, List.mapM.loop, bind,
      Except.bind, pure, Except.pure, List.replicate, DiskRes.init]
  have h1 : nStep cN (⟨0, true, [true], 0, 0, 0, 0, [], none,
        [(⟨0, 0, 0, 0, 0, 0, 100, []⟩ : DiskRes)],
        [(⟨11, NKind.server_fail, none⟩ : NEvent), (⟨10, NKind.disk_fail, some 0⟩ : NEvent)], 2, 0,
        []⟩ : NState) = .ok (.cont (⟨10, true, [false], 0, 0, 0, 0, [], none,
        [(⟨0, 1, 3, 0, 0, 0, 100, [(10, none)]⟩ : DiskRes)],
        [(⟨11, NKind.server_fail, none⟩ : NEvent), (⟨12, NKind.disk_repair, some 0⟩ : NEvent)], 2, 1,
        [((⟨10, NKind.disk_fail, some 0⟩ : NEvent), true)]⟩ : NState)) := by
    norm_num [nStep, cN, popMin, nLe, nKey, NKind.rank, weibull_rvs, uniform,
        markDisksDown, closeDisksServerRepair, NCtx.totalLostPerHour,
        List.zipWith, bind, Except.bind, pure, Except.pure,
        Prod.Lex.le_iff, reduceCtorEq]
    try simp only [reduceCtorEq, if_false, if_true, eq_self_iff_true]
    try norm_num [nStep, cN, popMin, nLe, nKey, NKind.rank, weibull_rvs, uniform,
        markDisksDown, closeDisksServerRepair, NCtx.totalLostPerHour,
        List.zipWith, bind, Except.bind, pure, Except.pure,
        Prod.Lex.le_iff, reduceCtorEq]
    try simp only [reduceCtorEq, if_false, if_true, eq_self_iff_true]
    try norm_num [nStep, cN, popMin, nLe, nKey, NKind.rank, weibull_rvs, uniform,
        markDisksDown, closeDisksServerRepair, NCtx.totalLostPerHour,
        List.zipWith, bind, Except.bind, pure, Except.pure,
        Prod.Lex.le_iff, reduceCtorEq]
    all_goals decide
  have h2 : nStep cN (⟨10, true, [false], 0, 0, 0, 0, [], none,
        [(⟨0, 1, 3, 0, 0, 0, 100, [(10, none)]⟩ : DiskRes)],
        [(⟨11, NKind.server_fail, none⟩ : NEvent), (⟨12, NKind.disk_repair, some 0⟩ : NEvent)], 2, 1,
        [((⟨10, NKind.disk_fail, some 0⟩ : NEvent), true)]⟩ : NState) = .ok (.cont (⟨11, false, [false], 2, 1, 5, 0, [(11, 13)], some 11,
        [(⟨0, 1, 3, 0, 0, 0, 100, [(10, none)]⟩ : DiskRes)],
        [(⟨12, NKind.disk_repair, some 0⟩ : NEvent), (⟨13, NKind.server_repair, none⟩ : NEvent)], 2, 2,
        [((⟨10, NKind.disk_fail, some 0⟩ : NEvent), true),
         ((⟨11, NKind.server_fail, none⟩ : NEvent), true)]⟩ : NState)) := by
    norm_num [nStep, cN, popMin, nLe, nKey, NKind.rank, weibull_rvs, uniform,
        markDisksDown, closeDisksServerRepair, NCtx.totalLostPerHour,
        List.zipWith, bind, Except.bind, pure, Except.pure,
        Prod.Lex.le_iff, reduceCtorEq]
    try simp only [reduceCtorEq, if_false, if_true, eq_self_iff_true]
    try norm_num [nStep, cN, popMin, nLe, nKey, NKind.rank, weibull_rvs, uniform,
        markDisksDown, closeDisksServerRepair, NCtx.totalLostPerHour,
        List.zipWith, bind, Except.bind, pure, Except.pure,
        Prod.Lex.le_iff, reduceCtorEq]
    try simp only [reduceCtorEq, if_false, if_true, eq_self_iff_true]
    try norm_num [nStep, cN, popMin, nLe, nKey, NKind.rank, weibull_rvs, uniform,
        markDisksDown, closeDisksServerRepair, NCtx.totalLostPerHour,
        List.zipWith, bind, Except.bind, pure, Except.pure,
        Prod.Lex.le_iff, reduceCtorEq]
    all_goals decide
  have h3 : nStep cN (⟨11, false, [false], 2, 1, 5, 0, [(11, 13)], some 11,
        [(⟨0, 1, 3, 0, 0, 0, 100, [(10, none)]⟩ : DiskRes)],
        [(⟨12, NKind.disk_repair, some 0⟩ : NEvent), (⟨13, NKind.server_repair, none⟩ : NEvent)], 2, 2,
        [((⟨10, NKind.disk_fail, some 0⟩ : NEvent), true),
         ((⟨11, NKind.server_fail, none⟩ : NEvent), true)]⟩ : NState) = .ok (.cont (⟨12, false, [false], 2, 1, 5, 0, [(11, 13)], some 11,
        [(⟨0, 1, 3, 0, 0, 0, 100, [(10, none)]⟩ : DiskRes)],
        [(⟨13, NKind.server_repair, none⟩ : NEvent)], 2, 2,
        [((⟨10, NKind.disk_fail, some 0⟩ : NEvent), true),
         ((⟨11, NKind.server_fail, none⟩ : NEvent), true),
         ((⟨12, NKind.disk_repair, some 0⟩ : NEvent), false)]⟩ : NState)) := by
    norm_num [nStep, cN, popMin, nLe, nKey, NKind.rank, weibull_rvs, uniform,
        markDisksDown, closeDisksServerRepair, NCtx.totalLostPerHour,
        List.zipWith, bind, Except.bind, pure, Except.pure,
        Prod.Lex.le_iff, reduceCtorEq]
    try simp only [reduceCtorEq, if_false, if_true, eq_self_iff_true]
    try norm_num [nStep, cN, popMin, nLe, nKey, NKind.rank, weibull_rvs, uniform,
        markDisksDown, closeDisksServerRepair, NCtx.totalLostPerHour,
        List.zipWith, bind, Except.bind, pure, Except.pure,
        Prod.Lex.le_iff, reduceCtorEq]
    try simp only [reduceCtorEq, if_false, if_true, eq_self_iff_true]
    try norm_num [nStep, cN, popMin, nLe, nKey, NKind.rank, weibull_rvs, uniform,
        markDisksDown, closeDisksServerRepair, NCtx.totalLostPerHour,
        List.zipWith, bind, Except.bind, pure, Except.pure,
        Prod.Lex.le_iff, reduceCtorEq]
    all_goals decide
  have h4 : nStep cN (⟨12, false, [false], 2, 1, 5, 0, [(11, 13)], some 11,
        [(⟨0, 1, 3, 0, 0, 0, 100, [(10, none)]⟩ : DiskRes)],
        [(⟨13, NKind.server_repair, none⟩ : NEvent)], 2, 2,
        [((⟨10, NKind.disk_fail, some 0⟩ : NEvent), true),
         ((⟨11, NKind.server_fail, none⟩ : NEvent), true),
         ((⟨12, NKind.disk_repair, some 0⟩ : NEvent), false)]⟩ : NState) = .ok (.cont (⟨13, true, [true], 2, 1, 5, 14, [(11, 13)], some 11,
        [(⟨3, 1, 3, 0, 0, 0, 100, [(10, some 13)]⟩ : DiskRes)],
        [], 3, 2,
        [((⟨10, NKind.disk_fail, some 0⟩ : NEvent), true),
         ((⟨11, NKind.server_fail, none⟩ : NEvent), true),
         ((⟨12, NKind.disk_repair, some 0⟩ : NEvent), false),
         ((⟨13, NKind.server_repair, none⟩ : NEvent), true)]⟩ : NState)) := by
    norm_num [nStep, cN, popMin, nLe, nKey, NKind.rank, weibull_rvs, uniform,
        markDisksDown, closeDisksServerRepair, NCtx.totalLostPerHour,
        List.zipWith, bind, Except.bind, pure, Except.pure,
        Prod.Lex.le_iff, reduceCtorEq]
    try simp only [reduceCtorEq, if_false, if_true, eq_self_iff_true]
    try norm_num [nStep, cN, popMin, nLe, nKey, NKind.rank, weibull_rvs, uniform,
        markDisksDown, closeDisksServerRepair, NCtx.totalLostPerHour,
        List.zipWith, bind, Except.bind, pure, Except.pure,
        Prod.Lex.le_iff, reduceCtorEq]
    try simp only [reduceCtorEq, if_false, if_true, eq_self_iff_true]
    try norm_num [nStep, cN, popMin, nLe, nKey, NKind.rank, weibull_rvs, uniform,
        markDisksDown, closeDisksServerRepair, NCtx.totalLostPerHour,
        List.zipWith, bind, Except.bind, pure, Except.pure,
        Prod.Lex.le_iff, reduceCtorEq]
    all_goals decide
  refine ⟨(⟨0, true, [true], 0, 0, 0, 0, [], none,
        [(⟨0, 0, 0, 0, 0, 0, 100, []⟩ : DiskRes)],
        [(⟨11, NKind.server_fail, none⟩ : NEvent), (⟨10, NKind.disk_fail, some 0⟩ : NEvent)], 2, 0,
        []⟩ : NState),
    (⟨13, true, [true], 2, 1, 5, 14, [(11, 13)], some 11,
        [(⟨3, 1, 3, 0, 0, 0, 100, [(10, some 13)]⟩ : DiskRes)],
        [], 3, 2,
        [((⟨10, NKind.disk_fail, some 0⟩ : NEvent), true),
         ((⟨11, NKind.server_fail, none⟩ : NEvent), true),
         ((⟨12, NKind.disk_repair, some 0⟩ : NEvent), false),
         ((⟨13, NKind.server_repair, none⟩ : NEvent), true)]⟩ : NState), h0, ?_, rfl⟩
  norm_num [nIter, h1, h2, h3, h4, bind, Except.bind, pure, Except.pure]

/-- C10 witness: the never-fails-again law applied to the `cN` trial,
watching disk `0` from the server failure at `t = 11` on. -/
theorem C10_witness :
    List.countP (isDiskFailFor 0) ([] : List NEvent) = 0 := by
  have h0 : nInit cN = .ok (⟨0, true, [true], 0, 0, 0, 0, [], none,
        [(⟨0, 0, 0, 0, 0, 0, 100, []⟩ : DiskRes)],
        [(⟨11, NKind.server_fail, none⟩ : NEvent), (⟨10, NKind.disk_fail, some 0⟩ : NEvent)], 2, 0,
        []⟩ : NState) := by
    norm_num [nInit, cN, weibull_rvs, List.mapM, List.mapM.loop, bind,
      Except.bind, pure, Except.pure, List.replicate, DiskRes.init]
  have h1 : nStep cN (⟨0, true, [true], 0, 0, 0, 0, [], none,
        [(⟨0, 0, 0, 0, 0, 0, 100, []⟩ : DiskRes)],
        [(⟨11, NKind.server_fail, none⟩ : NEvent), (⟨10, NKind.disk_fail, some 0⟩ : NEvent)], 2, 0,
        []⟩ : NState) = .ok (.cont (⟨10, true, [false], 0, 0, 0, 0, [], none,
        [(⟨0, 1, 3, 0, 0, 0, 100, [(10, none)]⟩ : DiskRes)],
        [(⟨11, NKind.server_fail, none⟩ : NEvent), (⟨12, NKind.disk_repair, some 0⟩ : NEvent)], 2, 1,
        [((⟨10, NKind.disk_fail, some 0⟩ : NEvent), true)]⟩ : NState)) := by
    norm_num [nStep, cN, popMin, nLe, nKey, NKind.rank, weibull_rvs, uniform,
        markDisksDown, closeDisksServerRepair, NCtx.totalLostPerHour,
        List.zipWith, bind, Except.bind, pure, Except.pure,
        Prod.Lex.le_iff, reduceCtorEq]
    try simp only [reduceCtorEq, if_false, if_true, eq_self_iff_true]
    try norm_num [nStep, cN, popMin, nLe, nKey, NKind.rank, weibull_rvs, uniform,
        markDisksDown, closeDisksServerRepair, NCtx.totalLostPerHour,
        List.zipWith, bind, Except.bind, pure, Except.pure,
        Prod.Lex.le_iff, reduceCtorEq]
    try simp only [reduceCtorEq, if_false, if_true, eq_self_iff_true]
    try norm_num [nStep, cN, popMin, nLe, nKey, NKind.rank, weibull_rvs, uniform,
        markDisksDown, closeDisksServerRepair, NCtx.totalLostPerHour,
        List.zipWith, bind, Except.bind, pure, Except.pure,
        Prod.Lex.le_iff, reduceCtorEq]
    all_goals decide
  have h2 : nStep cN (⟨10, true, [false], 0, 0, 0, 0, [], none,
        [(⟨0, 1, 3, 0, 0, 0, 100, [(10, none)]⟩ : DiskRes)],
        [(⟨11, NKind.server_fail, none⟩ : NEvent), (⟨12, NKind.disk_repair, some 0⟩ : NEvent)], 2, 1,
        [((⟨10, NKind.disk_fail, some 0⟩ : NEvent), true)]⟩ : NState) = .ok (.cont (⟨11, false, [false], 2, 1, 5, 0, [(11, 13)], some 11,
        [(⟨0, 1, 3, 0, 0, 0, 100, [(10, none)]⟩ : DiskRes)],
        [(⟨12, NKind.disk_repair, some 0⟩ : NEvent), (⟨13, NKind.server_repair, none⟩ : NEvent)], 2, 2,
        [((⟨10, NKind.disk_fail, some 0⟩ : NEvent), true),
         ((⟨11, NKind.server_fail, none⟩ : NEvent), true)]⟩ : NState)) := by
    norm_num [nStep, cN, popMin, nLe, nKey, NKind.rank, weibull_rvs, uniform,
        markDisksDown, closeDisksServerRepair, NCtx.totalLostPerHour,
        List.zipWith, bind, Except.bind, pure, Except.pure,
        Prod.Lex.le_iff, reduceCtorEq]
    try simp only [reduceCtorEq, if_false, if_true, eq_self_iff_true]
    try norm_num [nStep, cN, popMin, nLe, nKey, NKind.rank, weibull_rvs, uniform,
        markDisksDown, closeDisksServerRepair, NCtx.totalLostPerHour,
        List.zipWith, bind, Except.bind, pure, Except.pure,
        Prod.Lex.le_iff, reduceCtorEq]
    try simp only [reduceCtorEq, if_false, if_true, eq_self_iff_true]
    try norm_num [nStep, cN, popMin, nLe, nKey, NKind.rank, weibull_rvs, uniform,
        markDisksDown, closeDisksServerRepair, NCtx.totalLostPerHour,
        List.zipWith, bind, Except.bind, pure, Except.pure,
        Prod.Lex.le_iff, reduceCtorEq]
    all_goals decide
  have h3 : nStep cN (⟨11, false, [false], 2, 1, 5, 0, [(11, 13)], some 11,
        [(⟨0, 1, 3, 0, 0, 0, 100, [(10, none)]⟩ : DiskRes)],
        [(⟨12, NKind.disk_repair, some 0⟩ : NEvent), (⟨13, NKind.server_repair, none⟩ : NEvent)], 2, 2,
        [((⟨10, NKind.disk_fail, some 0⟩ : NEvent), true),
         ((⟨11, NKind.server_fail, none⟩ : NEvent), true)]⟩ : NState) = .ok (.cont (⟨12, false, [false], 2, 1, 5, 0, [(11, 13)], some 11,
        [(⟨0, 1, 3, 0, 0, 0, 100, [(10, none)]⟩ : DiskRes)],
        [(⟨13, NKind.server_repair, none⟩ : NEvent)], 2, 2,
        [((⟨10, NKind.disk_fail, some 0⟩ : NEvent), true),
         ((⟨11, NKind.server_fail, none⟩ : NEvent), true),
         ((⟨12, NKind.disk_repair, some 0⟩ : NEvent), false)]⟩ : NState)) := by
    norm_num [nStep, cN, popMin, nLe, nKey, NKind.rank, weibull_rvs, uniform,
        markDisksDown, closeDisksServerRepair, NCtx.totalLostPerHour,
        List.zipWith, bind, Except.bind, pure, Except.pure,
        Prod.Lex.le_iff, reduceCtorEq]
    try simp only [reduceCtorEq, if_false, if_true, eq_self_iff_true]
    try norm_num [nStep, cN, popMin, nLe, nKey, NKind.rank, weibull_rvs, uniform,
        markDisksDown, closeDisksServerRepair, NCtx.totalLostPerHour,
        List.zipWith, bind, Except.bind, pure, Except.pure,
        Prod.Lex.le_iff, reduceCtorEq]
    try simp only [reduceCtorEq, if_false, if_true, eq_self_iff_true]
    try norm_num [nStep, cN, popMin, nLe, nKey, NKind.rank, weibull_rvs, uniform,
        markDisksDown, closeDisksServerRepair, NCtx.totalLostPerHour,
        List.zipWith, bind, Except.bind, pure, Except.pure,
        Prod.Lex.le_iff, reduceCtorEq]
    all_goals decide
  have h4 : nStep cN (⟨12, false, [false], 2, 1, 5, 0, [(11, 13)], some 11,
        [(⟨0, 1, 3, 0, 0, 0, 100, [(10, none)]⟩ : DiskRes)],
        [(⟨13, NKind.server_repair, none⟩ : NEvent)], 2, 2,
        [((⟨10, NKind.disk_fail, some 0⟩ : NEvent), true),
         ((⟨11, NKind.server_fail, none⟩ : NEvent), true),
         ((⟨12, NKind.disk_repair, some 0⟩ : NEvent), false)]⟩ : NState) = .ok (.cont (⟨13, true, [true], 2, 1, 5, 14, [(11, 13)], some 11,
        [(⟨3, 1, 3, 0, 0, 0, 100, [(10, some 13)]⟩ : DiskRes)],
        [], 3, 2,
        [((⟨10, NKind.disk_fail, some 0⟩ : NEvent), true),
         ((⟨11, NKind.server_fail, none⟩ : NEvent), true),
         ((⟨12, NKind.disk_repair, some 0⟩ : NEvent), false),
         ((⟨13, NKind.server_repair, none⟩ : NEvent), true)]⟩ : NState)) := by
    norm_num [nStep, cN, popMin, nLe, nKey, NKind.rank, weibull_rvs, uniform,
        markDisksDown, closeDisksServerRepair, NCtx.totalLostPerHour,
        List.zipWith, bind, Except.bind, pure, Except.pure,
        Prod.Lex.le_iff, reduceCtorEq]
    try simp only [reduceCtorEq, if_false, if_true, eq_self_iff_true]
    try norm_num [nStep, cN, popMin, nLe, nKey, NKind.rank, weibull_rvs, uniform,
        markDisksDown, closeDisksServerRepair, NCtx.totalLostPerHour,
        List.zipWith, bind, Except.bind, pure, Except.pure,
        Prod.Lex.le_iff, reduceCtorEq]
    try simp only [reduceCtorEq, if_false, if_true, eq_self_iff_true]
    try norm_num [nStep, cN, popMin, nLe, nKey, NKind.rank, weibull_rvs, uniform,
        markDisksDown, closeDisksServerRepair, NCtx.totalLostPerHour,
        List.zipWith, bind, Except.bind, pure, Except.pure,
        Prod.Lex.le_iff, reduceCtorEq]
    all_goals decide
  have hreach : nIter cN 1 (.running (⟨0, true, [true], 0, 0, 0, 0, [], none,
        [(⟨0, 0, 0, 0, 0, 0, 100, []⟩ : DiskRes)],
        [(⟨11, NKind.server_fail, none⟩ : NEvent), (⟨10, NKind.disk_fail, some 0⟩ : NEvent)], 2, 0,
        []⟩ : NState)) = .ok (.running (⟨10, true, [false], 0, 0, 0, 0, [], none,
        [(⟨0, 1, 3, 0, 0, 0, 100, [(10, none)]⟩ : DiskRes)],
        [(⟨11, NKind.server_fail, none⟩ : NEvent), (⟨12, NKind.disk_repair, some 0⟩ : NEvent)], 2, 1,
        [((⟨10, NKind.disk_fail, some 0⟩ : NEvent), true)]⟩ : NState)) := by
    norm_num [nIter, h1, bind, Except.bind, pure, Except.pure]
  have hiter : nIter cN 3 (.running (⟨11, false, [false], 2, 1, 5, 0, [(11, 13)], some 11,
        [(⟨0, 1, 3, 0, 0, 0, 100, [(10, none)]⟩ : DiskRes)],
        [(⟨12, NKind.disk_repair, some 0⟩ : NEvent), (⟨13, NKind.server_repair, none⟩ : NEvent)], 2, 2,
        [((⟨10, NKind.disk_fail, some 0⟩ : NEvent), true),
         ((⟨11, NKind.server_fail, none⟩ : NEvent), true)]⟩ : NState)) = .ok (.done (⟨13, true, [true], 2, 1, 5, 14, [(11, 13)], some 11,
        [(⟨3, 1, 3, 0, 0, 0, 100, [(10, some 13)]⟩ : DiskRes)],
        [], 3, 2,
        [((⟨10, NKind.disk_fail, some 0⟩ : NEvent), true),
         ((⟨11, NKind.server_fail, none⟩ : NEvent), true),
         ((⟨12, NKind.disk_repair, some 0⟩ : NEvent), false),
         ((⟨13, NKind.server_repair, none⟩ : NEvent), true)]⟩ : NState)) := by
    norm_num [nIter, h3, h4, bind, Except.bind, pure, Except.pure]
  exact (C10_disk_never_fails_again cN 0 1 3 _ _
    (⟨11, NKind.server_fail, none⟩ : NEvent) [(⟨12, NKind.disk_repair, some 0⟩ : NEvent)] _ _
    (fun n => by norm_num [cN])
    (fun n => by
      norm_num [cN]
      split_ifs <;> norm_num)
    (by norm_num [cN]) h0 hreach
    (by norm_num [popMin, nLe, nKey, NKind.rank, Prod.Lex.le_iff]) rfl rfl rfl
    h2 hiter).1

end DCSim
